import Mathlib

/-!
# Morax core: a shallow embedding with verified properties

This file embeds the core algorithms of the Morax message broker
(Kafka-compatible wire codec, offset/split commit transaction, consumer-group
protocol selection, acknowledgement range engine, Pub/Sub pull) as executable
Lean definitions translated from the Rust sources, and proves (or refutes)
the specified properties about them.

Machine integers are modelled as `Int`/`Nat` with explicit two's-complement
truncation (`% 2 ^ w` plus sign adjustment) at the points where the Rust code
performs casts or where overflow is possible; byte buffers are `List Nat`
with every element a byte value below 256.
-/

namespace Morax

/-! ## Offset and split commit transaction

Translated from `crates/meta/src/service/pubsub.rs`, `commit_record_batches`.
The per-`(topic_id, partition_id)` database state is the `last_offset` row of
`topic_partitions` plus that partition's rows of `topic_partition_splits`
(kept in insertion order).  The serializable transaction (`FOR UPDATE` row
lock) makes every successful commit an atomic state transition, so a
sequence of successful commits is modelled by iterating the transition. -/

structure PartitionState where
  last_offset : Int
  splits : List (Int × Int)
  deriving Repr, DecidableEq

/-- A freshly created partition: `last_offset = 0`, no split rows. -/
def freshPartition : PartitionState := ⟨0, []⟩

/-- One successful `commit_record_batches` call: reads `start` from the
offsets row, sets `last_offset = start + record_len`, inserts the split row
`(start, end)` and returns `(start_offset, end_offset)`. -/
def commit_record_batches (st : PartitionState) (record_len : Int) :
    (Int × Int) × PartitionState :=
  let start_offset := st.last_offset
  let last_offset := start_offset + record_len
  ((start_offset, last_offset),
    ⟨last_offset, st.splits ++ [(start_offset, last_offset)]⟩)

/-- Iterate `commit_record_batches` over a sequence of `record_len` values,
collecting the returned `start_offset`s. -/
def commitAll : PartitionState → List Int → List Int × PartitionState
  | st, [] => ([], st)
  | st, len :: rest =>
    let r := commit_record_batches st len
    let rec' := commitAll r.2 rest
    (r.1.1 :: rec'.1, rec'.2)

/-- `chainedSplits lo splits hi` says the split rows tile `[lo, hi)` exactly:
each row starts where the previous one ended, each is non-empty, the first
starts at `lo` and the last ends at `hi`. -/
def chainedSplits : Int → List (Int × Int) → Int → Prop
  | lo, [], hi => lo = hi
  | lo, (s, e) :: rest, hi => s = lo ∧ s < e ∧ chainedSplits e rest hi

/-! ## Acknowledgement range engine

Translated from `crates/meta/src/service/subscription.rs`, `merge_ranges`.
Ranges are half-open `(start, end)` pairs of `i64`; `Vec::sort` on
`(i64, i64)` is lexicographic, modelled by `List.mergeSort rangeLe`
(both sorts are stable, and output equality is all we use). -/

/-- Lexicographic `≤` on `(i64, i64)` pairs, the `Ord` instance used by
`ranges.sort()`. -/
def rangeLe (a b : Int × Int) : Bool :=
  decide (a.1 < b.1) || (decide (a.1 = b.1) && decide (a.2 ≤ b.2))

/-- The left-to-right sweep of `merge_ranges`: extend `current` while the
next range starts at or before `current.1`'s end, otherwise emit `current`
and restart from the next range; emit the final `current`. -/
def mergeSweep : Int × Int → List (Int × Int) → List (Int × Int)
  | current, [] => [current]
  | current, r :: rest =>
    if r.1 ≤ current.2 then mergeSweep (current.1, max current.2 r.2) rest
    else current :: mergeSweep r rest

/-- `merge_ranges`: return inputs of length at most 1 unchanged, otherwise
sort and sweep. -/
def merge_ranges (ranges : List (Int × Int)) : List (Int × Int) :=
  if ranges.length ≤ 1 then ranges
  else
    match ranges.mergeSort rangeLe with
    | [] => []
    | r :: rest => mergeSweep r rest

/-! ## Consumer-group coordinator: protocol selection

Translated from `crates/kafka-broker/src/broker/group.rs`
(`GroupMetaBiz::{add, make_next_generation, select_protocol,
candidate_protocols}`) over the `GroupMeta`/`MemberMeta` model of
`crates/meta/src/model.rs`.  Rust `BTreeMap`/`BTreeSet` of `String` keys are
modelled as association lists kept sorted by the byte-lexicographic string
order (`strLt`, which on UTF-8 agrees with code-point order); iteration is
in ascending key order, as for the B-trees.  A member's `protocols` B-tree
map is kept as the list of protocol names in the order the member declared
them: the code only ever queries key membership, which is order-independent.
The `.expect(..)` panic inside `select_protocol`'s vote closure is modelled
as an `Except.error`. -/

/-- Lexicographic comparison of character lists (Rust `Ord` on `String`). -/
def charListLt : List Char → List Char → Bool
  | [], [] => false
  | [], _ :: _ => true
  | _ :: _, [] => false
  | c :: cs, d :: ds => if c < d then true else if d < c then false else charListLt cs ds

/-- Rust's `String` ordering: lexicographic on the character sequence. -/
def strLt (a b : String) : Bool := charListLt a.data b.data

structure MemberMeta where
  member_id : String
  protocol_type : String
  protocols : List String
  deriving Repr, DecidableEq

/-- Insert into a sorted duplicate-free list (`BTreeSet::insert`). -/
def insertSortedStr : String → List String → List String
  | x, [] => [x]
  | x, y :: ys =>
    if strLt x y then x :: y :: ys
    else if x = y then y :: ys
    else y :: insertSortedStr x ys

/-- `GroupMetaBiz::candidate_protocols`: the members' protocol names
flat-mapped and collected into a `BTreeSet` (sorted union). -/
def candidate_protocols (members : List MemberMeta) : List String :=
  (members.flatMap MemberMeta.protocols).foldl (fun acc p => insertSortedStr p acc) []

/-- The `vote` closure in `select_protocol`: the first candidate (ascending
order) whose name the member's protocol map contains. -/
def vote (m : MemberMeta) (candidates : List String) : Option String :=
  candidates.find? (fun p => m.protocols.contains p)

/-- `*(votes.entry(vote_for).or_insert(0)) += 1` on a `BTreeMap<String, i32>`
kept as a sorted association list. -/
def bumpVote : List (String × Nat) → String → List (String × Nat)
  | [], p => [(p, 1)]
  | (q, n) :: rest, p =>
    if strLt p q then (p, 1) :: (q, n) :: rest
    else if p = q then (q, n + 1) :: rest
    else (q, n) :: bumpVote rest p

/-- The vote-collection loop of `select_protocol`; a member whose vote fails
hits the `.expect(..)` panic, modelled as an error. -/
def tallyVotes (candidates : List String) :
    List MemberMeta → List (String × Nat) → Except String (List (String × Nat))
  | [], acc => .ok acc
  | m :: rest, acc =>
    match vote m candidates with
    | some p => tallyVotes candidates rest (bumpVote acc p)
    | none => .error "member does not support any of the candidate protocols"

/-- `GroupMetaBiz::select_protocol`: tally the votes, then
`votes.iter().map(|(k, v)| (v, k)).next().map(|(_, selected)| selected)` —
the first entry of the vote map in ascending key order. -/
def select_protocol (members : List MemberMeta) : Except String (Option String) := do
  let candidates := candidate_protocols members
  let votes ← tallyVotes candidates members []
  pure ((votes.map (fun kv => (kv.2, kv.1))).head?.map Prod.snd)

structure GroupMeta where
  generation_id : Int
  leader_id : Option String
  protocol_type : Option String
  protocol : Option String
  members : List (String × MemberMeta)
  deriving Repr, DecidableEq

/-- A fresh empty group as inserted by `upsert(insert_if_missing = true)`. -/
def freshGroupMeta : GroupMeta := ⟨0, none, none, none, []⟩

/-- `BTreeMap::insert` on the sorted member map. -/
def insertMember : List (String × MemberMeta) → String → MemberMeta →
    List (String × MemberMeta)
  | [], k, v => [(k, v)]
  | (k', v') :: rest, k, v =>
    if strLt k k' then (k, v) :: (k', v') :: rest
    else if k = k' then (k', v) :: rest
    else (k', v') :: insertMember rest k v

/-- `GroupMetaBiz::make_next_generation`: bump the generation and re-select
the protocol (`None` when the group is empty). -/
def make_next_generation (g : GroupMeta) : Except String GroupMeta :=
  let g' : GroupMeta := { g with generation_id := g.generation_id + 1 }
  if g'.members.isEmpty then
    .ok { g' with protocol := none }
  else do
    let p ← select_protocol (g'.members.map Prod.snd)
    pure { g' with protocol := p }

/-- `GroupMetaBiz::add`: adopt the first member's protocol type, elect a
leader if absent, upsert the member, then advance the generation.  (The two
`debug_assert`s of the source are assertions, not behaviour, and are
omitted.) -/
def GroupMetaBiz.add (g : GroupMeta) (m : MemberMeta) : Except String GroupMeta :=
  let g1 : GroupMeta :=
    if g.members.isEmpty then { g with protocol_type := some m.protocol_type } else g
  let g2 : GroupMeta :=
    if g1.leader_id.isNone then { g1 with leader_id := some m.member_id } else g1
  let g3 : GroupMeta := { g2 with members := insertMember g2.members m.member_id m }
  make_next_generation g3

/-! ## Kafka codec: unsigned varint and varlong

Translated from `api/kafka-api/src/codec/mod.rs`:
`write_unsigned_varint` / `write_unsigned_varlong` (their bodies are
token-identical: `while v >= 0x80 { buf.write_u8((v as u8) | 0x80)?; v >>= 7 }
buf.write_u8(v as u8)`), `VarInt::calculate_size` / `VarLong::calculate_size`
(identical loops), and `read_unsigned_varint` / `read_unsigned_varlong`
(identical except for the accumulator width).  The signed comparison
`v >= 0x80` and the arithmetic right shift `v >>= 7` (floor division by 128,
only reached for positive `v`) act on the mathematical value; `v as u8`
keeps the low 8 bits.  The reader is modelled with release-profile
semantics: the `debug_assert!` on the byte index is compiled out, a shift
amount is masked modulo the width, and value bits shifted beyond the width
are truncated (`% 2 ^ w`). -/

/-- Reinterpret a machine word (`w` bits) as a signed two's-complement
integer. -/
def toSigned (w : Nat) (p : Nat) : Int :=
  if 2 ^ (w - 1) ≤ p % 2 ^ w then ((p % 2 ^ w : Nat) : Int) - 2 ^ w
  else ((p % 2 ^ w : Nat) : Int)

/-- `write_unsigned_varint` (and `write_unsigned_varlong`). -/
def write_unsigned_varint (v : Int) : List Nat :=
  if h : 128 ≤ v then ((v % 256).toNat ||| 128) :: write_unsigned_varint (v / 128)
  else [(v % 256).toNat]
termination_by v.toNat
decreasing_by omega

/-- `write_unsigned_varlong`: its body is identical to
`write_unsigned_varint`'s (only the argument type differs, `i64` vs `i32`),
so the `Int` model is shared. -/
def write_unsigned_varlong (v : Int) : List Nat := write_unsigned_varint v

/-- `VarInt::calculate_size` (and `VarLong::calculate_size`):
`res = 1; while v >= 0x80 { res += 1; v >>= 7 }`. -/
def varint_calculate_size (v : Int) : Nat :=
  if h : 128 ≤ v then 1 + varint_calculate_size (v / 128)
  else 1
termination_by v.toNat
decreasing_by omega

/-- `VarLong::calculate_size`, identical loop to `VarInt::calculate_size`. -/
def varlong_calculate_size (v : Int) : Nat := varint_calculate_size v

/-- The reader loop of `read_unsigned_varint` (`w = 32`) and
`read_unsigned_varlong` (`w = 64`): `res |= (next & 0x7F) << (i * 7)`,
stopping at the first byte without the continuation bit; running out of
input is `read_u8`'s fill error. -/
def readUvarLoop (w : Nat) : List Nat → Nat → Nat → Except String (Int × List Nat)
  | [], _, _ => .error "failed to fill whole buffer"
  | b :: rest, i, res =>
    let res' := (res ||| ((b &&& 127) <<< ((i * 7) % w))) % 2 ^ w
    if b < 128 then .ok (toSigned w res', rest) else readUvarLoop w rest (i + 1) res'

/-- `read_unsigned_varint`. -/
def read_unsigned_varint (input : List Nat) : Except String (Int × List Nat) :=
  readUvarLoop 32 input 0 0

/-- `read_unsigned_varlong`. -/
def read_unsigned_varlong (input : List Nat) : Except String (Int × List Nat) :=
  readUvarLoop 64 input 0 0


/-! ## Kafka codec: nullable strings and lossy UTF-8

Translated from `api/kafka-api/src/codec/mod.rs`: the `Decoder` impl of
`NullableString` reads a length (flexible: unsigned varint minus one;
classic: big-endian `i16` widened to `i32`), then
`read_bytes(buf, len)?.map(|bs| String::from_utf8_lossy(&bs).into_owned())`.
`read_bytes` maps `-1` to `None`, non-negative `n` to exactly `n` bytes
(erroring when the buffer is short), and any other negative length to an
invalid-length error.  `String::from_utf8_lossy` is the Rust standard
library's total conversion replacing each maximal ill-formed subsequence
with one U+FFFD; it is modelled by `utf8Lossy` below following
`core::str::run_utf8_validation` (decoded strings are represented as lists
of code points). -/

/-- Big-endian `i16` read (`Int16` decoder). -/
def read_int16_be : List Nat → Except String (Int × List Nat)
  | b0 :: b1 :: rest => .ok (toSigned 16 (b0 * 256 + b1), rest)
  | _ => .error "failed to fill whole buffer"

/-- `read_bytes`: `-1` is null, a non-negative length is read exactly,
other negative lengths are invalid. -/
def read_bytes (len : Int) (input : List Nat) :
    Except String (Option (List Nat) × List Nat) :=
  if len = -1 then .ok (none, input)
  else if 0 ≤ len then
    if len.toNat ≤ input.length then
      .ok (some (input.take len.toNat), input.drop len.toNat)
    else .error "failed to read bytes"
  else .error "invalid length"

/-- Second-byte admissibility for a three-byte UTF-8 sequence
(`core::str::run_utf8_validation`). -/
def utf8Second3 (b0 b1 : Nat) : Bool :=
  (b0 == 0xE0 && 0xA0 ≤ b1 && b1 ≤ 0xBF) ||
    (0xE1 ≤ b0 && b0 ≤ 0xEC && 0x80 ≤ b1 && b1 ≤ 0xBF) ||
    (b0 == 0xED && 0x80 ≤ b1 && b1 ≤ 0x9F) ||
    (0xEE ≤ b0 && b0 ≤ 0xEF && 0x80 ≤ b1 && b1 ≤ 0xBF)

/-- Second-byte admissibility for a four-byte UTF-8 sequence. -/
def utf8Second4 (b0 b1 : Nat) : Bool :=
  (b0 == 0xF0 && 0x90 ≤ b1 && b1 ≤ 0xBF) ||
    (0xF1 ≤ b0 && b0 ≤ 0xF3 && 0x80 ≤ b1 && b1 ≤ 0xBF) ||
    (b0 == 0xF4 && 0x80 ≤ b1 && b1 ≤ 0x8F)

/-- A UTF-8 continuation byte (`0x80..=0xBF`). -/
def utf8Cont (b : Nat) : Bool := 0x80 ≤ b && b ≤ 0xBF

/-- `String::from_utf8_lossy` as a code-point sequence: each maximal
ill-formed subsequence (per `run_utf8_validation`'s `error_len`) becomes one
U+FFFD, and a truncated trailing sequence becomes one U+FFFD. -/
def utf8Lossy : List Nat → List Nat
  | [] => []
  | b0 :: rest =>
    if b0 < 0x80 then b0 :: utf8Lossy rest
    else if b0 < 0xC2 then 0xFFFD :: utf8Lossy rest
    else if b0 ≤ 0xDF then
      match rest with
      | [] => [0xFFFD]
      | b1 :: rest1 =>
        if utf8Cont b1 then ((b0 - 0xC0) * 64 + (b1 - 0x80)) :: utf8Lossy rest1
        else 0xFFFD :: utf8Lossy (b1 :: rest1)
    else if b0 ≤ 0xEF then
      match rest with
      | [] => [0xFFFD]
      | b1 :: rest1 =>
        if utf8Second3 b0 b1 then
          match rest1 with
          | [] => [0xFFFD]
          | b2 :: rest2 =>
            if utf8Cont b2 then
              ((b0 - 0xE0) * 4096 + (b1 - 0x80) * 64 + (b2 - 0x80)) :: utf8Lossy rest2
            else 0xFFFD :: utf8Lossy (b2 :: rest2)
        else 0xFFFD :: utf8Lossy (b1 :: rest1)
    else if b0 ≤ 0xF4 then
      match rest with
      | [] => [0xFFFD]
      | b1 :: rest1 =>
        if utf8Second4 b0 b1 then
          match rest1 with
          | [] => [0xFFFD]
          | b2 :: rest2 =>
            if utf8Cont b2 then
              match rest2 with
              | [] => [0xFFFD]
              | b3 :: rest3 =>
                if utf8Cont b3 then
                  ((b0 - 0xF0) * 262144 + (b1 - 0x80) * 4096 + (b2 - 0x80) * 64 +
                      (b3 - 0x80)) :: utf8Lossy rest3
                else 0xFFFD :: utf8Lossy (b3 :: rest3)
            else 0xFFFD :: utf8Lossy (b2 :: rest2)
        else 0xFFFD :: utf8Lossy (b1 :: rest1)
    else 0xFFFD :: utf8Lossy rest
termination_by l => l.length
decreasing_by all_goals simp_arith

/-- The `NullableString` decoder: length (varint-minus-one when flexible,
`i16` when classic), then `read_bytes` mapped through the lossy UTF-8
conversion. -/
def nullableStringDecode (flexible : Bool) (input : List Nat) :
    Except String (Option (List Nat) × List Nat) := do
  let lenAndRest ←
    if flexible then do
      let r ← read_unsigned_varint input
      pure (r.1 - 1, r.2)
    else do
      let r ← read_int16_be input
      pure (r.1, r.2)
  let r2 ← read_bytes lenAndRest.1 lenAndRest.2
  pure (r2.1.map utf8Lossy, r2.2)


/-! ## Record-batch mutable view

Translated from `api/kafka-api/src/records/record_batch.rs` and the offset
constants of `records/consts.rs`: `BASE_OFFSET_OFFSET = 0` (8 bytes),
`LAST_OFFSET_DELTA_OFFSET = 23` (4 bytes).  A batch is its byte buffer;
multi-byte integers are big-endian. -/

/-- Big-endian `k`-byte encoding of `u` (low `8 * k` bits). -/
def natToBytesBE : Nat → Nat → List Nat
  | 0, _ => []
  | k + 1, u => natToBytesBE k (u / 256) ++ [u % 256]

/-- Big-endian byte-list to natural number. -/
def bytesToNatBE (bs : List Nat) : Nat := bs.foldl (fun acc b => acc * 256 + b) 0

/-- `read_i64::<BigEndian>` at byte offset `off`. -/
def readI64BE (bs : List Nat) (off : Nat) : Int :=
  toSigned 64 (bytesToNatBE ((bs.drop off).take 8))

/-- `read_i32::<BigEndian>` at byte offset `off`. -/
def readI32BE (bs : List Nat) (off : Nat) : Int :=
  toSigned 32 (bytesToNatBE ((bs.drop off).take 4))

/-- `RecordBatchView::last_offset_delta`: `i32` at offset 23. -/
def last_offset_delta (batch : List Nat) : Int := readI32BE batch 23

/-- `RecordBatchView::base_offset`: `i64` at offset 0. -/
def base_offset (batch : List Nat) : Int := readI64BE batch 0

/-- `RecordBatchView::last_offset = base_offset + last_offset_delta`. -/
def last_offset (batch : List Nat) : Int := base_offset batch + last_offset_delta batch

/-- `MutableRecordBatch::set_last_offset`: writes
`base_offset = offset - last_offset_delta` as 8 big-endian bytes at
offset 0, leaving the remaining bytes in place. -/
def set_last_offset (batch : List Nat) (offset : Int) : List Nat :=
  let base := offset - last_offset_delta batch
  natToBytesBE 8 (base % 2 ^ 64).toNat ++ batch.drop 8


/-! ## Pub/Sub pull

Translated from `crates/broker/src/broker.rs` (`Broker::pull`) together
with `crates/meta/src/service/pull.rs` (`fetch_topic_splits`, the SQL
predicate `start_offset < $end AND end_offset > $start`).  The subscription
state is the stored ack ranges; the topic state is its list of split rows
plus the object-store contents, a map from split id to the deserialized
messages of that split's blob.  Messages are an opaque type. -/

structure TopicSplit where
  split_id : Nat
  start_offset : Int
  end_offset : Int
  deriving Repr, DecidableEq

/-- The unacked-interval loop of `Broker::pull`: gaps between stored acks,
then a tail interval of length `max_messages` after the last ack (initial
`current = (0, 0)`). -/
def pullRangesLoop : Int × Int → List (Int × Int) → Int → List (Int × Int)
  | current, [], m => [(current.2, current.2 + m)]
  | current, (s, e) :: acks, m =>
    if s > current.2 then (current.2, s) :: pullRangesLoop (s, e) acks m
    else pullRangesLoop (s, e) acks m

/-- The requested unacked intervals for a pull. -/
def pullRanges (acks : List (Int × Int)) (max_messages : Int) : List (Int × Int) :=
  pullRangesLoop (0, 0) acks max_messages

/-- `PostgresMetaService::fetch_topic_splits`: the split rows overlapping
`[s, e)`. -/
def fetch_topic_splits (splits : List TopicSplit) (s e : Int) : List TopicSplit :=
  splits.filter (fun sp => decide (sp.start_offset < e) && decide (s < sp.end_offset))

/-- `Broker::pull`: fetch the overlapping splits of every requested range,
read each split whole, and emit every contained message with
`message_id = split.start_offset + index` — without filtering the ids
against the requested ranges. -/
def pull {α : Type} (acks : List (Int × Int)) (max_messages : Int)
    (splits : List TopicSplit) (storage : Nat → List α) : List (Int × α) :=
  let ranges := pullRanges acks max_messages
  let selected := ranges.flatMap (fun r => fetch_topic_splits splits r.1 r.2)
  selected.flatMap (fun sp =>
    (storage sp.split_id).enum.map (fun p => (sp.start_offset + p.1, p.2)))


/-! ## Kafka codec: encoders and sizes

Translated from `api/kafka-api/src/codec/mod.rs`: the fixed-width integer
encoders (big-endian), `Bool`, `Uuid`, `NullableString`/`NullableBytes`
(`write_str`/`write_bytes`), `NullableArray`, and the tagged-field list
writer.  Strings are carried as their UTF-8 bytes (`List Nat`), UUIDs as
their 128-bit value.  Casts follow Rust release semantics: `usize as i32`
and `i16`/`i32` arithmetic reinterpret the low bits (`toSigned`). -/

/-- `usize as i32`. -/
def asI32 (n : Nat) : Int := toSigned 32 n

/-- `usize as i16`. -/
def asI16 (n : Nat) : Int := toSigned 16 n

/-- Wraparound of an `i32` intermediate result (release profile). -/
def i32wrap (x : Int) : Int := toSigned 32 (x % 2 ^ 32).toNat

/-- `len as i32 + 1`, the flexible length prefix value. -/
def lenPlusOne (n : Nat) : Int := i32wrap (asI32 n + 1)

def int8Enc (v : Int) : List Nat := natToBytesBE 1 (v % 2 ^ 8).toNat

def int16Enc (v : Int) : List Nat := natToBytesBE 2 (v % 2 ^ 16).toNat

def int32Enc (v : Int) : List Nat := natToBytesBE 4 (v % 2 ^ 32).toNat

def int64Enc (v : Int) : List Nat := natToBytesBE 8 (v % 2 ^ 64).toNat

def uuidEnc (u : Nat) : List Nat := natToBytesBE 16 u

def boolEnc (b : Bool) : List Nat := [if b then 1 else 0]

/-- `write_str`: null is varint `0` (flexible) or `i16 -1` (classic); a
present string is its length prefix then its bytes. -/
def nullableStringEnc (flexible : Bool) (v : Option (List Nat)) : List Nat :=
  match v with
  | none => if flexible then write_unsigned_varint 0 else int16Enc (-1)
  | some bs =>
    (if flexible then write_unsigned_varint (lenPlusOne bs.length)
     else int16Enc (asI16 bs.length)) ++ bs

/-- `NullableString::calculate_size` (note: it sizes the `len + 1` varint
even for `None`, which also occupies one byte). -/
def nullableStringSize (flexible : Bool) (v : Option (List Nat)) : Nat :=
  let len := (v.map List.length).getD 0
  if flexible then varint_calculate_size (lenPlusOne len) + len else 2 + len

/-- `write_bytes`: like `write_str` with an `i32 -1` classic null. -/
def nullableBytesEnc (flexible : Bool) (v : Option (List Nat)) : List Nat :=
  match v with
  | none => if flexible then write_unsigned_varint 0 else int32Enc (-1)
  | some bs =>
    (if flexible then write_unsigned_varint (lenPlusOne bs.length)
     else int32Enc (asI32 bs.length)) ++ bs

/-- `NullableBytes::calculate_size`. -/
def nullableBytesSize (flexible : Bool) (v : Option (List Nat)) : Nat :=
  let len := (v.map List.length).getD 0
  if flexible then varint_calculate_size (lenPlusOne len) + len else 4 + len

/-- Encode the elements of an array in order (failure propagates). -/
def encodeListE {α : Type} (f : α → Except String (List Nat)) :
    List α → Except String (List Nat)
  | [] => .ok []
  | x :: xs => do
    let b ← f x
    let bs ← encodeListE f xs
    pure (b ++ bs)

/-- `NullableArray::encode`: null is varint `0` (flexible) or `i32 -1`;
a present array is its length prefix then the encoded elements. -/
def nullableArrayEnc {α : Type} (f : α → Except String (List Nat)) (flexible : Bool) :
    Option (List α) → Except String (List Nat)
  | none => .ok (if flexible then write_unsigned_varint 0 else int32Enc (-1))
  | some xs => do
    let body ← encodeListE f xs
    pure ((if flexible then write_unsigned_varint (lenPlusOne xs.length)
           else int32Enc (asI32 xs.length)) ++ body)

/-- `NullableArray::calculate_size`. -/
def nullableArraySize {α : Type} (g : α → Nat) (flexible : Bool) :
    Option (List α) → Nat
  | none => if flexible then varint_calculate_size 0 else 4
  | some xs =>
    (if flexible then varint_calculate_size (lenPlusOne xs.length) else 4) +
      (xs.map g).sum

structure RawTaggedField where
  tag : Int
  data : List Nat
  deriving Repr, DecidableEq

/-- `RawTaggedFieldWriter::write_byte_buffer`: varint tag, varint byte
length, raw bytes. -/
def writeTaggedField (fld : RawTaggedField) : List Nat :=
  write_unsigned_varint fld.tag ++ write_unsigned_varint (asI32 fld.data.length) ++ fld.data

def taggedFieldSize (fld : RawTaggedField) : Nat :=
  varint_calculate_size fld.tag + varint_calculate_size (asI32 fld.data.length) +
    fld.data.length

/-- `RawTaggedFieldList::encode_with`: varint count (`retained + n`), then
the caller-provided extra fields, then the retained unknown fields. -/
def rawTaggedFieldListEncWith (n : Nat) (fields : List RawTaggedField)
    (extra : List Nat) : List Nat :=
  write_unsigned_varint (asI32 (fields.length + n)) ++ extra ++
    fields.flatMap writeTaggedField

/-- `RawTaggedFieldList::encode` (no extra fields). -/
def rawTaggedFieldListEnc (fields : List RawTaggedField) : List Nat :=
  rawTaggedFieldListEncWith 0 fields []

/-- `RawTaggedFieldList::calculate_size_with`: `n` extra fields occupying
`bs` extra bytes. -/
def rawTaggedFieldListSizeWith (n bs : Nat) (fields : List RawTaggedField) : Nat :=
  varint_calculate_size (asI32 (fields.length + n)) +
    (fields.map taggedFieldSize).sum + bs

/-- `RawTaggedFieldList::calculate_size`. -/
def rawTaggedFieldListSize (fields : List RawTaggedField) : Nat :=
  rawTaggedFieldListSizeWith 0 0 fields

/-- `RawTaggedFieldWriter::write_field`: varint tag, varint of the value's
*computed* size, then the encoded value. -/
def writeField (tag : Int) (size : Nat) (payloadEnc : Except String (List Nat)) :
    Except String (List Nat) := do
  let p ← payloadEnc
  pure (write_unsigned_varint tag ++ write_unsigned_varint (asI32 size) ++ p)

/-- `RawTaggedFieldWriter::calculate_field_size`. -/
def calcFieldSize (tag : Int) (size : Nat) : Nat :=
  varint_calculate_size tag + varint_calculate_size (asI32 size) + size


/-! ## Kafka response schemata

Translated from `api/kafka-api/src/schemata/*.rs`: the eleven response
body types with their `Encodable` impls (`write` and `calculate_size`),
the `ResponseHeader`, `ApiMessageType` dispatch, and `Response::encode`.
Rust `i16` version comparisons are reflected into `Bool` with `decide`
(`verAtLeast ver n` is `version >= n`, etc.) so the same expression can
serve as an `if` condition and as the `flexible` flag of an encoder.
`String` fields are carried as their UTF-8 bytes, `Uuid` as its 128-bit
value.  `write` returns `Except String (List Nat)`: the only failure
paths are the explicit `err_encode_message_unsupported` /
`err_encode_message_null` guards. -/

def verAtLeast (ver lo : Int) : Bool := decide (lo ≤ ver)

def verAtMost (ver hi : Int) : Bool := decide (ver ≤ hi)

def verAbove (ver lo : Int) : Bool := decide (lo < ver)

def verBelow (ver hi : Int) : Bool := decide (ver < hi)

structure ResponseHeader where
  correlation_id : Int
  unknown_tagged_fields : List RawTaggedField

/-- `ResponseHeader::write` (infallible: `Int32` plus an optional tagged
list). -/
def ResponseHeader.write (v : ResponseHeader) (ver : Int) : List Nat :=
  int32Enc v.correlation_id ++
    (if verAtLeast ver 1 then rawTaggedFieldListEnc v.unknown_tagged_fields else [])

def ResponseHeader.calculate_size (v : ResponseHeader) (ver : Int) : Nat :=
  4 + (if verAtLeast ver 1 then rawTaggedFieldListSize v.unknown_tagged_fields else 0)

structure ApiVersion where
  api_key : Int
  min_version : Int
  max_version : Int
  unknown_tagged_fields : List RawTaggedField

def ApiVersion.write (v : ApiVersion) (ver : Int) : Except String (List Nat) :=
  .ok (int16Enc v.api_key ++ int16Enc v.min_version ++ int16Enc v.max_version ++
    (if verAtLeast ver 3 then rawTaggedFieldListEnc v.unknown_tagged_fields else []))

def ApiVersion.calculate_size (v : ApiVersion) (ver : Int) : Nat :=
  2 + 2 + 2 +
    (if verAtLeast ver 3 then rawTaggedFieldListSize v.unknown_tagged_fields else 0)

structure SupportedFeatureKey where
  name : List Nat
  min_version : Int
  max_version : Int
  unknown_tagged_fields : List RawTaggedField

def SupportedFeatureKey.write (v : SupportedFeatureKey) (ver : Int) :
    Except String (List Nat) :=
  if verAbove ver 3 then .error "failed to write version of SupportedFeatureKey"
  else .ok (nullableStringEnc true (some v.name) ++ int16Enc v.min_version ++
    int16Enc v.max_version ++ rawTaggedFieldListEnc v.unknown_tagged_fields)

def SupportedFeatureKey.calculate_size (v : SupportedFeatureKey) (_ver : Int) : Nat :=
  nullableStringSize true (some v.name) + 2 + 2 +
    rawTaggedFieldListSize v.unknown_tagged_fields

structure FinalizedFeatureKey where
  name : List Nat
  max_version_level : Int
  min_version_level : Int
  unknown_tagged_fields : List RawTaggedField

def FinalizedFeatureKey.write (v : FinalizedFeatureKey) (ver : Int) :
    Except String (List Nat) :=
  if verAbove ver 3 then .error "failed to write version of FinalizedFeatureKey"
  else .ok (nullableStringEnc true (some v.name) ++ int16Enc v.max_version_level ++
    int16Enc v.min_version_level ++ rawTaggedFieldListEnc v.unknown_tagged_fields)

def FinalizedFeatureKey.calculate_size (v : FinalizedFeatureKey) (_ver : Int) : Nat :=
  nullableStringSize true (some v.name) + 2 + 2 +
    rawTaggedFieldListSize v.unknown_tagged_fields

structure ApiVersionsResponse where
  error_code : Int
  api_keys : List ApiVersion
  throttle_time_ms : Int
  supported_features : List SupportedFeatureKey
  finalized_features_epoch : Int
  finalized_features : List FinalizedFeatureKey
  zk_migration_ready : Bool
  unknown_tagged_fields : List RawTaggedField

def ApiVersionsResponse.write (v : ApiVersionsResponse) (ver : Int) :
    Except String (List Nat) := do
  let apiKeys ← nullableArrayEnc (fun a => ApiVersion.write a ver) (verAtLeast ver 3)
    (some v.api_keys)
  let tagged ←
    if verAtLeast ver 3 then do
      let f0 ← writeField 0
        (nullableArraySize (fun a => SupportedFeatureKey.calculate_size a ver)
          (verAtLeast ver 3) (some v.supported_features))
        (nullableArrayEnc (fun a => SupportedFeatureKey.write a ver)
          (verAtLeast ver 3) (some v.supported_features))
      let f1 ← writeField 1 8 (.ok (int64Enc v.finalized_features_epoch))
      let f2 ← writeField 2
        (nullableArraySize (fun a => FinalizedFeatureKey.calculate_size a ver)
          (verAtLeast ver 3) (some v.finalized_features))
        (nullableArrayEnc (fun a => FinalizedFeatureKey.write a ver)
          (verAtLeast ver 3) (some v.finalized_features))
      pure (rawTaggedFieldListEncWith 3 v.unknown_tagged_fields (f0 ++ f1 ++ f2))
    else pure []
  pure (int16Enc v.error_code ++ apiKeys ++
    (if verAtLeast ver 1 then int32Enc v.throttle_time_ms else []) ++ tagged)

def ApiVersionsResponse.calculate_size (v : ApiVersionsResponse) (ver : Int) : Nat :=
  2 +
  nullableArraySize (fun a => ApiVersion.calculate_size a ver) (verAtLeast ver 3)
    (some v.api_keys) +
  (if verAtLeast ver 1 then 4 else 0) +
  (if verAtLeast ver 3 then
    rawTaggedFieldListSizeWith 3
      (calcFieldSize 0
        (nullableArraySize (fun a => SupportedFeatureKey.calculate_size a ver)
          (verAtLeast ver 3) (some v.supported_features)) +
       calcFieldSize 1 8 +
       calcFieldSize 2
        (nullableArraySize (fun a => FinalizedFeatureKey.calculate_size a ver)
          (verAtLeast ver 3) (some v.finalized_features)))
      v.unknown_tagged_fields
   else 0)

structure CreatableTopicConfigs where
  name : List Nat
  value : Option (List Nat)
  read_only : Bool
  config_source : Int
  is_sensitive : Bool
  unknown_tagged_fields : List RawTaggedField

def CreatableTopicConfigs.write (v : CreatableTopicConfigs) (ver : Int) :
    Except String (List Nat) :=
  if verBelow ver 5 then .error "failed to write version of CreatableTopicConfigs"
  else .ok (nullableStringEnc true (some v.name) ++ nullableStringEnc true v.value ++
    boolEnc v.read_only ++ int8Enc v.config_source ++ boolEnc v.is_sensitive ++
    rawTaggedFieldListEnc v.unknown_tagged_fields)

def CreatableTopicConfigs.calculate_size (v : CreatableTopicConfigs) (_ver : Int) : Nat :=
  nullableStringSize true (some v.name) + nullableStringSize true v.value + 1 + 1 + 1 +
    rawTaggedFieldListSize v.unknown_tagged_fields

structure CreatableTopicResult where
  name : List Nat
  topic_id : Nat
  error_code : Int
  error_message : Option (List Nat)
  topic_config_error_code : Int
  num_partitions : Int
  replication_factor : Int
  configs : List CreatableTopicConfigs
  unknown_tagged_fields : List RawTaggedField

def CreatableTopicResult.write (v : CreatableTopicResult) (ver : Int) :
    Except String (List Nat) := do
  let configs ←
    if verAtLeast ver 5 then
      nullableArrayEnc (fun c => CreatableTopicConfigs.write c ver) true (some v.configs)
    else pure []
  let tagged ←
    if verAtLeast ver 5 then do
      let f0 ← writeField 0 2 (.ok (int16Enc v.topic_config_error_code))
      pure (rawTaggedFieldListEncWith 1 v.unknown_tagged_fields f0)
    else pure []
  pure (nullableStringEnc (verAtLeast ver 5) (some v.name) ++
    (if verAtLeast ver 7 then uuidEnc v.topic_id else []) ++
    int16Enc v.error_code ++
    (if verAtLeast ver 1 then nullableStringEnc (verAtLeast ver 5) v.error_message else []) ++
    (if verAtLeast ver 5 then int32Enc v.num_partitions ++ int16Enc v.replication_factor
     else []) ++
    configs ++ tagged)

def CreatableTopicResult.calculate_size (v : CreatableTopicResult) (ver : Int) : Nat :=
  nullableStringSize (verAtLeast ver 5) (some v.name) +
  (if verAtLeast ver 7 then 16 else 0) +
  2 +
  (if verAtLeast ver 1 then nullableStringSize (verAtLeast ver 5) v.error_message else 0) +
  (if verAtLeast ver 5 then
    4 + 2 + nullableArraySize (fun c => CreatableTopicConfigs.calculate_size c ver) true
      (some v.configs)
   else 0) +
  (if verAtLeast ver 5 then
    rawTaggedFieldListSizeWith 1 (calcFieldSize 0 2) v.unknown_tagged_fields
   else 0)

structure CreateTopicsResponse where
  throttle_time_ms : Int
  topics : List CreatableTopicResult
  unknown_tagged_fields : List RawTaggedField

def CreateTopicsResponse.write (v : CreateTopicsResponse) (ver : Int) :
    Except String (List Nat) := do
  let topics ← nullableArrayEnc (fun t => CreatableTopicResult.write t ver)
    (verAtLeast ver 5) (some v.topics)
  pure ((if verAtLeast ver 2 then int32Enc v.throttle_time_ms else []) ++ topics ++
    (if verAtLeast ver 5 then rawTaggedFieldListEnc v.unknown_tagged_fields else []))

def CreateTopicsResponse.calculate_size (v : CreateTopicsResponse) (ver : Int) : Nat :=
  (if verAtLeast ver 2 then 4 else 0) +
  nullableArraySize (fun t => CreatableTopicResult.calculate_size t ver)
    (verAtLeast ver 5) (some v.topics) +
  (if verAtLeast ver 5 then rawTaggedFieldListSize v.unknown_tagged_fields else 0)

structure Coordinator where
  key : List Nat
  node_id : Int
  host : List Nat
  port : Int
  error_code : Int
  error_message : Option (List Nat)
  unknown_tagged_fields : List RawTaggedField

def Coordinator.write (v : Coordinator) (ver : Int) : Except String (List Nat) :=
  if verAbove ver 4 then .error "failed to write version of Coordinator"
  else .ok (nullableStringEnc true (some v.key) ++ int32Enc v.node_id ++
    nullableStringEnc true (some v.host) ++ int32Enc v.port ++ int16Enc v.error_code ++
    nullableStringEnc true v.error_message ++
    rawTaggedFieldListEnc v.unknown_tagged_fields)

def Coordinator.calculate_size (v : Coordinator) (_ver : Int) : Nat :=
  nullableStringSize true (some v.key) + 4 + nullableStringSize true (some v.host) + 4 +
    2 + nullableStringSize true v.error_message +
    rawTaggedFieldListSize v.unknown_tagged_fields

structure FindCoordinatorResponse where
  throttle_time_ms : Int
  error_code : Int
  error_message : Option (List Nat)
  node_id : Int
  host : List Nat
  port : Int
  coordinators : List Coordinator
  unknown_tagged_fields : List RawTaggedField

def FindCoordinatorResponse.write (v : FindCoordinatorResponse) (ver : Int) :
    Except String (List Nat) := do
  let coords ←
    if verAtLeast ver 4 then
      nullableArrayEnc (fun c => Coordinator.write c ver) true (some v.coordinators)
    else pure []
  pure ((if verAtLeast ver 1 then int32Enc v.throttle_time_ms else []) ++
    (if verAtMost ver 3 then int16Enc v.error_code else []) ++
    (if verAtLeast ver 1 && verAtMost ver 3 then
      nullableStringEnc (verAtLeast ver 3) v.error_message
     else []) ++
    (if verAtMost ver 3 then int32Enc v.node_id else []) ++
    (if verAtMost ver 3 then nullableStringEnc (verAtLeast ver 3) (some v.host) else []) ++
    (if verAtMost ver 3 then int32Enc v.port else []) ++
    coords ++
    (if verAtLeast ver 3 then rawTaggedFieldListEnc v.unknown_tagged_fields else []))

def FindCoordinatorResponse.calculate_size (v : FindCoordinatorResponse) (ver : Int) : Nat :=
  (if verAtLeast ver 1 then 4 else 0) +
  (if verAtMost ver 3 then 2 else 0) +
  (if verAtLeast ver 1 && verAtMost ver 3 then
    nullableStringSize (verAtLeast ver 3) v.error_message
   else 0) +
  (if verAtMost ver 3 then 4 else 0) +
  (if verAtMost ver 3 then nullableStringSize (verAtLeast ver 3) (some v.host) else 0) +
  (if verAtMost ver 3 then 4 else 0) +
  (if verAtLeast ver 4 then
    nullableArraySize (fun c => Coordinator.calculate_size c ver) true
      (some v.coordinators)
   else 0) +
  (if verAtLeast ver 3 then rawTaggedFieldListSize v.unknown_tagged_fields else 0)

structure EpochEndOffset where
  epoch : Int
  end_offset : Int
  unknown_tagged_fields : List RawTaggedField

def EpochEndOffset.write (v : EpochEndOffset) (ver : Int) : Except String (List Nat) :=
  if verBelow ver 12 then .error "failed to write version of EpochEndOffset"
  else .ok (int32Enc v.epoch ++ int64Enc v.end_offset ++
    rawTaggedFieldListEnc v.unknown_tagged_fields)

def EpochEndOffset.calculate_size (v : EpochEndOffset) (_ver : Int) : Nat :=
  4 + 8 + rawTaggedFieldListSize v.unknown_tagged_fields

structure LeaderIdAndEpoch where
  leader_id : Int
  leader_epoch : Int
  unknown_tagged_fields : List RawTaggedField

def LeaderIdAndEpoch.write (v : LeaderIdAndEpoch) (ver : Int) : Except String (List Nat) :=
  if verBelow ver 12 then .error "failed to write version of LeaderIdAndEpoch"
  else .ok (int32Enc v.leader_id ++ int32Enc v.leader_epoch ++
    rawTaggedFieldListEnc v.unknown_tagged_fields)

def LeaderIdAndEpoch.calculate_size (v : LeaderIdAndEpoch) (_ver : Int) : Nat :=
  4 + 4 + rawTaggedFieldListSize v.unknown_tagged_fields

structure SnapshotId where
  end_offset : Int
  epoch : Int
  unknown_tagged_fields : List RawTaggedField

def SnapshotId.write (v : SnapshotId) (ver : Int) : Except String (List Nat) :=
  if verBelow ver 12 then .error "failed to write version of SnapshotId"
  else .ok (int64Enc v.end_offset ++ int32Enc v.epoch ++
    rawTaggedFieldListEnc v.unknown_tagged_fields)

def SnapshotId.calculate_size (v : SnapshotId) (_ver : Int) : Nat :=
  8 + 4 + rawTaggedFieldListSize v.unknown_tagged_fields

structure AbortedTransaction where
  producer_id : Int
  first_offset : Int
  unknown_tagged_fields : List RawTaggedField

def AbortedTransaction.write (v : AbortedTransaction) (ver : Int) :
    Except String (List Nat) :=
  if verBelow ver 4 then .error "failed to write version of AbortedTransaction"
  else .ok (int64Enc v.producer_id ++ int64Enc v.first_offset ++
    (if verAtLeast ver 12 then rawTaggedFieldListEnc v.unknown_tagged_fields else []))

def AbortedTransaction.calculate_size (v : AbortedTransaction) (ver : Int) : Nat :=
  8 + 8 +
    (if verAtLeast ver 12 then rawTaggedFieldListSize v.unknown_tagged_fields else 0)

structure PartitionData where
  partition_index : Int
  error_code : Int
  high_watermark : Int
  last_stable_offset : Int
  log_start_offset : Int
  diverging_epoch : Option EpochEndOffset
  current_leader : Option LeaderIdAndEpoch
  snapshot_id : Option SnapshotId
  aborted_transactions : Option (List AbortedTransaction)
  preferred_read_replica : Int
  records : List Nat
  unknown_tagged_fields : List RawTaggedField

/-- The `diverging_epoch` tagged field of `PartitionData::write`
(`if let Some(..) = &self.diverging_epoch { write_field(buf, 0, ..) }`). -/
def PartitionData.tagField0 (o : Option EpochEndOffset) (ver : Int) :
    Except String (List Nat) :=
  match o with
  | some de =>
    writeField 0 (EpochEndOffset.calculate_size de ver) (EpochEndOffset.write de ver)
  | none => .ok []

/-- The `current_leader` tagged field of `PartitionData::write` (tag `1`). -/
def PartitionData.tagField1 (o : Option LeaderIdAndEpoch) (ver : Int) :
    Except String (List Nat) :=
  match o with
  | some cl =>
    writeField 1 (LeaderIdAndEpoch.calculate_size cl ver) (LeaderIdAndEpoch.write cl ver)
  | none => .ok []

/-- The `snapshot_id` tagged field of `PartitionData::write` (tag `2`). -/
def PartitionData.tagField2 (o : Option SnapshotId) (ver : Int) :
    Except String (List Nat) :=
  match o with
  | some sn => writeField 2 (SnapshotId.calculate_size sn ver) (SnapshotId.write sn ver)
  | none => .ok []

/-- `calculate_field_size` of the `diverging_epoch` tagged field in
`PartitionData::calculate_size`; the source passes tag `0` here. -/
def PartitionData.tagFieldSize0 (o : Option EpochEndOffset) (ver : Int) : Nat :=
  match o with
  | some de => calcFieldSize 0 (EpochEndOffset.calculate_size de ver)
  | none => 0

/-- `calculate_field_size` of the `current_leader` tagged field; the source
passes tag `0` here even though `write` uses tag `1` (same varint width). -/
def PartitionData.tagFieldSize1 (o : Option LeaderIdAndEpoch) (ver : Int) : Nat :=
  match o with
  | some cl => calcFieldSize 0 (LeaderIdAndEpoch.calculate_size cl ver)
  | none => 0

/-- `calculate_field_size` of the `snapshot_id` tagged field; the source
passes tag `0` here even though `write` uses tag `2` (same varint width). -/
def PartitionData.tagFieldSize2 (o : Option SnapshotId) (ver : Int) : Nat :=
  match o with
  | some sn => calcFieldSize 0 (SnapshotId.calculate_size sn ver)
  | none => 0

/-- `PartitionData::write`.  Note: the tagged optional structs are written
with tags `0`, `1`, `2`, while `calculate_size` below mirrors the source's
use of tag `0` for all three (`fetch_response.rs` lines 254-266). -/
def PartitionData.write (v : PartitionData) (ver : Int) : Except String (List Nat) := do
  let aborted ←
    if verAtLeast ver 4 then
      nullableArrayEnc (fun a => AbortedTransaction.write a ver) (verAtLeast ver 12)
        v.aborted_transactions
    else pure []
  let tagged ←
    if verAtLeast ver 12 then do
      let f0 ← PartitionData.tagField0 v.diverging_epoch ver
      let f1 ← PartitionData.tagField1 v.current_leader ver
      let f2 ← PartitionData.tagField2 v.snapshot_id ver
      pure (rawTaggedFieldListEncWith
        ((if v.diverging_epoch.isSome then 1 else 0) +
          (if v.current_leader.isSome then 1 else 0) +
          (if v.snapshot_id.isSome then 1 else 0))
        v.unknown_tagged_fields (f0 ++ f1 ++ f2))
    else pure []
  pure (int32Enc v.partition_index ++ int16Enc v.error_code ++
    int64Enc v.high_watermark ++
    (if verAtLeast ver 4 then int64Enc v.last_stable_offset else []) ++
    (if verAtLeast ver 5 then int64Enc v.log_start_offset else []) ++
    aborted ++
    (if verAtLeast ver 11 then int32Enc v.preferred_read_replica else []) ++
    nullableBytesEnc (verAtLeast ver 12) (some v.records) ++ tagged)

def PartitionData.calculate_size (v : PartitionData) (ver : Int) : Nat :=
  4 + 2 + 8 +
  (if verAtLeast ver 4 then 8 else 0) +
  (if verAtLeast ver 5 then 8 else 0) +
  (if verAtLeast ver 4 then
    nullableArraySize (fun a => AbortedTransaction.calculate_size a ver)
      (verAtLeast ver 12) v.aborted_transactions
   else 0) +
  (if verAtLeast ver 11 then 4 else 0) +
  nullableBytesSize (verAtLeast ver 12) (some v.records) +
  (if verAtLeast ver 12 then
    rawTaggedFieldListSizeWith
      ((if v.diverging_epoch.isSome then 1 else 0) +
        (if v.current_leader.isSome then 1 else 0) +
        (if v.snapshot_id.isSome then 1 else 0))
      (PartitionData.tagFieldSize0 v.diverging_epoch ver +
       PartitionData.tagFieldSize1 v.current_leader ver +
       PartitionData.tagFieldSize2 v.snapshot_id ver)
      v.unknown_tagged_fields
   else 0)

structure FetchableTopicResponse where
  topic : List Nat
  topic_id : Nat
  partitions : List PartitionData
  unknown_tagged_fields : List RawTaggedField

def FetchableTopicResponse.write (v : FetchableTopicResponse) (ver : Int) :
    Except String (List Nat) := do
  let parts ← nullableArrayEnc (fun p => PartitionData.write p ver) (verAtLeast ver 12)
    (some v.partitions)
  pure ((if verAtMost ver 12 then nullableStringEnc (verAtLeast ver 12) (some v.topic)
    else []) ++
    (if verAtLeast ver 13 then uuidEnc v.topic_id else []) ++
    parts ++
    (if verAtLeast ver 12 then rawTaggedFieldListEnc v.unknown_tagged_fields else []))

def FetchableTopicResponse.calculate_size (v : FetchableTopicResponse) (ver : Int) : Nat :=
  (if verAtMost ver 12 then nullableStringSize (verAtLeast ver 12) (some v.topic) else 0) +
  (if verAtLeast ver 13 then 16 else 0) +
  nullableArraySize (fun p => PartitionData.calculate_size p ver) (verAtLeast ver 12)
    (some v.partitions) +
  (if verAtLeast ver 12 then rawTaggedFieldListSize v.unknown_tagged_fields else 0)

structure FetchResponse where
  throttle_time_ms : Int
  error_code : Int
  session_id : Int
  responses : List FetchableTopicResponse
  unknown_tagged_fields : List RawTaggedField

def FetchResponse.write (v : FetchResponse) (ver : Int) : Except String (List Nat) := do
  let resps ← nullableArrayEnc (fun t => FetchableTopicResponse.write t ver)
    (verAtLeast ver 12) (some v.responses)
  pure ((if verAtLeast ver 1 then int32Enc v.throttle_time_ms else []) ++
    (if verAtLeast ver 7 then int16Enc v.error_code ++ int32Enc v.session_id else []) ++
    resps ++
    (if verAtLeast ver 12 then rawTaggedFieldListEnc v.unknown_tagged_fields else []))

def FetchResponse.calculate_size (v : FetchResponse) (ver : Int) : Nat :=
  (if verAtLeast ver 1 then 4 else 0) +
  (if verAtLeast ver 7 then 2 + 4 else 0) +
  nullableArraySize (fun t => FetchableTopicResponse.calculate_size t ver)
    (verAtLeast ver 12) (some v.responses) +
  (if verAtLeast ver 12 then rawTaggedFieldListSize v.unknown_tagged_fields else 0)

structure HeartbeatResponse where
  throttle_time_ms : Int
  error_code : Int
  unknown_tagged_fields : List RawTaggedField

def HeartbeatResponse.write (v : HeartbeatResponse) (ver : Int) :
    Except String (List Nat) :=
  .ok ((if verAtLeast ver 1 then int32Enc v.throttle_time_ms else []) ++
    int16Enc v.error_code ++
    (if verAtLeast ver 4 then rawTaggedFieldListEnc v.unknown_tagged_fields else []))

def HeartbeatResponse.calculate_size (v : HeartbeatResponse) (ver : Int) : Nat :=
  (if verAtLeast ver 1 then 4 else 0) + 2 +
    (if verAtLeast ver 4 then rawTaggedFieldListSize v.unknown_tagged_fields else 0)

structure InitProducerIdResponse where
  throttle_time_ms : Int
  error_code : Int
  producer_id : Int
  producer_epoch : Int
  unknown_tagged_fields : List RawTaggedField

def InitProducerIdResponse.write (v : InitProducerIdResponse) (ver : Int) :
    Except String (List Nat) :=
  .ok (int32Enc v.throttle_time_ms ++ int16Enc v.error_code ++ int64Enc v.producer_id ++
    int16Enc v.producer_epoch ++
    (if verAtLeast ver 2 then rawTaggedFieldListEnc v.unknown_tagged_fields else []))

def InitProducerIdResponse.calculate_size (v : InitProducerIdResponse) (ver : Int) : Nat :=
  4 + 2 + 8 + 2 +
    (if verAtLeast ver 2 then rawTaggedFieldListSize v.unknown_tagged_fields else 0)

structure JoinGroupResponseMember where
  member_id : List Nat
  group_instance_id : Option (List Nat)
  metadata : List Nat
  unknown_tagged_fields : List RawTaggedField

def JoinGroupResponseMember.write (v : JoinGroupResponseMember) (ver : Int) :
    Except String (List Nat) :=
  .ok (nullableStringEnc (verAtLeast ver 6) (some v.member_id) ++
    (if verAtLeast ver 5 then nullableStringEnc (verAtLeast ver 6) v.group_instance_id
     else []) ++
    nullableBytesEnc (verAtLeast ver 6) (some v.metadata) ++
    (if verAtLeast ver 6 then rawTaggedFieldListEnc v.unknown_tagged_fields else []))

def JoinGroupResponseMember.calculate_size (v : JoinGroupResponseMember) (ver : Int) :
    Nat :=
  nullableStringSize (verAtLeast ver 6) (some v.member_id) +
  (if verAtLeast ver 5 then nullableStringSize (verAtLeast ver 6) v.group_instance_id
   else 0) +
  nullableBytesSize (verAtLeast ver 6) (some v.metadata) +
  (if verAtLeast ver 6 then rawTaggedFieldListSize v.unknown_tagged_fields else 0)

structure JoinGroupResponse where
  throttle_time_ms : Int
  error_code : Int
  generation_id : Int
  protocol_type : Option (List Nat)
  protocol_name : Option (List Nat)
  leader : List Nat
  skip_assignment : Bool
  member_id : List Nat
  members : List JoinGroupResponseMember
  unknown_tagged_fields : List RawTaggedField

def JoinGroupResponse.write (v : JoinGroupResponse) (ver : Int) :
    Except String (List Nat) :=
  if verBelow ver 7 && v.protocol_name.isNone then
    .error "non-nullable field protocol_name to be serialized as null"
  else do
    let members ← nullableArrayEnc (fun m => JoinGroupResponseMember.write m ver)
      (verAtLeast ver 6) (some v.members)
    pure ((if verAtLeast ver 2 then int32Enc v.throttle_time_ms else []) ++
      int16Enc v.error_code ++ int32Enc v.generation_id ++
      (if verAtLeast ver 7 then nullableStringEnc true v.protocol_type else []) ++
      nullableStringEnc (verAtLeast ver 6) v.protocol_name ++
      nullableStringEnc (verAtLeast ver 6) (some v.leader) ++
      (if verAtLeast ver 9 then boolEnc v.skip_assignment else []) ++
      nullableStringEnc (verAtLeast ver 6) (some v.member_id) ++
      members ++
      (if verAtLeast ver 6 then rawTaggedFieldListEnc v.unknown_tagged_fields else []))

def JoinGroupResponse.calculate_size (v : JoinGroupResponse) (ver : Int) : Nat :=
  (if verAtLeast ver 2 then 4 else 0) + 2 + 4 +
  (if verAtLeast ver 7 then nullableStringSize true v.protocol_type else 0) +
  nullableStringSize (verAtLeast ver 6) v.protocol_name +
  nullableStringSize (verAtLeast ver 6) (some v.leader) +
  (if verAtLeast ver 9 then 1 else 0) +
  nullableStringSize (verAtLeast ver 6) (some v.member_id) +
  nullableArraySize (fun m => JoinGroupResponseMember.calculate_size m ver)
    (verAtLeast ver 6) (some v.members) +
  (if verAtLeast ver 6 then rawTaggedFieldListSize v.unknown_tagged_fields else 0)

structure MetadataResponseBroker where
  node_id : Int
  host : List Nat
  port : Int
  rack : Option (List Nat)
  unknown_tagged_fields : List RawTaggedField

def MetadataResponseBroker.write (v : MetadataResponseBroker) (ver : Int) :
    Except String (List Nat) :=
  .ok (int32Enc v.node_id ++ nullableStringEnc (verAtLeast ver 9) (some v.host) ++
    int32Enc v.port ++
    (if verAtLeast ver 1 then nullableStringEnc (verAtLeast ver 9) v.rack else []) ++
    (if verAtLeast ver 9 then rawTaggedFieldListEnc v.unknown_tagged_fields else []))

def MetadataResponseBroker.calculate_size (v : MetadataResponseBroker) (ver : Int) : Nat :=
  4 + nullableStringSize (verAtLeast ver 9) (some v.host) + 4 +
  (if verAtLeast ver 1 then nullableStringSize (verAtLeast ver 9) v.rack else 0) +
  (if verAtLeast ver 9 then rawTaggedFieldListSize v.unknown_tagged_fields else 0)

structure MetadataResponsePartition where
  error_code : Int
  partition_index : Int
  leader_id : Int
  leader_epoch : Int
  replica_nodes : List Int
  isr_nodes : List Int
  offline_replicas : List Int
  unknown_tagged_fields : List RawTaggedField

def MetadataResponsePartition.write (v : MetadataResponsePartition) (ver : Int) :
    Except String (List Nat) := do
  let reps ← nullableArrayEnc (fun i => .ok (int32Enc i)) (verAtLeast ver 9)
    (some v.replica_nodes)
  let isr ← nullableArrayEnc (fun i => .ok (int32Enc i)) (verAtLeast ver 9)
    (some v.isr_nodes)
  let offline ←
    if verAtLeast ver 5 then
      nullableArrayEnc (fun i => .ok (int32Enc i)) (verAtLeast ver 9)
        (some v.offline_replicas)
    else pure []
  pure (int16Enc v.error_code ++ int32Enc v.partition_index ++ int32Enc v.leader_id ++
    (if verAtLeast ver 7 then int32Enc v.leader_epoch else []) ++
    reps ++ isr ++ offline ++
    (if verAtLeast ver 9 then rawTaggedFieldListEnc v.unknown_tagged_fields else []))

def MetadataResponsePartition.calculate_size (v : MetadataResponsePartition) (ver : Int) :
    Nat :=
  2 + 4 + 4 +
  (if verAtLeast ver 7 then 4 else 0) +
  nullableArraySize (fun _ => 4) (verAtLeast ver 9) (some v.replica_nodes) +
  nullableArraySize (fun _ => 4) (verAtLeast ver 9) (some v.isr_nodes) +
  (if verAtLeast ver 5 then
    nullableArraySize (fun _ => 4) (verAtLeast ver 9) (some v.offline_replicas)
   else 0) +
  (if verAtLeast ver 9 then rawTaggedFieldListSize v.unknown_tagged_fields else 0)

structure MetadataResponseTopic where
  error_code : Int
  name : Option (List Nat)
  topic_id : Nat
  is_internal : Bool
  partitions : List MetadataResponsePartition
  topic_authorized_operations : Int
  unknown_tagged_fields : List RawTaggedField

/-- The `name` field handling of `MetadataResponseTopic::write`: a null
name is only encodable from version 12 on. -/
def MetadataResponseTopic.writeName (name : Option (List Nat)) (ver : Int) :
    Except String (List Nat) :=
  match name with
  | none =>
    if verAtLeast ver 12 then .ok (nullableStringEnc true none)
    else .error "non-nullable field name to be serialized as null"
  | some nm => .ok (nullableStringEnc (verAtLeast ver 9) (some nm))

def MetadataResponseTopic.write (v : MetadataResponseTopic) (ver : Int) :
    Except String (List Nat) := do
  let nameBytes ← MetadataResponseTopic.writeName v.name ver
  let parts ← nullableArrayEnc (fun p => MetadataResponsePartition.write p ver)
    (verAtLeast ver 9) (some v.partitions)
  pure (int16Enc v.error_code ++ nameBytes ++
    (if verAtLeast ver 10 then uuidEnc v.topic_id else []) ++
    (if verAtLeast ver 1 then boolEnc v.is_internal else []) ++
    parts ++
    (if verAtLeast ver 8 then int32Enc v.topic_authorized_operations else []) ++
    (if verAtLeast ver 9 then rawTaggedFieldListEnc v.unknown_tagged_fields else []))

def MetadataResponseTopic.calculate_size (v : MetadataResponseTopic) (ver : Int) : Nat :=
  2 + nullableStringSize (verAtLeast ver 9) v.name +
  (if verAtLeast ver 10 then 16 else 0) +
  (if verAtLeast ver 1 then 1 else 0) +
  nullableArraySize (fun p => MetadataResponsePartition.calculate_size p ver)
    (verAtLeast ver 9) (some v.partitions) +
  (if verAtLeast ver 8 then 4 else 0) +
  (if verAtLeast ver 9 then rawTaggedFieldListSize v.unknown_tagged_fields else 0)

structure MetadataResponse where
  throttle_time_ms : Int
  brokers : List MetadataResponseBroker
  cluster_id : Option (List Nat)
  controller_id : Int
  topics : List MetadataResponseTopic
  cluster_authorized_operations : Int
  unknown_tagged_fields : List RawTaggedField

def MetadataResponse.write (v : MetadataResponse) (ver : Int) :
    Except String (List Nat) := do
  let brokers ← nullableArrayEnc (fun b => MetadataResponseBroker.write b ver)
    (verAtLeast ver 9) (some v.brokers)
  let topics ← nullableArrayEnc (fun t => MetadataResponseTopic.write t ver)
    (verAtLeast ver 9) (some v.topics)
  pure ((if verAtLeast ver 3 then int32Enc v.throttle_time_ms else []) ++
    brokers ++
    (if verAtLeast ver 2 then nullableStringEnc (verAtLeast ver 9) v.cluster_id else []) ++
    (if verAtLeast ver 1 then int32Enc v.controller_id else []) ++
    topics ++
    (if verAtLeast ver 8 && verAtMost ver 10 then
      int32Enc v.cluster_authorized_operations
     else []) ++
    (if verAtLeast ver 9 then rawTaggedFieldListEnc v.unknown_tagged_fields else []))

def MetadataResponse.calculate_size (v : MetadataResponse) (ver : Int) : Nat :=
  (if verAtLeast ver 3 then 4 else 0) +
  nullableArraySize (fun b => MetadataResponseBroker.calculate_size b ver)
    (verAtLeast ver 9) (some v.brokers) +
  (if verAtLeast ver 2 then nullableStringSize (verAtLeast ver 9) v.cluster_id else 0) +
  (if verAtLeast ver 1 then 4 else 0) +
  nullableArraySize (fun t => MetadataResponseTopic.calculate_size t ver)
    (verAtLeast ver 9) (some v.topics) +
  (if verAtLeast ver 8 && verAtMost ver 10 then 4 else 0) +
  (if verAtLeast ver 9 then rawTaggedFieldListSize v.unknown_tagged_fields else 0)

structure OffsetFetchResponsePartition where
  partition_index : Int
  committed_offset : Int
  committed_leader_epoch : Int
  metadata : Option (List Nat)
  error_code : Int
  unknown_tagged_fields : List RawTaggedField

def OffsetFetchResponsePartition.write (v : OffsetFetchResponsePartition) (ver : Int) :
    Except String (List Nat) :=
  .ok (int32Enc v.partition_index ++ int64Enc v.committed_offset ++
    (if verAtLeast ver 5 then int32Enc v.committed_leader_epoch else []) ++
    nullableStringEnc (verAtLeast ver 6) v.metadata ++ int16Enc v.error_code ++
    (if verAtLeast ver 6 then rawTaggedFieldListEnc v.unknown_tagged_fields else []))

def OffsetFetchResponsePartition.calculate_size (v : OffsetFetchResponsePartition)
    (ver : Int) : Nat :=
  4 + 8 + (if verAtLeast ver 5 then 4 else 0) +
  nullableStringSize (verAtLeast ver 6) v.metadata + 2 +
  (if verAtLeast ver 6 then rawTaggedFieldListSize v.unknown_tagged_fields else 0)

structure OffsetFetchResponseTopic where
  name : List Nat
  partitions : List OffsetFetchResponsePartition
  unknown_tagged_fields : List RawTaggedField

def OffsetFetchResponseTopic.write (v : OffsetFetchResponseTopic) (ver : Int) :
    Except String (List Nat) :=
  if verAbove ver 7 then .error "failed to write version of OffsetFetchResponseTopic"
  else do
    let parts ← nullableArrayEnc (fun p => OffsetFetchResponsePartition.write p ver)
      (verAtLeast ver 6) (some v.partitions)
    pure (nullableStringEnc (verAtLeast ver 6) (some v.name) ++ parts ++
      (if verAtLeast ver 6 then rawTaggedFieldListEnc v.unknown_tagged_fields else []))

def OffsetFetchResponseTopic.calculate_size (v : OffsetFetchResponseTopic) (ver : Int) :
    Nat :=
  nullableStringSize (verAtLeast ver 6) (some v.name) +
  nullableArraySize (fun p => OffsetFetchResponsePartition.calculate_size p ver)
    (verAtLeast ver 6) (some v.partitions) +
  (if verAtLeast ver 6 then rawTaggedFieldListSize v.unknown_tagged_fields else 0)

structure OffsetFetchResponsePartitions where
  partition_index : Int
  committed_offset : Int
  committed_leader_epoch : Int
  metadata : Option (List Nat)
  error_code : Int
  unknown_tagged_fields : List RawTaggedField

def OffsetFetchResponsePartitions.write (v : OffsetFetchResponsePartitions) (_ver : Int) :
    Except String (List Nat) :=
  .ok (int32Enc v.partition_index ++ int64Enc v.committed_offset ++
    int32Enc v.committed_leader_epoch ++ nullableStringEnc true v.metadata ++
    int16Enc v.error_code ++ rawTaggedFieldListEnc v.unknown_tagged_fields)

def OffsetFetchResponsePartitions.calculate_size (v : OffsetFetchResponsePartitions)
    (_ver : Int) : Nat :=
  4 + 8 + 4 + nullableStringSize true v.metadata + 2 +
    rawTaggedFieldListSize v.unknown_tagged_fields

structure OffsetFetchResponseTopics where
  name : List Nat
  partitions : List OffsetFetchResponsePartitions
  unknown_tagged_fields : List RawTaggedField

def OffsetFetchResponseTopics.write (v : OffsetFetchResponseTopics) (ver : Int) :
    Except String (List Nat) := do
  let parts ← nullableArrayEnc (fun p => OffsetFetchResponsePartitions.write p ver) true
    (some v.partitions)
  pure (nullableStringEnc true (some v.name) ++ parts ++
    rawTaggedFieldListEnc v.unknown_tagged_fields)

def OffsetFetchResponseTopics.calculate_size (v : OffsetFetchResponseTopics) (ver : Int) :
    Nat :=
  nullableStringSize true (some v.name) +
  nullableArraySize (fun p => OffsetFetchResponsePartitions.calculate_size p ver) true
    (some v.partitions) +
  rawTaggedFieldListSize v.unknown_tagged_fields

structure OffsetFetchResponseGroup where
  group_id : List Nat
  topics : List OffsetFetchResponseTopics
  error_code : Int
  unknown_tagged_fields : List RawTaggedField

def OffsetFetchResponseGroup.write (v : OffsetFetchResponseGroup) (ver : Int) :
    Except String (List Nat) :=
  if verBelow ver 8 then .error "failed to write version of OffsetFetchResponseGroup"
  else do
    let topics ← nullableArrayEnc (fun t => OffsetFetchResponseTopics.write t ver) true
      (some v.topics)
    pure (nullableStringEnc true (some v.group_id) ++ topics ++ int16Enc v.error_code ++
      rawTaggedFieldListEnc v.unknown_tagged_fields)

def OffsetFetchResponseGroup.calculate_size (v : OffsetFetchResponseGroup) (ver : Int) :
    Nat :=
  nullableStringSize true (some v.group_id) +
  nullableArraySize (fun t => OffsetFetchResponseTopics.calculate_size t ver) true
    (some v.topics) +
  2 + rawTaggedFieldListSize v.unknown_tagged_fields

structure OffsetFetchResponse where
  throttle_time_ms : Int
  topics : List OffsetFetchResponseTopic
  error_code : Int
  groups : List OffsetFetchResponseGroup
  unknown_tagged_fields : List RawTaggedField

def OffsetFetchResponse.write (v : OffsetFetchResponse) (ver : Int) :
    Except String (List Nat) := do
  let topics ←
    if verAtMost ver 7 then
      nullableArrayEnc (fun t => OffsetFetchResponseTopic.write t ver) (verAtLeast ver 6)
        (some v.topics)
    else pure []
  let groups ←
    if verAtLeast ver 8 then
      nullableArrayEnc (fun g => OffsetFetchResponseGroup.write g ver) true
        (some v.groups)
    else pure []
  pure ((if verAtLeast ver 3 then int32Enc v.throttle_time_ms else []) ++ topics ++
    (if verAtLeast ver 2 && verAtMost ver 7 then int16Enc v.error_code else []) ++
    groups ++
    (if verAtLeast ver 6 then rawTaggedFieldListEnc v.unknown_tagged_fields else []))

def OffsetFetchResponse.calculate_size (v : OffsetFetchResponse) (ver : Int) : Nat :=
  (if verAtLeast ver 3 then 4 else 0) +
  (if verAtMost ver 7 then
    nullableArraySize (fun t => OffsetFetchResponseTopic.calculate_size t ver)
      (verAtLeast ver 6) (some v.topics)
   else 0) +
  (if verAtLeast ver 2 && verAtMost ver 7 then 2 else 0) +
  (if verAtLeast ver 8 then
    nullableArraySize (fun g => OffsetFetchResponseGroup.calculate_size g ver) true
      (some v.groups)
   else 0) +
  (if verAtLeast ver 6 then rawTaggedFieldListSize v.unknown_tagged_fields else 0)

structure BatchIndexAndErrorMessage where
  batch_index : Int
  batch_index_error_message : Option (List Nat)
  unknown_tagged_fields : List RawTaggedField

def BatchIndexAndErrorMessage.write (v : BatchIndexAndErrorMessage) (ver : Int) :
    Except String (List Nat) :=
  if verBelow ver 8 then .error "failed to write version of BatchIndexAndErrorMessage"
  else .ok (int32Enc v.batch_index ++
    nullableStringEnc (verAtLeast ver 9) v.batch_index_error_message ++
    (if verAtLeast ver 9 then rawTaggedFieldListEnc v.unknown_tagged_fields else []))

def BatchIndexAndErrorMessage.calculate_size (v : BatchIndexAndErrorMessage) (ver : Int) :
    Nat :=
  4 + nullableStringSize (verAtLeast ver 9) v.batch_index_error_message +
  (if verAtLeast ver 9 then rawTaggedFieldListSize v.unknown_tagged_fields else 0)

structure PartitionProduceResponse where
  index : Int
  error_code : Int
  base_offset : Int
  log_append_time_ms : Int
  log_start_offset : Int
  record_errors : List BatchIndexAndErrorMessage
  error_message : Option (List Nat)
  unknown_tagged_fields : List RawTaggedField

def PartitionProduceResponse.write (v : PartitionProduceResponse) (ver : Int) :
    Except String (List Nat) := do
  let recErrs ←
    if verAtLeast ver 8 then
      nullableArrayEnc (fun b => BatchIndexAndErrorMessage.write b ver)
        (verAtLeast ver 9) (some v.record_errors)
    else pure []
  pure (int32Enc v.index ++ int16Enc v.error_code ++ int64Enc v.base_offset ++
    (if verAtLeast ver 2 then int64Enc v.log_append_time_ms else []) ++
    (if verAtLeast ver 5 then int64Enc v.log_start_offset else []) ++
    recErrs ++
    (if verAtLeast ver 8 then nullableStringEnc (verAtLeast ver 9) v.error_message
     else []) ++
    (if verAtLeast ver 9 then rawTaggedFieldListEnc v.unknown_tagged_fields else []))

def PartitionProduceResponse.calculate_size (v : PartitionProduceResponse) (ver : Int) :
    Nat :=
  4 + 2 + 8 +
  (if verAtLeast ver 2 then 8 else 0) +
  (if verAtLeast ver 5 then 8 else 0) +
  (if verAtLeast ver 8 then
    nullableArraySize (fun b => BatchIndexAndErrorMessage.calculate_size b ver)
      (verAtLeast ver 9) (some v.record_errors)
   else 0) +
  (if verAtLeast ver 8 then nullableStringSize (verAtLeast ver 9) v.error_message
   else 0) +
  (if verAtLeast ver 9 then rawTaggedFieldListSize v.unknown_tagged_fields else 0)

structure TopicProduceResponse where
  name : List Nat
  partition_responses : List PartitionProduceResponse
  unknown_tagged_fields : List RawTaggedField

def TopicProduceResponse.write (v : TopicProduceResponse) (ver : Int) :
    Except String (List Nat) := do
  let parts ← nullableArrayEnc (fun p => PartitionProduceResponse.write p ver)
    (verAtLeast ver 9) (some v.partition_responses)
  pure (nullableStringEnc (verAtLeast ver 9) (some v.name) ++ parts ++
    (if verAtLeast ver 9 then rawTaggedFieldListEnc v.unknown_tagged_fields else []))

def TopicProduceResponse.calculate_size (v : TopicProduceResponse) (ver : Int) : Nat :=
  nullableStringSize (verAtLeast ver 9) (some v.name) +
  nullableArraySize (fun p => PartitionProduceResponse.calculate_size p ver)
    (verAtLeast ver 9) (some v.partition_responses) +
  (if verAtLeast ver 9 then rawTaggedFieldListSize v.unknown_tagged_fields else 0)

structure ProduceResponse where
  responses : List TopicProduceResponse
  throttle_time_ms : Int
  unknown_tagged_fields : List RawTaggedField

def ProduceResponse.write (v : ProduceResponse) (ver : Int) :
    Except String (List Nat) := do
  let resps ← nullableArrayEnc (fun t => TopicProduceResponse.write t ver)
    (verAtLeast ver 9) (some v.responses)
  pure (resps ++ (if verAbove ver 1 then int32Enc v.throttle_time_ms else []) ++
    (if verAtLeast ver 9 then rawTaggedFieldListEnc v.unknown_tagged_fields else []))

def ProduceResponse.calculate_size (v : ProduceResponse) (ver : Int) : Nat :=
  nullableArraySize (fun t => TopicProduceResponse.calculate_size t ver)
    (verAtLeast ver 9) (some v.responses) +
  (if verAbove ver 1 then 4 else 0) +
  (if verAtLeast ver 9 then rawTaggedFieldListSize v.unknown_tagged_fields else 0)

structure SyncGroupResponse where
  throttle_time_ms : Int
  error_code : Int
  protocol_type : Option (List Nat)
  protocol_name : Option (List Nat)
  assignment : List Nat
  unknown_tagged_fields : List RawTaggedField

def SyncGroupResponse.write (v : SyncGroupResponse) (ver : Int) :
    Except String (List Nat) :=
  .ok ((if verAtLeast ver 1 then int32Enc v.throttle_time_ms else []) ++
    int16Enc v.error_code ++
    (if verAtLeast ver 5 then
      nullableStringEnc true v.protocol_type ++ nullableStringEnc true v.protocol_name
     else []) ++
    nullableBytesEnc (verAtLeast ver 4) (some v.assignment) ++
    (if verAtLeast ver 4 then rawTaggedFieldListEnc v.unknown_tagged_fields else []))

def SyncGroupResponse.calculate_size (v : SyncGroupResponse) (ver : Int) : Nat :=
  (if verAtLeast ver 1 then 4 else 0) + 2 +
  (if verAtLeast ver 5 then
    nullableStringSize true v.protocol_type + nullableStringSize true v.protocol_name
   else 0) +
  nullableBytesSize (verAtLeast ver 4) (some v.assignment) +
  (if verAtLeast ver 4 then rawTaggedFieldListSize v.unknown_tagged_fields else 0)

/-- `ApiMessageType::try_from(api_key)`: the eleven known keys, anything
else is a codec error. -/
def apiMessageTypeTryFrom (k : Int) : Except String Int :=
  if k = 0 ∨ k = 1 ∨ k = 3 ∨ k = 9 ∨ k = 10 ∨ k = 11 ∨ k = 12 ∨ k = 14 ∨ k = 18 ∨
      k = 19 ∨ k = 22 then .ok k
  else .error "unknown api key"

/-- `ApiMessageType::response_header_version`: `1` when the response is
flexible at this api version, else `0`; `ApiVersions` always uses a v0
response header (KIP-511). -/
def responseHeaderVersion (apiKey apiVersion : Int) : Int :=
  if apiKey = 0 then (if 9 ≤ apiVersion then 1 else 0)
  else if apiKey = 1 then (if 12 ≤ apiVersion then 1 else 0)
  else if apiKey = 3 then (if 9 ≤ apiVersion then 1 else 0)
  else if apiKey = 9 then (if 6 ≤ apiVersion then 1 else 0)
  else if apiKey = 10 then (if 3 ≤ apiVersion then 1 else 0)
  else if apiKey = 11 then (if 6 ≤ apiVersion then 1 else 0)
  else if apiKey = 12 then (if 4 ≤ apiVersion then 1 else 0)
  else if apiKey = 14 then (if 4 ≤ apiVersion then 1 else 0)
  else if apiKey = 18 then 0
  else if apiKey = 19 then (if 5 ≤ apiVersion then 1 else 0)
  else if apiKey = 22 then (if 2 ≤ apiVersion then 1 else 0)
  else 0

/-- The projections of `RequestHeader` that `Response::encode` reads
(`request_api_key`, `request_api_version`, `correlation_id`; the header's
`client_id` and tagged fields are not consulted). -/
structure RequestHeader where
  request_api_key : Int
  request_api_version : Int
  correlation_id : Int

inductive Response where
  | ApiVersionsResponse (r : ApiVersionsResponse)
  | CreateTopicsResponse (r : CreateTopicsResponse)
  | FindCoordinatorResponse (r : FindCoordinatorResponse)
  | FetchResponse (r : FetchResponse)
  | HeartbeatResponse (r : HeartbeatResponse)
  | InitProducerIdResponse (r : InitProducerIdResponse)
  | JoinGroupResponse (r : JoinGroupResponse)
  | MetadataResponse (r : MetadataResponse)
  | OffsetFetchResponse (r : OffsetFetchResponse)
  | ProduceResponse (r : ProduceResponse)
  | SyncGroupResponse (r : SyncGroupResponse)

def Response.calculate_size : Response → Int → Nat
  | .ApiVersionsResponse r, ver => ApiVersionsResponse.calculate_size r ver
  | .CreateTopicsResponse r, ver => CreateTopicsResponse.calculate_size r ver
  | .FindCoordinatorResponse r, ver => FindCoordinatorResponse.calculate_size r ver
  | .FetchResponse r, ver => FetchResponse.calculate_size r ver
  | .HeartbeatResponse r, ver => HeartbeatResponse.calculate_size r ver
  | .InitProducerIdResponse r, ver => InitProducerIdResponse.calculate_size r ver
  | .JoinGroupResponse r, ver => JoinGroupResponse.calculate_size r ver
  | .MetadataResponse r, ver => MetadataResponse.calculate_size r ver
  | .OffsetFetchResponse r, ver => OffsetFetchResponse.calculate_size r ver
  | .ProduceResponse r, ver => ProduceResponse.calculate_size r ver
  | .SyncGroupResponse r, ver => SyncGroupResponse.calculate_size r ver

def Response.do_encode : Response → Int → Except String (List Nat)
  | .ApiVersionsResponse r, ver => ApiVersionsResponse.write r ver
  | .CreateTopicsResponse r, ver => CreateTopicsResponse.write r ver
  | .FindCoordinatorResponse r, ver => FindCoordinatorResponse.write r ver
  | .FetchResponse r, ver => FetchResponse.write r ver
  | .HeartbeatResponse r, ver => HeartbeatResponse.write r ver
  | .InitProducerIdResponse r, ver => InitProducerIdResponse.write r ver
  | .JoinGroupResponse r, ver => JoinGroupResponse.write r ver
  | .MetadataResponse r, ver => MetadataResponse.write r ver
  | .OffsetFetchResponse r, ver => OffsetFetchResponse.write r ver
  | .ProduceResponse r, ver => ProduceResponse.write r ver
  | .SyncGroupResponse r, ver => SyncGroupResponse.write r ver

/-- `Response::encode`: resolve the api type (erroring on an unknown key),
build a `ResponseHeader` from the correlation id, compute
`size = calculate_size(body) + calculate_size(header)` *before* emission,
then emit the `i32` prefix `size as i32`, the header, and the body. -/
def Response.encode (resp : Response) (header : RequestHeader) :
    Except String (List Nat) := do
  let _ ← apiMessageTypeTryFrom header.request_api_key
  let api_version := header.request_api_version
  let response_header_version :=
    responseHeaderVersion header.request_api_key api_version
  let response_header : ResponseHeader := ⟨header.correlation_id, []⟩
  let size := Response.calculate_size resp api_version +
    ResponseHeader.calculate_size response_header response_header_version
  let body ← Response.do_encode resp api_version
  pure (int32Enc (asI32 size) ++
    ResponseHeader.write response_header response_header_version ++ body)

/-- The total size `Response::encode` computes before emission:
body size at the request's api version plus header size at the derived
response-header version. -/
def responseTotalSize (resp : Response) (header : RequestHeader) : Nat :=
  Response.calculate_size resp header.request_api_version +
    ResponseHeader.calculate_size ⟨header.correlation_id, []⟩
      (responseHeaderVersion header.request_api_key header.request_api_version)

/-- Modelled from the spec (for comparison with `candidate_protocols`):
`candidates = ⋂ members.protocols.keys`, as a sorted set. -/
def specCandidates (members : List MemberMeta) : List String :=
  (candidate_protocols members).filter
    (fun p => members.all (fun m => m.protocols.contains p))

/-- Modelled from the spec (for comparison with `vote`): each member votes
for the first protocol name in its own declared order that appears in the
candidate set. -/
def specVote (m : MemberMeta) (candidates : List String) : Option String :=
  m.protocols.find? (fun p => candidates.contains p)

/-- Tally of the spec's votes, in ascending name order. -/
def specTally (members : List MemberMeta) : List (String × Nat) :=
  members.foldl
    (fun acc m =>
      match specVote m (specCandidates members) with
      | some p => bumpVote acc p
      | none => acc) []

/-- Modelled from the spec (for comparison with `select_protocol`): the
protocol name with the most votes, ties broken by lexicographic ordering of
the candidate name (the tally is in ascending name order, so keeping the
first strict maximum implements the tie-break). -/
def specSelectProtocol (members : List MemberMeta) : Option String :=
  ((specTally members).foldl
    (fun best kv =>
      match best with
      | none => some kv
      | some b => if b.2 < kv.2 then some kv else some b) none).map Prod.fst

end Morax

namespace Morax

/-! ## Theorems: commit transaction (offset/split invariants) -/

theorem chainedSplits_append {lo hi : Int} {xs : List (Int × Int)} (L : Int)
    (h : chainedSplits lo xs hi) (hL : 0 < L) :
    chainedSplits lo (xs ++ [(hi, hi + L)]) (hi + L) := by
  induction xs generalizing lo with
  | nil =>
    simp only [chainedSplits] at h
    subst h
    exact ⟨rfl, by omega, rfl⟩
  | cons p rest ih =>
    obtain ⟨s, e⟩ := p
    obtain ⟨h1, h2, h3⟩ := h
    exact ⟨h1, h2, ih h3⟩

theorem chainedSplits_le {lo hi : Int} {xs : List (Int × Int)}
    (h : chainedSplits lo xs hi) : lo ≤ hi := by
  induction xs generalizing lo with
  | nil => simp only [chainedSplits] at h; omega
  | cons p rest ih =>
    obtain ⟨s, e⟩ := p
    obtain ⟨h1, h2, h3⟩ := h
    have := ih h3
    omega

theorem chainedSplits_foldl_max {lo hi : Int} {xs : List (Int × Int)}
    (h : chainedSplits lo xs hi) :
    (xs.map Prod.snd).foldl max lo = hi := by
  induction xs generalizing lo with
  | nil => simpa [chainedSplits] using h
  | cons p rest ih =>
    obtain ⟨s, e⟩ := p
    obtain ⟨h1, h2, h3⟩ := h
    have hmax : max lo e = e := by omega
    simpa [hmax] using ih h3

theorem commitAll_invariant (lens : List Int) (st : PartitionState)
    (hpos : ∀ L ∈ lens, 0 < L)
    (hst : chainedSplits 0 st.splits st.last_offset) :
    chainedSplits 0 (commitAll st lens).2.splits (commitAll st lens).2.last_offset ∧
      st.last_offset ≤ (commitAll st lens).2.last_offset ∧
      (∀ s ∈ (commitAll st lens).1, st.last_offset ≤ s) ∧
      (commitAll st lens).1.Chain' (· < ·) := by
  induction lens generalizing st with
  | nil => exact ⟨hst, le_refl _, by simp [commitAll], by simp [commitAll]⟩
  | cons L rest ih =>
    have hL : 0 < L := hpos L (by simp)
    have hrest : ∀ L' ∈ rest, 0 < L' := fun L' h => hpos L' (by simp [h])
    have hst' : chainedSplits 0 (st.splits ++ [(st.last_offset, st.last_offset + L)])
        (st.last_offset + L) := chainedSplits_append L hst hL
    have := ih ⟨st.last_offset + L, st.splits ++ [(st.last_offset, st.last_offset + L)]⟩
      hrest hst'
    obtain ⟨h1, h2, h3, h4⟩ := this
    have h2' : st.last_offset + L ≤ (commitAll ⟨st.last_offset + L,
        st.splits ++ [(st.last_offset, st.last_offset + L)]⟩ rest).2.last_offset := h2
    refine ⟨h1, ?_, ?_, ?_⟩
    · simp only [commitAll, commit_record_batches]
      omega
    · intro s hs
      simp only [commitAll, commit_record_batches, List.mem_cons] at hs
      rcases hs with hs | hs
      · omega
      · have := h3 s hs; simp only at this; omega
    · simp only [commitAll, commit_record_batches]
      rw [List.chain'_cons']
      refine ⟨?_, h4⟩
      intro y hy
      have hmem : y ∈ (commitAll ⟨st.last_offset + L,
          st.splits ++ [(st.last_offset, st.last_offset + L)]⟩ rest).1 :=
        List.mem_of_mem_head? hy
      have := h3 y hmem
      simp only at this
      omega

/-- C1: starting from a freshly created partition, after any sequence of
successful `commit_record_batches` calls with positive `record_len`:
the stored `last_offset` equals the maximum `end_offset` over the
partition's split rows (as a `foldl max 0`, which is `0` for no rows);
the split rows tile `[0, last_offset)` with no gaps and no overlaps; and the
`start_offset`s returned by successive commits are strictly increasing. -/
theorem commit_record_batches_invariants (lens : List Int)
    (hpos : ∀ L ∈ lens, 0 < L) :
    (((commitAll freshPartition lens).2.splits.map Prod.snd).foldl max 0 =
        (commitAll freshPartition lens).2.last_offset) ∧
      chainedSplits 0 (commitAll freshPartition lens).2.splits
        (commitAll freshPartition lens).2.last_offset ∧
      (commitAll freshPartition lens).1.Chain' (· < ·) := by
  have h0 : chainedSplits 0 (freshPartition.splits) freshPartition.last_offset := rfl
  obtain ⟨h1, _, _, h4⟩ := commitAll_invariant lens freshPartition hpos h0
  exact ⟨chainedSplits_foldl_max h1, h1, h4⟩

/-! ## Theorems: acknowledgement range merge -/

theorem rangeLe_trans : ∀ a b c : Int × Int,
    rangeLe a b = true → rangeLe b c = true → rangeLe a c = true := by
  intro a b c
  simp only [rangeLe, Bool.or_eq_true, Bool.and_eq_true, decide_eq_true_eq]
  omega

theorem rangeLe_total : ∀ a b : Int × Int, rangeLe a b = true ∨ rangeLe b a = true := by
  intro a b
  simp only [rangeLe, Bool.or_eq_true, Bool.and_eq_true, decide_eq_true_eq]
  omega

theorem rangeLe_antisymm : ∀ a b : Int × Int,
    rangeLe a b = true → rangeLe b a = true → a = b := by
  intro a b
  obtain ⟨a1, a2⟩ := a
  obtain ⟨b1, b2⟩ := b
  simp only [rangeLe, Bool.or_eq_true, Bool.and_eq_true, decide_eq_true_eq, Prod.mk.injEq]
  omega

theorem mergeSort_rangeLe_sorted (l : List (Int × Int)) :
    (l.mergeSort rangeLe).Pairwise (fun a b => rangeLe a b = true) :=
  List.sorted_mergeSort rangeLe_trans
    (fun a b => by rcases rangeLe_total a b with h | h <;> simp [h]) l

theorem mergeSort_rangeLe_eq_of_perm {l l' : List (Int × Int)} (h : l.Perm l') :
    l.mergeSort rangeLe = l'.mergeSort rangeLe :=
  @List.eq_of_perm_of_sorted _ (fun a b => rangeLe a b = true) ⟨rangeLe_antisymm⟩ _ _
    (((l.mergeSort_perm rangeLe).trans h).trans (l'.mergeSort_perm rangeLe).symm)
    (mergeSort_rangeLe_sorted l) (mergeSort_rangeLe_sorted l')

theorem mergeSweep_head_fst : ∀ (rest : List (Int × Int)) (c : Int × Int),
    ∃ e, (mergeSweep c rest).head? = some (c.1, e) := by
  intro rest
  induction rest with
  | nil => intro c; exact ⟨c.2, rfl⟩
  | cons r rest ih =>
    intro c
    by_cases h : r.1 ≤ c.2
    · simpa [mergeSweep, h] using ih (c.1, max c.2 r.2)
    · exact ⟨c.2, by simp [mergeSweep, h]⟩

theorem mergeSweep_wf : ∀ (rest : List (Int × Int)) (c : Int × Int), c.1 < c.2 →
    (∀ x ∈ rest, x.1 < x.2) →
    (∀ p ∈ mergeSweep c rest, p.1 < p.2) ∧
      (mergeSweep c rest).Chain' (fun a b => a.2 < b.1) := by
  intro rest
  induction rest with
  | nil =>
    intro c hc _
    exact ⟨by simpa [mergeSweep] using hc, by simp [mergeSweep]⟩
  | cons r rest ih =>
    intro c hc hall
    have hr : r.1 < r.2 := hall r (by simp)
    have hall' : ∀ x ∈ rest, x.1 < x.2 := fun x hx => hall x (by simp [hx])
    by_cases h : r.1 ≤ c.2
    · have := ih (c.1, max c.2 r.2) (by simp; omega) hall'
      simpa [mergeSweep, h] using this
    · obtain ⟨hwf, hch⟩ := ih r hr hall'
      refine ⟨?_, ?_⟩
      · intro p hp
        simp only [mergeSweep, if_neg h, List.mem_cons] at hp
        rcases hp with hp | hp
        · subst hp; exact hc
        · exact hwf p hp
      · simp only [mergeSweep, if_neg h]
        rw [List.chain'_cons']
        refine ⟨?_, hch⟩
        intro y hy
        obtain ⟨e, he⟩ := mergeSweep_head_fst rest r
        rw [he] at hy
        simp only [Option.mem_def, Option.some.injEq] at hy
        subst hy
        simp only
        omega

theorem mergeSweep_of_sep : ∀ (rest : List (Int × Int)) (c : Int × Int),
    (c :: rest).Chain' (fun a b => a.2 < b.1) → mergeSweep c rest = c :: rest := by
  intro rest
  induction rest with
  | nil => intro c _; rfl
  | cons r rest ih =>
    intro c hch
    rw [List.chain'_cons] at hch
    obtain ⟨h1, h2⟩ := hch
    have hnot : ¬ r.1 ≤ c.2 := by omega
    simp only [mergeSweep, if_neg hnot]
    rw [ih r h2]

theorem chain_lt_all : ∀ (rest : List (Int × Int)) (a : Int × Int),
    (∀ p ∈ rest, p.1 < p.2) → (a :: rest).Chain' (fun x y => x.2 < y.1) →
    ∀ b ∈ rest, a.2 < b.1 := by
  intro rest
  induction rest with
  | nil => intro a _ _ b hb; simp at hb
  | cons r rest ih =>
    intro a hall hch b hb
    rw [List.chain'_cons] at hch
    obtain ⟨h1, h2⟩ := hch
    rcases List.mem_cons.mp hb with hb | hb
    · subst hb; exact h1
    · have hr : r.1 < r.2 := hall r (by simp)
      have := ih r (fun p hp => hall p (by simp [hp])) h2 b hb
      omega

theorem chain_to_pairwise : ∀ (out : List (Int × Int)), (∀ p ∈ out, p.1 < p.2) →
    out.Chain' (fun a b => a.2 < b.1) →
    out.Pairwise (fun a b => rangeLe a b = true) := by
  intro out
  induction out with
  | nil => intro _ _; exact List.Pairwise.nil
  | cons a rest ih =>
    intro hall hch
    have ha : a.1 < a.2 := hall a (by simp)
    have hall' : ∀ p ∈ rest, p.1 < p.2 := fun p hp => hall p (by simp [hp])
    refine List.Pairwise.cons ?_ (ih hall' ((List.chain'_cons').mp hch).2)
    intro b hb
    have := chain_lt_all rest a hall' hch b hb
    simp only [rangeLe, Bool.or_eq_true, Bool.and_eq_true, decide_eq_true_eq]
    omega

theorem merge_ranges_output_wf (l : List (Int × Int)) (hwf : ∀ p ∈ l, p.1 < p.2) :
    (∀ p ∈ merge_ranges l, p.1 < p.2) ∧
      (merge_ranges l).Chain' (fun a b => a.2 < b.1) := by
  by_cases h : l.length ≤ 1
  · rw [merge_ranges, if_pos h]
    match l with
    | [] => exact ⟨by simp, by simp⟩
    | [x] => exact ⟨hwf, List.chain'_singleton x⟩
  · rw [merge_ranges, if_neg h]
    have hperm := l.mergeSort_perm rangeLe
    match hm : l.mergeSort rangeLe with
    | [] =>
      rw [hm] at hperm
      have : l = [] := hperm.nil_eq.symm
      subst this
      simp at h
    | r :: rest =>
      rw [hm] at hperm
      have hmem : ∀ x ∈ r :: rest, x.1 < x.2 := fun x hx => hwf x (hperm.mem_iff.mp hx)
      exact mergeSweep_wf rest r (hmem r (by simp)) (fun x hx => hmem x (by simp [hx]))

theorem merge_ranges_perm_eq (l l' : List (Int × Int)) (h : l.Perm l') :
    merge_ranges l = merge_ranges l' := by
  by_cases hl : l.length ≤ 1
  · have hl' : l'.length ≤ 1 := by rw [← h.length_eq]; exact hl
    rw [merge_ranges, if_pos hl, merge_ranges, if_pos hl']
    match l, h with
    | [], h => exact h.nil_eq
    | [x], h =>
      have := h.mem_iff (a := x)
      match l', h with
      | [], h => exact absurd h.length_eq (by simp)
      | [y], h => simpa using (h.mem_iff (a := x)).mp (by simp)
      | y :: z :: rest, h => exact absurd h.length_eq (by simp)
  · have hl' : ¬ l'.length ≤ 1 := by rw [← h.length_eq]; exact hl
    rw [merge_ranges, if_neg hl, merge_ranges, if_neg hl',
      mergeSort_rangeLe_eq_of_perm h]

/-- C8: `merge_ranges` on a list of half-open ranges each with
`start < end` is permutation-invariant, idempotent, and its output ranges
satisfy `start < end` sorted with `end i ≤ start (i+1)` (disjoint). -/
theorem merge_ranges_laws (l : List (Int × Int)) (hwf : ∀ p ∈ l, p.1 < p.2) :
    (∀ l', l.Perm l' → merge_ranges l = merge_ranges l') ∧
      merge_ranges (merge_ranges l) = merge_ranges l ∧
      (∀ p ∈ merge_ranges l, p.1 < p.2) ∧
      (merge_ranges l).Chain' (fun a b => a.2 ≤ b.1) := by
  obtain ⟨hwf', hch⟩ := merge_ranges_output_wf l hwf
  refine ⟨fun l' h => merge_ranges_perm_eq l l' h, ?_, hwf', hch.imp (by omega)⟩
  by_cases h : (merge_ranges l).length ≤ 1
  · rw [merge_ranges, if_pos h]
  · rw [merge_ranges, if_neg h]
    have hsorted : (merge_ranges l).Pairwise (fun a b => rangeLe a b = true) :=
      chain_to_pairwise _ hwf' hch
    have heq : (merge_ranges l).mergeSort rangeLe = merge_ranges l :=
      @List.eq_of_perm_of_sorted _ (fun a b => rangeLe a b = true) ⟨rangeLe_antisymm⟩ _ _
        ((merge_ranges l).mergeSort_perm rangeLe) (mergeSort_rangeLe_sorted _) hsorted
    match hm : merge_ranges l, heq, hch with
    | [], heq, hch => simp [heq]
    | c :: rest, heq, hch =>
      rw [heq]
      exact mergeSweep_of_sep rest c hch

/-- Witness for C8 at the concrete range list `[(2, 3), (0, 2)]`. -/
theorem merge_ranges_laws_witness :
    (∀ p ∈ [((2 : Int), (3 : Int)), (0, 2)], p.1 < p.2) ∧
      ((∀ l', [((2 : Int), (3 : Int)), (0, 2)].Perm l' →
          merge_ranges [(2, 3), (0, 2)] = merge_ranges l') ∧
        merge_ranges (merge_ranges [(2, 3), (0, 2)]) = merge_ranges [(2, 3), (0, 2)] ∧
        (∀ p ∈ merge_ranges [(2, 3), (0, 2)], p.1 < p.2) ∧
        (merge_ranges [(2, 3), (0, 2)]).Chain' (fun a b => a.2 ≤ b.1)) :=
  ⟨by decide, merge_ranges_laws [(2, 3), (0, 2)] (by decide)⟩

/-- Witness for C1 at the concrete commit sequence `[2, 3, 1]`. -/
theorem commit_record_batches_invariants_witness :
    (∀ L ∈ [(2 : Int), 3, 1], 0 < L) ∧
      ((((commitAll freshPartition [2, 3, 1]).2.splits.map Prod.snd).foldl max 0 =
          (commitAll freshPartition [2, 3, 1]).2.last_offset) ∧
        chainedSplits 0 (commitAll freshPartition [2, 3, 1]).2.splits
          (commitAll freshPartition [2, 3, 1]).2.last_offset ∧
        (commitAll freshPartition [2, 3, 1]).1.Chain' (· < ·)) :=
  ⟨by decide, commit_record_batches_invariants [2, 3, 1] (by decide)⟩

/-! ## Theorems: consumer-group protocol selection -/

theorem charListLt_iff : ∀ a b : List Char, charListLt a b = true ↔ a < b := by
  intro a
  induction a with
  | nil =>
    intro b
    cases b with
    | nil =>
      simp only [charListLt, Bool.false_eq_true, false_iff]
      intro h
      cases h
    | cons d ds =>
      simp only [charListLt, true_iff]
      exact List.Lex.nil
  | cons c cs ih =>
    intro b
    cases b with
    | nil =>
      simp only [charListLt, Bool.false_eq_true, false_iff]
      intro h
      cases h
    | cons d ds =>
      by_cases h1 : c < d
      · simp only [charListLt, h1, if_true, true_iff]
        exact List.Lex.rel h1
      · by_cases h2 : d < c
        · simp only [charListLt, h1, h2, if_true, if_false, Bool.false_eq_true, false_iff]
          intro h
          cases h with
          | rel h => exact absurd h h1
          | cons h => exact absurd rfl (ne_of_gt h2)
        · have hcd : c = d := le_antisymm (not_lt.mp h2) (not_lt.mp h1)
          subst hcd
          simp only [charListLt, h1, h2, if_false]
          rw [ih ds]
          constructor
          · exact List.Lex.cons
          · intro h
            cases h with
            | rel h => exact absurd h h1
            | cons h => exact h

theorem strLt_iff (a b : String) : strLt a b = true ↔ a.data < b.data :=
  charListLt_iff a.data b.data

theorem strLt_trans {a b c : String} (h1 : strLt a b = true) (h2 : strLt b c = true) :
    strLt a c = true := by
  rw [strLt_iff] at *
  exact lt_trans h1 h2

theorem strLt_asymm {a b : String} (h : strLt a b = true) : strLt b a = false := by
  rw [strLt_iff] at h
  rw [← Bool.not_eq_true, strLt_iff]
  exact lt_asymm h

theorem strLt_irrefl (a : String) : strLt a a = false := by
  rw [← Bool.not_eq_true, strLt_iff]
  exact lt_irrefl a.data

theorem strLt_eq_of_not {a b : String} (h1 : strLt a b = false) (h2 : strLt b a = false) :
    a = b := by
  rcases lt_trichotomy a.data b.data with h | h | h
  · rw [← strLt_iff] at h; rw [h1] at h; exact absurd h (by simp)
  · exact String.ext h
  · rw [← strLt_iff] at h; rw [h2] at h; exact absurd h (by simp)

theorem mem_insertSortedStr : ∀ (l : List String) (x y : String),
    y ∈ insertSortedStr x l ↔ y = x ∨ y ∈ l := by
  intro l
  induction l with
  | nil => intro x y; simp [insertSortedStr]
  | cons z zs ih =>
    intro x y
    by_cases h1 : strLt x z = true
    · simp [insertSortedStr, h1]
    · by_cases h2 : x = z
      · subst h2
        have hb1 : strLt x x = false := strLt_irrefl x
        simp only [insertSortedStr, hb1, Bool.false_eq_true, if_false, eq_self_iff_true,
          if_true]
        constructor
        · intro h; exact Or.inr h
        · rintro (h | h)
          · subst h; simp
          · exact h
      · have hb1 : strLt x z = false := by simpa using h1
        simp only [insertSortedStr, hb1, h2, Bool.false_eq_true, if_false, List.mem_cons,
          ih x y]
        tauto

theorem pairwise_insertSortedStr : ∀ (l : List String) (x : String),
    l.Pairwise (fun a b => strLt a b = true) →
    (insertSortedStr x l).Pairwise (fun a b => strLt a b = true) := by
  intro l
  induction l with
  | nil => intro x _; simp [insertSortedStr]
  | cons z zs ih =>
    intro x hp
    rw [List.pairwise_cons] at hp
    obtain ⟨hz, hzs⟩ := hp
    by_cases h1 : strLt x z = true
    · simp only [insertSortedStr, h1, if_true]
      rw [List.pairwise_cons]
      refine ⟨?_, List.pairwise_cons.mpr ⟨hz, hzs⟩⟩
      intro b hb
      rcases List.mem_cons.mp hb with hb | hb
      · subst hb; exact h1
      · exact strLt_trans h1 (hz b hb)
    · by_cases h2 : x = z
      · subst h2
        have hb1 : strLt x x = false := strLt_irrefl x
        simp only [insertSortedStr, hb1, Bool.false_eq_true, if_false, eq_self_iff_true,
          if_true]
        exact List.pairwise_cons.mpr ⟨hz, hzs⟩
      · have hb1 : strLt x z = false := by simpa using h1
        simp only [insertSortedStr, hb1, h2, Bool.false_eq_true, if_false]
        rw [List.pairwise_cons]
        refine ⟨?_, ih x hzs⟩
        intro b hb
        rcases (mem_insertSortedStr zs x b).mp hb with hb | hb
        · subst hb
          rcases hx : strLt z b with _ | _
          · exact absurd (strLt_eq_of_not hb1 hx) h2
          · rfl
        · exact hz b hb

theorem mem_fold_insert : ∀ (xs : List String) (acc : List String) (y : String),
    y ∈ xs.foldl (fun acc p => insertSortedStr p acc) acc ↔ y ∈ xs ∨ y ∈ acc := by
  intro xs
  induction xs with
  | nil => intro acc y; simp
  | cons x xs ih =>
    intro acc y
    simp only [List.foldl_cons, ih, mem_insertSortedStr, List.mem_cons]
    tauto

theorem pairwise_fold_insert : ∀ (xs : List String) (acc : List String),
    acc.Pairwise (fun a b => strLt a b = true) →
    (xs.foldl (fun acc p => insertSortedStr p acc) acc).Pairwise
      (fun a b => strLt a b = true) := by
  intro xs
  induction xs with
  | nil => intro acc h; exact h
  | cons x xs ih =>
    intro acc h
    exact ih (insertSortedStr x acc) (pairwise_insertSortedStr acc x h)

theorem mem_candidate_protocols (members : List MemberMeta) (p : String) :
    p ∈ candidate_protocols members ↔ p ∈ members.flatMap MemberMeta.protocols := by
  rw [candidate_protocols, mem_fold_insert]
  simp

theorem pairwise_candidate_protocols (members : List MemberMeta) :
    (candidate_protocols members).Pairwise (fun a b => strLt a b = true) :=
  pairwise_fold_insert _ [] List.Pairwise.nil

theorem mem_keys_bumpVote : ∀ (acc : List (String × Nat)) (p k : String),
    k ∈ (bumpVote acc p).map Prod.fst ↔ k = p ∨ k ∈ acc.map Prod.fst := by
  intro acc
  induction acc with
  | nil => intro p k; simp [bumpVote]
  | cons qv rest ih =>
    intro p k
    obtain ⟨q, n⟩ := qv
    by_cases h1 : strLt p q = true
    · simp [bumpVote, h1]
    · by_cases h2 : p = q
      · subst h2
        have hb1 : strLt p p = false := strLt_irrefl p
        simp only [bumpVote, hb1, Bool.false_eq_true, if_false, eq_self_iff_true, if_true,
          List.map_cons, List.mem_cons]
        tauto
      · have hb1 : strLt p q = false := by simpa using h1
        simp only [bumpVote, hb1, h2, Bool.false_eq_true, if_false, List.map_cons,
          List.mem_cons, ih p k]
        tauto

theorem pairwise_keys_bumpVote : ∀ (acc : List (String × Nat)) (p : String),
    (acc.map Prod.fst).Pairwise (fun a b => strLt a b = true) →
    ((bumpVote acc p).map Prod.fst).Pairwise (fun a b => strLt a b = true) := by
  intro acc
  induction acc with
  | nil => intro p _; simp [bumpVote]
  | cons qv rest ih =>
    intro p hp
    obtain ⟨q, n⟩ := qv
    simp only [List.map_cons, List.pairwise_cons] at hp
    obtain ⟨hq, hrest⟩ := hp
    by_cases h1 : strLt p q = true
    · simp only [bumpVote, h1, if_true, List.map_cons, List.pairwise_cons]
      refine ⟨?_, hq, hrest⟩
      intro b hb
      rcases List.mem_cons.mp hb with hb | hb
      · subst hb; exact h1
      · exact strLt_trans h1 (hq b hb)
    · by_cases h2 : p = q
      · subst h2
        have hb1 : strLt p p = false := strLt_irrefl p
        simp only [bumpVote, hb1, Bool.false_eq_true, if_false, eq_self_iff_true, if_true,
          List.map_cons, List.pairwise_cons]
        exact ⟨hq, hrest⟩
      · have hb1 : strLt p q = false := by simpa using h1
        simp only [bumpVote, hb1, h2, Bool.false_eq_true, if_false, List.map_cons,
          List.pairwise_cons]
        refine ⟨?_, ih p hrest⟩
        intro b hb
        rcases (mem_keys_bumpVote rest p b).mp hb with hb | hb
        · subst hb
          rcases hx : strLt q b with _ | _
          · exact absurd (strLt_eq_of_not hb1 hx) h2
          · rfl
        · exact hq b hb

theorem vote_mem {m : MemberMeta} {candidates : List String} {p : String}
    (h : vote m candidates = some p) : p ∈ candidates :=
  List.mem_of_find?_eq_some h

theorem vote_head {m : MemberMeta} {c0 : String} {rest : List String}
    (h : c0 ∈ m.protocols) : vote m (c0 :: rest) = some c0 := by
  rw [vote, List.find?_cons_of_pos]
  simpa using h

theorem tallyVotes_ok (candidates : List String) :
    ∀ (members : List MemberMeta) (acc : List (String × Nat)),
    (∀ m ∈ members, (vote m candidates).isSome) →
    ∃ votes, tallyVotes candidates members acc = .ok votes ∧
      (∀ k, k ∈ votes.map Prod.fst ↔
        (∃ m ∈ members, vote m candidates = some k) ∨ k ∈ acc.map Prod.fst) ∧
      ((acc.map Prod.fst).Pairwise (fun a b => strLt a b = true) →
        (votes.map Prod.fst).Pairwise (fun a b => strLt a b = true)) := by
  intro members
  induction members with
  | nil =>
    intro acc _
    exact ⟨acc, rfl, by simp, fun h => h⟩
  | cons m rest ih =>
    intro acc hall
    have hm := hall m (by simp)
    match hv : vote m candidates with
    | none => rw [hv] at hm; simp at hm
    | some p =>
      obtain ⟨votes, h1, h2, h3⟩ :=
        ih (bumpVote acc p) (fun m' hm' => hall m' (by simp [hm']))
      refine ⟨votes, ?_, ?_, ?_⟩
      · simp only [tallyVotes, hv]
        exact h1
      · intro k
        rw [h2 k, mem_keys_bumpVote]
        constructor
        · rintro (⟨m', hm', hvm'⟩ | hk | hk)
          · exact Or.inl ⟨m', by simp [hm'], hvm'⟩
          · subst hk; exact Or.inl ⟨m, by simp, hv⟩
          · exact Or.inr hk
        · rintro (⟨m', hm', hvm'⟩ | hk)
          · rcases List.mem_cons.mp hm' with hm' | hm'
            · subst hm'
              rw [hv] at hvm'
              exact Or.inr (Or.inl (by injection hvm' with h; exact h.symm))
            · exact Or.inl ⟨m', hm', hvm'⟩
          · exact Or.inr (Or.inr hk)
      · intro hacc
        exact h3 (pairwise_keys_bumpVote acc p hacc)

theorem tallyVotes_keys_sub (candidates : List String) :
    ∀ (members : List MemberMeta) (acc votes : List (String × Nat)),
    tallyVotes candidates members acc = .ok votes →
    ∀ k ∈ votes.map Prod.fst,
      k ∈ acc.map Prod.fst ∨ ∃ m ∈ members, vote m candidates = some k := by
  intro members
  induction members with
  | nil =>
    intro acc votes h k hk
    simp only [tallyVotes, Except.ok.injEq] at h
    subst h
    exact Or.inl hk
  | cons m rest ih =>
    intro acc votes h k hk
    match hv : vote m candidates with
    | none => simp [tallyVotes, hv] at h
    | some p =>
      simp only [tallyVotes, hv] at h
      rcases ih (bumpVote acc p) votes h k hk with hk' | ⟨m', hm', hvm'⟩
      · rcases (mem_keys_bumpVote acc p k).mp hk' with hk'' | hk''
        · subst hk''; exact Or.inr ⟨m, by simp, hv⟩
        · exact Or.inl hk''
      · exact Or.inr ⟨m', by simp [hm'], hvm'⟩

theorem sorted_head_least {c : String} {rest : List String}
    (hp : (c :: rest).Pairwise (fun a b => strLt a b = true)) :
    ∀ q ∈ c :: rest, strLt q c = false := by
  intro q hq
  rcases List.mem_cons.mp hq with hq | hq
  · subst hq; exact strLt_irrefl q
  · exact strLt_asymm ((List.pairwise_cons.mp hp).1 q hq)

theorem sorted_mem_head {l : List String} {c : String}
    (hp : l.Pairwise (fun a b => strLt a b = true)) (hc : c ∈ l)
    (hleast : ∀ k ∈ l, strLt k c = false) : l.head? = some c := by
  match l, hc with
  | k :: tail, hc =>
    rcases List.mem_cons.mp hc with hc | hc
    · subst hc; rfl
    · have h1 : strLt k c = true := (List.pairwise_cons.mp hp).1 c hc
      have h2 : strLt k c = false := hleast k (by simp)
      rw [h1] at h2
      exact absurd h2 (by simp)

/-- C2 (amended): for a non-empty member set in which every member offers at
least one protocol, `select_protocol` succeeds and returns the
lexicographically smallest protocol name offered by any member — the vote
counts, the members' declared preference orders, and the intersection play
no role. -/
theorem select_protocol_lex_least (members : List MemberMeta)
    (hne : members ≠ []) (hproto : ∀ m ∈ members, m.protocols ≠ []) :
    ∃ p, select_protocol members = .ok (some p) ∧
      p ∈ members.flatMap MemberMeta.protocols ∧
      ∀ q ∈ members.flatMap MemberMeta.protocols, strLt q p = false := by
  match hcand : candidate_protocols members with
  | [] =>
    match members, hne with
    | m :: rest, _ =>
      have hp := hproto m (by simp)
      match hm : m.protocols with
      | [] => exact absurd hm hp
      | p0 :: ps =>
        have : p0 ∈ candidate_protocols (m :: rest) := by
          rw [mem_candidate_protocols]
          exact List.mem_flatMap.mpr ⟨m, by simp, by simp [hm]⟩
        rw [hcand] at this
        simp at this
  | c0 :: ctail =>
    have hsorted := pairwise_candidate_protocols members
    rw [hcand] at hsorted
    have hc0mem : c0 ∈ members.flatMap MemberMeta.protocols := by
      rw [← mem_candidate_protocols, hcand]; simp
    obtain ⟨m0, hm0, hc0m0⟩ := List.mem_flatMap.mp hc0mem
    have hleast : ∀ q ∈ members.flatMap MemberMeta.protocols, strLt q c0 = false := by
      intro q hq
      have : q ∈ candidate_protocols members := (mem_candidate_protocols members q).mpr hq
      rw [hcand] at this
      exact sorted_head_least hsorted q this
    have hallsome : ∀ m ∈ members, (vote m (candidate_protocols members)).isSome := by
      intro m hm
      have hp := hproto m hm
      match hmp : m.protocols with
      | [] => exact absurd hmp hp
      | p0 :: ps =>
        have hmem : p0 ∈ candidate_protocols members := by
          rw [mem_candidate_protocols]
          exact List.mem_flatMap.mpr ⟨m, hm, by simp [hmp]⟩
        rw [vote, List.find?_isSome]
        exact ⟨p0, hmem, by simp [hmp]⟩
    obtain ⟨votes, htally, hkeys, hpair⟩ :=
      tallyVotes_ok (candidate_protocols members) members [] hallsome
    have hm0vote : vote m0 (candidate_protocols members) = some c0 := by
      rw [hcand]
      exact vote_head hc0m0
    have hc0votes : c0 ∈ votes.map Prod.fst :=
      (hkeys c0).mpr (Or.inl ⟨m0, hm0, hm0vote⟩)
    have hvpair := hpair (by simp)
    have hvleast : ∀ k ∈ votes.map Prod.fst, strLt k c0 = false := by
      intro k hk
      rcases (hkeys k).mp hk with ⟨m', _, hvm'⟩ | hk'
      · have : k ∈ candidate_protocols members := vote_mem hvm'
        rw [hcand] at this
        exact sorted_head_least hsorted k this
      · simp at hk'
    have hhead : (votes.map Prod.fst).head? = some c0 :=
      sorted_mem_head hvpair hc0votes hvleast
    refine ⟨c0, ?_, hc0mem, hleast⟩
    rw [select_protocol]
    simp only [htally, bind, Except.bind, pure, Except.pure]
    match votes, hhead with
    | (k1, n1) :: vtail, hhead =>
      simp only [List.map_cons, List.head?_cons, Option.some.injEq] at hhead
      subst hhead
      rfl

/-- Witness for C2's amended theorem at two concrete members. -/
theorem select_protocol_lex_least_witness :
    ([⟨"w1", "consumer", ["roundrobin", "range"]⟩,
        ⟨"w2", "consumer", ["sticky"]⟩] : List MemberMeta) ≠ [] ∧
      (∀ m ∈ ([⟨"w1", "consumer", ["roundrobin", "range"]⟩,
          ⟨"w2", "consumer", ["sticky"]⟩] : List MemberMeta), m.protocols ≠ []) ∧
      ∃ p, select_protocol
          [⟨"w1", "consumer", ["roundrobin", "range"]⟩,
            ⟨"w2", "consumer", ["sticky"]⟩] = .ok (some p) ∧
        p ∈ ([⟨"w1", "consumer", ["roundrobin", "range"]⟩,
            ⟨"w2", "consumer", ["sticky"]⟩] : List MemberMeta).flatMap
          MemberMeta.protocols ∧
        ∀ q ∈ ([⟨"w1", "consumer", ["roundrobin", "range"]⟩,
            ⟨"w2", "consumer", ["sticky"]⟩] : List MemberMeta).flatMap
          MemberMeta.protocols, strLt q p = false :=
  ⟨by decide, by decide,
    select_protocol_lex_least _ (by decide) (by decide)⟩

/-- C3 (amended): whatever protocol `select_protocol` returns is one of the
protocol names offered by some member (the union, not the intersection, of
the members' protocol sets). -/
theorem select_protocol_mem_offered (members : List MemberMeta) (p : String)
    (h : select_protocol members = .ok (some p)) :
    p ∈ members.flatMap MemberMeta.protocols := by
  rw [select_protocol] at h
  match htally : tallyVotes (candidate_protocols members) members [] with
  | .error e => simp [htally, bind, Except.bind] at h
  | .ok votes =>
    simp only [htally, bind, Except.bind, pure, Except.pure, Except.ok.injEq] at h
    match votes, h with
    | [], h => simp at h
    | (k1, n1) :: vtail, h =>
      simp only [List.map_cons, List.head?_cons] at h
      rw [show Option.map Prod.snd (some ((n1, k1) : Nat × String)) = some k1 from rfl] at h
      rw [Option.some.injEq] at h
      subst h
      have hk1 : k1 ∈ ((k1, n1) :: vtail).map Prod.fst := by simp
      rcases tallyVotes_keys_sub (candidate_protocols members) members [] _ htally k1 hk1
        with hk | ⟨m, _, hvm⟩
      · simp at hk
      · have : k1 ∈ candidate_protocols members := vote_mem hvm
        rwa [mem_candidate_protocols] at this

/-- Witness for C3's amended theorem at a concrete member list. -/
theorem select_protocol_mem_offered_witness :
    select_protocol [⟨"w1", "consumer", ["x"]⟩] = .ok (some "x") ∧
      ("x" : String) ∈
        ([⟨"w1", "consumer", ["x"]⟩] : List MemberMeta).flatMap MemberMeta.protocols :=
  ⟨rfl, select_protocol_mem_offered [⟨"w1", "consumer", ["x"]⟩] "x" rfl⟩

/-- C2 counterexample: with members `m1{b}`, `m2{b}`, `m3{a, b}`, the spec's
most-votes rule (votes `b, b, b`, intersection candidates `{b}`) picks `"b"`,
but `select_protocol` returns `"a"`: it takes the first entry of the vote
map in name order, ignoring the vote counts, over union candidates. -/
theorem select_protocol_most_votes_counterexample :
    select_protocol
        [⟨"m1", "consumer", ["b"]⟩, ⟨"m2", "consumer", ["b"]⟩,
          ⟨"m3", "consumer", ["a", "b"]⟩] = .ok (some "a") ∧
      specSelectProtocol
        [⟨"m1", "consumer", ["b"]⟩, ⟨"m2", "consumer", ["b"]⟩,
          ⟨"m3", "consumer", ["a", "b"]⟩] = some "b" ∧
      ("a" : String) ≠ "b" := ⟨rfl, rfl, by decide⟩

/-- C3 counterexample: members `m1{a}` and `m2{b}` have an empty protocol
intersection, yet the two JoinGroup mutations both succeed and the group
ends up with `protocol = some "a"` — which is not in the (empty)
intersection. -/
theorem join_group_empty_intersection_counterexample :
    (GroupMetaBiz.add freshGroupMeta ⟨"m1", "consumer", ["a"]⟩ >>= fun g =>
        GroupMetaBiz.add g ⟨"m2", "consumer", ["b"]⟩) =
      .ok ⟨2, some "m1", some "consumer", some "a",
        [("m1", ⟨"m1", "consumer", ["a"]⟩), ("m2", ⟨"m2", "consumer", ["b"]⟩)]⟩ ∧
      specCandidates [⟨"m1", "consumer", ["a"]⟩, ⟨"m2", "consumer", ["b"]⟩] = [] :=
  ⟨rfl, rfl⟩


/-! ## Theorems: unsigned varint / varlong codec -/

theorem lor_two_mul (x y : Nat) : (2 * x) ||| (2 * y) = 2 * (x ||| y) := by
  have h1 := Nat.bitwise_bit (f := or) (m := x) (n := y) (a := false) (b := false)
  simpa [Nat.bit, HOr.hOr, OrOp.or, Nat.lor] using h1

theorem lor_two_mul_add_one (x y : Nat) : (2 * x) ||| (2 * y + 1) = 2 * (x ||| y) + 1 := by
  have h1 := Nat.bitwise_bit (f := or) (m := x) (n := y) (a := false) (b := true)
  simpa [Nat.bit, HOr.hOr, OrOp.or, Nat.lor] using h1

theorem lor_shift_eq_add (n : Nat) : ∀ a b : Nat, a < 2 ^ n → (b <<< n) ||| a = b <<< n + a := by
  induction n with
  | zero =>
    intro a b h
    interval_cases a
    simp
  | succ n ih =>
    intro a b h
    have h2 : a / 2 < 2 ^ n := by
      have : a < 2 ^ n * 2 := by
        calc a < 2 ^ (n + 1) := h
          _ = 2 ^ n * 2 := by ring
      omega
    have hb : b <<< (n + 1) = 2 * (b <<< n) := by
      simp only [Nat.shiftLeft_eq, pow_succ]
      ring
    have key := ih (a / 2) b h2
    have ha : a = 2 * (a / 2) + a % 2 := by omega
    have hm : a % 2 = 0 ∨ a % 2 = 1 := by omega
    rcases hm with hm | hm
    · rw [hb]
      conv_lhs => rw [ha, hm]
      rw [Nat.add_zero, lor_two_mul, key]
      omega
    · rw [hb]
      conv_lhs => rw [ha, hm]
      rw [lor_two_mul_add_one, key]
      omega

set_option maxRecDepth 4096 in
theorem fin_or_128 : ∀ x : Fin 256, x.val ||| 128 = x.val % 128 + 128 := by decide

set_option maxRecDepth 4096 in
theorem fin_add_128_and_127 : ∀ x : Fin 128, (x.val + 128) &&& 127 = x.val := by decide

set_option maxRecDepth 4096 in
theorem fin_and_127 : ∀ x : Fin 128, x.val &&& 127 = x.val := by decide

theorem or_128_eq {a : Nat} (h : a < 256) : a ||| 128 = a % 128 + 128 :=
  fin_or_128 ⟨a, h⟩

theorem add_128_and_127_eq {a : Nat} (h : a < 128) : (a + 128) &&& 127 = a :=
  fin_add_128_and_127 ⟨a, h⟩

theorem and_127_eq {a : Nat} (h : a < 128) : a &&& 127 = a :=
  fin_and_127 ⟨a, h⟩

theorem write_unsigned_varint_length_aux :
    ∀ (n : Nat) (v : Int), v.toNat ≤ n →
    (write_unsigned_varint v).length = varint_calculate_size v := by
  intro n
  induction n with
  | zero =>
    intro v hv
    have h : ¬ 128 ≤ v := by omega
    rw [write_unsigned_varint, varint_calculate_size]
    simp [h]
  | succ n ih =>
    intro v hv
    by_cases h : 128 ≤ v
    · rw [write_unsigned_varint, varint_calculate_size]
      simp only [h, dif_pos, List.length_cons]
      rw [ih (v / 128) (by omega)]
      omega
    · rw [write_unsigned_varint, varint_calculate_size]
      simp [h]

theorem write_unsigned_varint_length (v : Int) :
    (write_unsigned_varint v).length = varint_calculate_size v :=
  write_unsigned_varint_length_aux v.toNat v le_rfl

theorem toSigned_of_lt {w : Nat} {p : Nat} (h : p < 2 ^ (w - 1)) (hw : 1 ≤ w) :
    toSigned w p = (p : Int) := by
  have hww : 2 ^ (w - 1) < 2 ^ w := Nat.pow_lt_pow_right (by norm_num) (by omega)
  have hp : p % 2 ^ w = p := Nat.mod_eq_of_lt (by omega)
  rw [toSigned, hp, if_neg (by omega)]


theorem readUvarLoop_write (w : Nat) :
    ∀ (n : Nat) (v : Int), v.toNat ≤ n → 0 ≤ v →
    ∀ (i res : Nat) (rest : List Nat),
      res < 128 ^ i →
      res + v.toNat * 128 ^ i < 2 ^ (w - 1) →
      1 ≤ w →
      readUvarLoop w (write_unsigned_varint v ++ rest) i res =
        .ok (((res + v.toNat * 128 ^ i : Nat) : Int), rest) := by
  intro n
  induction n with
  | zero =>
    intro v hn h0 i res rest hres htot hw
    have hv : v = 0 := by omega
    subst hv
    rw [write_unsigned_varint]
    simp only [show ¬ (128 : Int) ≤ 0 by norm_num, dif_neg, not_false_iff]
    simp only [List.cons_append, List.nil_append, readUvarLoop]
    rw [show ((0 : Int) % 256).toNat = 0 by rfl]
    simp only [Nat.zero_and, Nat.zero_shiftLeft, Nat.or_zero, Nat.zero_or]
    have hres2 : res % 2 ^ w = res := by
      have hww : 2 ^ (w - 1) < 2 ^ w := Nat.pow_lt_pow_right (by norm_num) (by omega)
      exact Nat.mod_eq_of_lt (by omega)
    rw [if_pos (by norm_num)]
    rw [hres2, toSigned_of_lt (by omega) hw]
    simp
  | succ n ih =>
    intro v hn h0 i res rest hres htot hw
    have hpow : (128 : Nat) ^ i = 2 ^ (7 * i) := by
      rw [pow_mul]
      norm_num
    by_cases h : 128 ≤ v
    · -- continuation byte
      have hu : 128 ≤ v.toNat := by omega
      have h7i : 7 * i < w := by
        have h1 : (2 : Nat) ^ (7 * i) ≤ 2 ^ (w - 1) := by
          calc (2 : Nat) ^ (7 * i) = 128 ^ i := hpow.symm
            _ ≤ v.toNat * 128 ^ i := Nat.le_mul_of_pos_left _ (by omega)
            _ ≤ res + v.toNat * 128 ^ i := by omega
            _ ≤ 2 ^ (w - 1) := by omega
        have h2 : 7 * i ≤ w - 1 := (Nat.pow_le_pow_iff_right (by norm_num)).mp h1
        omega
      have hb256 : (v % 256).toNat = v.toNat % 256 := by omega
      have hbyte : (v % 256).toNat ||| 128 = v.toNat % 128 + 128 := by
        rw [hb256, or_128_eq (Nat.mod_lt _ (by norm_num))]
        omega
      rw [write_unsigned_varint]
      simp only [h, dif_pos, List.cons_append, readUvarLoop, hbyte]
      rw [if_neg (by omega)]
      rw [add_128_and_127_eq (Nat.mod_lt _ (by norm_num))]
      rw [show i * 7 = 7 * i from Nat.mul_comm i 7, Nat.mod_eq_of_lt h7i]
      have hmod128 : v.toNat % 128 < 128 := Nat.mod_lt _ (by norm_num)
      have hlor : res ||| ((v.toNat % 128) <<< (7 * i)) =
          (v.toNat % 128) <<< (7 * i) + res := by
        rw [Nat.lor_comm]
        exact lor_shift_eq_add (7 * i) res (v.toNat % 128) (hpow ▸ hres)
      have hshift : (v.toNat % 128) <<< (7 * i) = (v.toNat % 128) * 128 ^ i := by
        rw [Nat.shiftLeft_eq, hpow]
      have hle : (v.toNat % 128) * 128 ^ i + res ≤ res + v.toNat * 128 ^ i := by
        have := Nat.mul_le_mul_right (128 ^ i) (Nat.mod_le v.toNat 128)
        omega
      have hlt2w : (v.toNat % 128) * 128 ^ i + res < 2 ^ w := by
        have hww : 2 ^ (w - 1) < 2 ^ w := Nat.pow_lt_pow_right (by norm_num) (by omega)
        omega
      rw [hlor, hshift, Nat.mod_eq_of_lt hlt2w]
      have hrec := ih (v / 128) (by omega) (by omega) (i + 1)
        ((v.toNat % 128) * 128 ^ i + res) rest
      have hres' : (v.toNat % 128) * 128 ^ i + res < 128 ^ (i + 1) := by
        have h1 : (v.toNat % 128) * 128 ^ i ≤ 127 * 128 ^ i :=
          Nat.mul_le_mul_right (128 ^ i) (by omega)
        have h2 : (127 : Nat) * 128 ^ i + 128 ^ i = 128 ^ (i + 1) := by
          rw [pow_succ]
          ring
        omega
      have hdiv : (v / 128).toNat = v.toNat / 128 := by omega
      have hval : ((v.toNat % 128) * 128 ^ i + res) + (v / 128).toNat * 128 ^ (i + 1) =
          res + v.toNat * 128 ^ i := by
        rw [hdiv, pow_succ]
        have hdm : v.toNat = 128 * (v.toNat / 128) + v.toNat % 128 :=
          (Nat.div_add_mod _ _).symm
        calc (v.toNat % 128) * 128 ^ i + res + v.toNat / 128 * (128 ^ i * 128)
            = res + (128 * (v.toNat / 128) + v.toNat % 128) * 128 ^ i := by ring
          _ = res + v.toNat * 128 ^ i := by rw [← hdm]
      have htot' : ((v.toNat % 128) * 128 ^ i + res) + (v / 128).toNat * 128 ^ (i + 1) <
          2 ^ (w - 1) := by
        rw [hval]
        exact htot
      have := hrec hres' htot' hw
      rw [this, hval]
    · -- final byte
      have hu : v.toNat < 128 := by omega
      have hb : (v % 256).toNat = v.toNat := by omega
      rw [write_unsigned_varint]
      simp only [h, dif_neg, not_false_iff, List.cons_append, List.nil_append, readUvarLoop]
      rw [hb, if_pos hu]
      rw [and_127_eq hu]
      by_cases hz : v.toNat = 0
      · have hres2 : res % 2 ^ w = res := by
          have hww : 2 ^ (w - 1) < 2 ^ w := Nat.pow_lt_pow_right (by norm_num) (by omega)
          exact Nat.mod_eq_of_lt (by omega)
        simp only [hz, Nat.zero_shiftLeft, Nat.or_zero, hres2]
        rw [toSigned_of_lt (by omega) hw]
        simp [hz]
      · have h7i : 7 * i < w := by
          have h1 : (2 : Nat) ^ (7 * i) ≤ 2 ^ (w - 1) := by
            calc (2 : Nat) ^ (7 * i) = 128 ^ i := hpow.symm
              _ ≤ v.toNat * 128 ^ i := Nat.le_mul_of_pos_left _ (by omega)
              _ ≤ res + v.toNat * 128 ^ i := by omega
              _ ≤ 2 ^ (w - 1) := by omega
          have h2 : 7 * i ≤ w - 1 := (Nat.pow_le_pow_iff_right (by norm_num)).mp h1
          omega
        rw [show i * 7 = 7 * i from Nat.mul_comm i 7, Nat.mod_eq_of_lt h7i]
        have hlor : res ||| (v.toNat <<< (7 * i)) = v.toNat <<< (7 * i) + res := by
          rw [Nat.lor_comm]
          exact lor_shift_eq_add (7 * i) res v.toNat (hpow ▸ hres)
        have hshift : v.toNat <<< (7 * i) = v.toNat * 128 ^ i := by
          rw [Nat.shiftLeft_eq, hpow]
        have hlt2w : v.toNat * 128 ^ i + res < 2 ^ w := by
          have hww : 2 ^ (w - 1) < 2 ^ w := Nat.pow_lt_pow_right (by norm_num) (by omega)
          omega
        rw [hlor, hshift, Nat.mod_eq_of_lt hlt2w]
        rw [toSigned_of_lt (show v.toNat * 128 ^ i + res < 2 ^ (w - 1) by omega) hw]
        have hcomm : v.toNat * 128 ^ i + res = res + v.toNat * 128 ^ i := by omega
        rw [hcomm]

/-- C5 counterexample: for `i = -1` the writer's signed loop guard
`v >= 0x80` is false immediately, so it emits the single byte `0xFF`
(`-1 as u8`); the reader sees the continuation bit and fails at end of
input instead of returning `-1`. -/
theorem varint_negative_roundtrip_counterexample :
    write_unsigned_varint (-1) = [255] ∧
      read_unsigned_varint (write_unsigned_varint (-1)) =
        .error "failed to fill whole buffer" := by
  have hw : write_unsigned_varint (-1) = [255] := by
    rw [write_unsigned_varint]
    norm_num
    rfl
  refine ⟨hw, ?_⟩
  rw [hw]
  rfl



/-- C5 (amended): for every non-negative `i` in the `i32` (respectively
`i64`) value range, decoding the bytes produced by the unsigned-varint
(respectively varlong) writer returns `i` and leaves the remaining input
untouched; and for every `i` — negative values included —
`VarInt::calculate_size` (respectively `VarLong`) equals the exact number of
bytes the writer emits.  For negative `i` the roundtrip fails (the writer
emits a single truncated byte): see the counterexample. -/
theorem varint_varlong_roundtrip_and_size (v : Int) (rest : List Nat) :
    (0 ≤ v → v < 2 ^ 31 →
      read_unsigned_varint (write_unsigned_varint v ++ rest) = .ok (v, rest)) ∧
      (0 ≤ v → v < 2 ^ 63 →
        read_unsigned_varlong (write_unsigned_varlong v ++ rest) = .ok (v, rest)) ∧
      (write_unsigned_varint v).length = varint_calculate_size v ∧
      (write_unsigned_varlong v).length = varlong_calculate_size v := by
  refine ⟨?_, ?_, write_unsigned_varint_length v, write_unsigned_varint_length v⟩
  · intro h0 h1
    have h := readUvarLoop_write 32 v.toNat v le_rfl h0 0 0 rest (by norm_num)
      (by simp only [pow_zero, mul_one, Nat.zero_add]; omega) (by norm_num)
    rw [read_unsigned_varint, h]
    congr 2
    simp only [pow_zero, mul_one, Nat.zero_add]
    omega
  · intro h0 h1
    have h := readUvarLoop_write 64 v.toNat v le_rfl h0 0 0 rest (by norm_num)
      (by simp only [pow_zero, mul_one, Nat.zero_add]; omega) (by norm_num)
    rw [read_unsigned_varlong, write_unsigned_varlong, h]
    congr 2
    simp only [pow_zero, mul_one, Nat.zero_add]
    omega

/-- Witness for C5's amended theorem at `i = 300` and a non-empty rest. -/
theorem varint_varlong_roundtrip_and_size_witness :
    read_unsigned_varint (write_unsigned_varint 300 ++ [7]) = .ok (300, [7]) ∧
      read_unsigned_varlong (write_unsigned_varlong 300 ++ [7]) = .ok (300, [7]) ∧
      (write_unsigned_varint 300).length = varint_calculate_size 300 ∧
      (write_unsigned_varlong 300).length = varlong_calculate_size 300 :=
  ⟨(varint_varlong_roundtrip_and_size 300 [7]).1 (by norm_num) (by norm_num),
    (varint_varlong_roundtrip_and_size 300 [7]).2.1 (by norm_num) (by norm_num),
    (varint_varlong_roundtrip_and_size 300 [7]).2.2.1,
    (varint_varlong_roundtrip_and_size 300 [7]).2.2.2⟩

/-- C6: on the input whose first five bytes all carry the continuation bit,
the 32-bit varint decoder does not bail out as malformed: it consumes a
sixth byte and returns a value.  (These are the release-profile semantics —
the only guard in the source is a `debug_assert!(i < 5)`, compiled out in
release; under debug assertions the process aborts, which is not the
specified malformed-input error either.) -/
theorem read_unsigned_varint_six_bytes :
    read_unsigned_varint [128, 128, 128, 128, 128, 0] = .ok (0, []) ∧
      ∀ e, read_unsigned_varint [128, 128, 128, 128, 128, 0] ≠ .error e := by
  have h : read_unsigned_varint [128, 128, 128, 128, 128, 0] = .ok (0, []) := rfl
  refine ⟨h, fun e he => ?_⟩
  rw [h] at he
  cases he


/-! ## Theorems: NullableString decoding is total over payload contents -/

/-- C10: whenever the decoded length is a non-negative `n` and `n` payload
bytes are available, `NullableString` decoding succeeds — for arbitrary
payload bytes, valid UTF-8 or not — returning the lossy conversion of the
payload (invalid sequences replaced by U+FFFD = 0xFFFD), never a decode
error; shown for both the flexible (varint) and classic (`i16`) framings,
together with the replacement on the concrete invalid byte 0xFF. -/
theorem nullable_string_decode_total (payload rest input : List Nat) (n : Int)
    (h0 : 0 ≤ n) (hlen : (payload.length : Int) = n) :
    (read_unsigned_varint input = .ok (n + 1, payload ++ rest) →
      nullableStringDecode true input = .ok (some (utf8Lossy payload), rest)) ∧
      (read_int16_be input = .ok (n, payload ++ rest) →
        nullableStringDecode false input = .ok (some (utf8Lossy payload), rest)) ∧
      utf8Lossy [255] = [0xFFFD] := by
  have ht : n.toNat = payload.length := by omega
  have hbytes : read_bytes n (payload ++ rest) = .ok (some payload, rest) := by
    rw [read_bytes, if_neg (by omega : ¬ n = -1), if_pos h0,
      if_pos (by simp [ht] : n.toNat ≤ (payload ++ rest).length), ht,
      List.take_left, List.drop_left]
  have hlossy : utf8Lossy [255] = [0xFFFD] := by
    rw [utf8Lossy]
    norm_num
    rw [utf8Lossy]
  refine ⟨?_, ?_, hlossy⟩
  · intro hpre
    rw [nullableStringDecode]
    simp only [if_pos rfl, hpre, bind, Except.bind, pure, Except.pure, add_sub_cancel_right,
      hbytes]
    simp
  · intro hpre
    rw [nullableStringDecode]
    simp only [Bool.false_eq_true, if_false, hpre, bind, Except.bind, pure, Except.pure,
      hbytes]
    simp

/-- Witness for C10 at length 1 and the invalid payload byte 0xFF. -/
theorem nullable_string_decode_total_witness :
    read_unsigned_varint [2, 255] = .ok (1 + 1, [255] ++ []) ∧
      nullableStringDecode true [2, 255] = .ok (some (utf8Lossy [255]), []) ∧
      utf8Lossy [255] = [0xFFFD] :=
  ⟨rfl,
    (nullable_string_decode_total [255] [] [2, 255] 1 (by norm_num) (by norm_num)).1 rfl,
    (nullable_string_decode_total [255] [] [2, 255] 1 (by norm_num) (by norm_num)).2.2⟩


/-! ## Theorems: record-batch `set_last_offset` frame conditions -/

theorem natToBytesBE_length : ∀ (k u : Nat), (natToBytesBE k u).length = k := by
  intro k
  induction k with
  | zero => intro u; rfl
  | succ k ih =>
    intro u
    simp [natToBytesBE, ih]

theorem bytesToNatBE_append_singleton (l : List Nat) (b : Nat) :
    bytesToNatBE (l ++ [b]) = bytesToNatBE l * 256 + b := by
  rw [bytesToNatBE, bytesToNatBE, List.foldl_append]
  rfl

theorem bytesToNatBE_natToBytesBE : ∀ (k u : Nat),
    bytesToNatBE (natToBytesBE k u) = u % 256 ^ k := by
  intro k
  induction k with
  | zero =>
    intro u
    simp only [natToBytesBE, bytesToNatBE, List.foldl_nil, pow_zero, Nat.mod_one]
  | succ k ih =>
    intro u
    rw [natToBytesBE, bytesToNatBE_append_singleton, ih]
    rw [pow_succ, Nat.mul_comm (256 ^ k) 256, Nat.mod_mul]
    ring

theorem toSigned64_emod (x : Int) (h1 : -2 ^ 63 ≤ x) (h2 : x < 2 ^ 63) :
    toSigned 64 ((x % 2 ^ 64).toNat) = x := by
  rw [toSigned]
  split_ifs with h
  all_goals omega

theorem take_eq_of_length {l1 l2 : List Nat} {n : Nat} (h : l1.length = n) :
    (l1 ++ l2).take n = l1 := by
  subst h
  exact List.take_left _ _

theorem drop_eq_of_length {l1 l2 : List Nat} {n : Nat} (h : l1.length = n) :
    (l1 ++ l2).drop n = l2 := by
  subst h
  exact List.drop_left _ _

theorem set_last_offset_drop_eight (batch : List Nat) (v : Int) :
    (set_last_offset batch v).drop 8 = batch.drop 8 := by
  simp only [set_last_offset]
  exact drop_eq_of_length (natToBytesBE_length 8 _)

/-- C9: for a record batch with the fixed header present (length at least
61 = `RECORD_BATCH_OVERHEAD`) and an in-range new base offset,
`set_last_offset v` writes `base_offset = v - last_offset_delta` so that
`last_offset()` afterwards equals `v`, and leaves every byte beyond the
8-byte `base_offset` field — length, partition_leader_epoch, magic, crc,
attributes, last_offset_delta, timestamps, producer fields, records_count
and all record bytes — unchanged, preserving the buffer length. -/
theorem set_last_offset_frame (batch : List Nat) (v : Int)
    (hlen : 61 ≤ batch.length)
    (hr1 : -2 ^ 63 ≤ v - last_offset_delta batch)
    (hr2 : v - last_offset_delta batch < 2 ^ 63) :
    last_offset (set_last_offset batch v) = v ∧
      (set_last_offset batch v).length = batch.length ∧
      ∀ i, 8 ≤ i → (set_last_offset batch v).getD i 0 = batch.getD i 0 := by
  have hAlen : (natToBytesBE 8 (((v - last_offset_delta batch) % 2 ^ 64).toNat)).length = 8 :=
    natToBytesBE_length 8 _
  have h23 : ∀ l : List Nat, l.drop 23 = (l.drop 8).drop 15 := by
    intro l
    rw [List.drop_drop]
  have hdelta : last_offset_delta (set_last_offset batch v) = last_offset_delta batch := by
    rw [last_offset_delta, last_offset_delta, readI32BE, readI32BE, h23,
      set_last_offset_drop_eight, ← h23]
  refine ⟨?_, ?_, ?_⟩
  · rw [last_offset, hdelta, base_offset, readI64BE, List.drop_zero]
    simp only [set_last_offset]
    rw [take_eq_of_length hAlen]
    rw [bytesToNatBE_natToBytesBE]
    rw [show ((256 : Nat) ^ 8) = 2 ^ 64 from by norm_num]
    rw [Nat.mod_eq_of_lt (by omega)]
    rw [toSigned64_emod _ hr1 hr2]
    omega
  · simp only [set_last_offset]
    rw [List.length_append, hAlen, List.length_drop]
    omega
  · intro i hi
    simp only [set_last_offset]
    rw [List.getD_append_right _ _ _ _ (by omega), hAlen]
    rw [List.getD_eq_getElem?_getD, List.getD_eq_getElem?_getD, List.getElem?_drop]
    congr 2
    omega

/-- Witness for C9 on a 61-byte all-zero batch and `v = 5`. -/
theorem set_last_offset_frame_witness :
    61 ≤ (List.replicate 61 0 : List Nat).length ∧
      -2 ^ 63 ≤ (5 : Int) - last_offset_delta (List.replicate 61 0) ∧
      (5 : Int) - last_offset_delta (List.replicate 61 0) < 2 ^ 63 ∧
      (last_offset (set_last_offset (List.replicate 61 0) 5) = 5 ∧
        (set_last_offset (List.replicate 61 0) 5).length =
          (List.replicate 61 0 : List Nat).length ∧
        ∀ i, 8 ≤ i → (set_last_offset (List.replicate 61 0) 5).getD i 0 =
          (List.replicate 61 0 : List Nat).getD i 0) :=
  ⟨by decide, by decide, by decide,
    set_last_offset_frame (List.replicate 61 0) 5 (by decide) (by decide) (by decide)⟩


/-! ## Theorems: Pub/Sub pull -/

/-- C4 counterexample: one split `[0, 2)` holding two messages, stored acks
`[(0, 1)]` and `max_messages = 1`.  The single requested interval is
`[1, 2)`, yet the pull returns both messages — the already-acknowledged id
`0` (outside every requested interval) is re-delivered, and the
message count `2` exceeds `max_messages = 1`. -/
theorem pull_counterexample :
    pull [((0 : Int), (1 : Int))] 1 [⟨0, 0, 2⟩] (fun _ => [(10 : Nat), 11]) =
        [(0, 10), (1, 11)] ∧
      pullRanges [((0 : Int), (1 : Int))] 1 = [(1, 2)] ∧
      ¬ (pull [((0 : Int), (1 : Int))] 1 [⟨0, 0, 2⟩] (fun _ => [(10 : Nat), 11])).length ≤ 1 ∧
      ∃ m ∈ pull [((0 : Int), (1 : Int))] 1 [⟨0, 0, 2⟩] (fun _ => [(10 : Nat), 11]),
        ∀ r ∈ pullRanges [((0 : Int), (1 : Int))] 1, ¬ (r.1 ≤ m.1 ∧ m.1 < r.2) := by
  refine ⟨rfl, rfl, by decide, ⟨(0, 10), by decide⟩⟩

/-- C4 (amended): every message returned by a pull comes from a split row
that overlaps one of the requested unacked intervals, and its
`message_id = split.start_offset + index` lies inside that split's
`[start_offset, end_offset)` range (given that each split blob holds
exactly `end_offset - start_offset` messages, as `publish` commits them).
Ids outside the requested intervals may be returned and the total may
exceed `max_messages`, as the counterexample shows. -/
theorem pull_ids_within_overlapping_splits {α : Type} (acks : List (Int × Int))
    (M : Int) (splits : List TopicSplit) (storage : Nat → List α)
    (hcount : ∀ sp ∈ splits,
      ((storage sp.split_id).length : Int) = sp.end_offset - sp.start_offset) :
    ∀ m ∈ pull acks M splits storage,
      ∃ sp ∈ splits,
        (∃ r ∈ pullRanges acks M, sp.start_offset < r.2 ∧ r.1 < sp.end_offset) ∧
        sp.start_offset ≤ m.1 ∧ m.1 < sp.end_offset := by
  intro m hm
  simp only [pull, List.mem_flatMap] at hm
  obtain ⟨sp, hsp, hmem⟩ := hm
  obtain ⟨r, hr, hspr⟩ := hsp
  rw [fetch_topic_splits, List.mem_filter] at hspr
  obtain ⟨hspmem, hcond⟩ := hspr
  simp only [Bool.and_eq_true, decide_eq_true_eq] at hcond
  obtain ⟨p, hp, hmp⟩ := List.mem_map.mp hmem
  have hlt : p.1 < (storage sp.split_id).length := List.fst_lt_of_mem_enum hp
  have hc := hcount sp hspmem
  refine ⟨sp, hspmem, ⟨r, hr, hcond⟩, ?_, ?_⟩
  · rw [← hmp]
    simp only
    omega
  · rw [← hmp]
    simp only
    omega

/-- Witness for C4's amended theorem on an aligned configuration. -/
theorem pull_ids_within_overlapping_splits_witness :
    (∀ sp ∈ [(⟨0, 0, 2⟩ : TopicSplit)],
      (((fun _ => [(10 : Nat), 11]) sp.split_id : List Nat).length : Int) =
        sp.end_offset - sp.start_offset) ∧
      ∀ m ∈ pull [] 2 [(⟨0, 0, 2⟩ : TopicSplit)] (fun _ => [(10 : Nat), 11]),
        ∃ sp ∈ [(⟨0, 0, 2⟩ : TopicSplit)],
          (∃ r ∈ pullRanges [] 2, sp.start_offset < r.2 ∧ r.1 < sp.end_offset) ∧
          sp.start_offset ≤ m.1 ∧ m.1 < sp.end_offset :=
  ⟨by decide,
    pull_ids_within_overlapping_splits [] 2 [⟨0, 0, 2⟩] (fun _ => [10, 11]) (by decide)⟩


/-! ### C7 lemma layer: encoder lengths equal computed sizes -/

theorem length_int8Enc (v : Int) : (int8Enc v).length = 1 := natToBytesBE_length 1 _

theorem length_int16Enc (v : Int) : (int16Enc v).length = 2 := natToBytesBE_length 2 _

theorem length_int32Enc (v : Int) : (int32Enc v).length = 4 := natToBytesBE_length 4 _

theorem length_int64Enc (v : Int) : (int64Enc v).length = 8 := natToBytesBE_length 8 _

theorem length_uuidEnc (u : Nat) : (uuidEnc u).length = 16 := natToBytesBE_length 16 u

theorem length_boolEnc (b : Bool) : (boolEnc b).length = 1 := rfl

theorem varint_calculate_size_small {t : Int} (h0 : 0 ≤ t) (h1 : t < 128) :
    varint_calculate_size t = 1 := by
  rw [varint_calculate_size, dif_neg (by omega)]

theorem lenPlusOne_zero : lenPlusOne 0 = 1 := by decide

theorem length_nullableStringEnc (fl : Bool) (v : Option (List Nat)) :
    (nullableStringEnc fl v).length = nullableStringSize fl v := by
  have h0 : varint_calculate_size 0 = 1 :=
    varint_calculate_size_small (by norm_num) (by norm_num)
  have h1 : varint_calculate_size 1 = 1 :=
    varint_calculate_size_small (by norm_num) (by norm_num)
  cases v with
  | none =>
    cases fl with
    | false => simp [nullableStringEnc, nullableStringSize, length_int16Enc]
    | true =>
      simp [nullableStringEnc, nullableStringSize, write_unsigned_varint_length,
        lenPlusOne_zero, h0, h1]
  | some bs =>
    cases fl with
    | false => simp [nullableStringEnc, nullableStringSize, length_int16Enc]
    | true => simp [nullableStringEnc, nullableStringSize, write_unsigned_varint_length]

theorem length_nullableBytesEnc (fl : Bool) (v : Option (List Nat)) :
    (nullableBytesEnc fl v).length = nullableBytesSize fl v := by
  have h0 : varint_calculate_size 0 = 1 :=
    varint_calculate_size_small (by norm_num) (by norm_num)
  have h1 : varint_calculate_size 1 = 1 :=
    varint_calculate_size_small (by norm_num) (by norm_num)
  cases v with
  | none =>
    cases fl with
    | false => simp [nullableBytesEnc, nullableBytesSize, length_int32Enc]
    | true =>
      simp [nullableBytesEnc, nullableBytesSize, write_unsigned_varint_length,
        lenPlusOne_zero, h0, h1]
  | some bs =>
    cases fl with
    | false => simp [nullableBytesEnc, nullableBytesSize, length_int32Enc]
    | true => simp [nullableBytesEnc, nullableBytesSize, write_unsigned_varint_length]

theorem length_writeTaggedField (f : RawTaggedField) :
    (writeTaggedField f).length = taggedFieldSize f := by
  simp [writeTaggedField, taggedFieldSize, write_unsigned_varint_length]
  omega

theorem length_flatMap_writeTaggedField : ∀ fs : List RawTaggedField,
    (fs.flatMap writeTaggedField).length = (fs.map taggedFieldSize).sum := by
  intro fs
  induction fs with
  | nil => rfl
  | cons f fs ih => simp [length_writeTaggedField, ih]

theorem length_rawTaggedFieldListEncWith (n : Nat) (fs : List RawTaggedField)
    (extra : List Nat) :
    (rawTaggedFieldListEncWith n fs extra).length =
      rawTaggedFieldListSizeWith n extra.length fs := by
  simp only [rawTaggedFieldListEncWith, rawTaggedFieldListSizeWith,
    List.length_append, write_unsigned_varint_length, length_flatMap_writeTaggedField]
  omega

theorem length_rawTaggedFieldListEnc (fs : List RawTaggedField) :
    (rawTaggedFieldListEnc fs).length = rawTaggedFieldListSize fs := by
  have h := length_rawTaggedFieldListEncWith 0 fs []
  simpa [rawTaggedFieldListEnc, rawTaggedFieldListSize] using h

theorem encodeListE_ok_length {α : Type} (f : α → Except String (List Nat))
    (g : α → Nat) :
    ∀ xs : List α, (∀ x ∈ xs, ∀ b, f x = .ok b → b.length = g x) →
      ∀ bs, encodeListE f xs = .ok bs → bs.length = (xs.map g).sum := by
  intro xs
  induction xs with
  | nil =>
    intro _ bs h
    rw [encodeListE] at h
    injection h with h
    subst h
    rfl
  | cons x xs ih =>
    intro hall bs h
    rw [encodeListE] at h
    cases hfx : f x with
    | error e => rw [hfx] at h; simp [bind, Except.bind] at h
    | ok b =>
      rw [hfx] at h
      cases hrec : encodeListE f xs with
      | error e => rw [hrec] at h; simp [bind, Except.bind] at h
      | ok bs2 =>
        rw [hrec] at h
        try simp only [bind, Except.bind, pure, Except.pure] at h
        injection h with h
        subst h
        have h1 := hall x (by simp) b hfx
        have h2 := ih (fun y hy => hall y (by simp [hy])) bs2 hrec
        simp [h1, h2]

theorem nullableArrayEnc_ok_length {α : Type} (f : α → Except String (List Nat))
    (g : α → Nat) (fl : Bool) (v : Option (List α))
    (hall : ∀ xs, v = some xs → ∀ x ∈ xs, ∀ b, f x = .ok b → b.length = g x) :
    ∀ bs, nullableArrayEnc f fl v = .ok bs → bs.length = nullableArraySize g fl v := by
  intro bs h
  cases v with
  | none =>
    rw [nullableArrayEnc] at h
    injection h with h
    subst h
    cases fl with
    | false => simp [nullableArraySize, length_int32Enc]
    | true => simp [nullableArraySize, write_unsigned_varint_length]
  | some xs =>
    rw [nullableArrayEnc] at h
    cases hrec : encodeListE f xs with
    | error e => rw [hrec] at h; simp [bind, Except.bind] at h
    | ok body =>
      rw [hrec] at h
      try simp only [bind, Except.bind, pure, Except.pure] at h
      injection h with h
      subst h
      have hb := encodeListE_ok_length f g xs (hall xs rfl) body hrec
      cases fl with
      | false => simp [nullableArraySize, length_int32Enc, hb]
      | true => simp [nullableArraySize, write_unsigned_varint_length, hb]

theorem writeField_ok_length (tag : Int) (size : Nat)
    (pe : Except String (List Nat)) (hpe : ∀ p, pe = .ok p → p.length = size) :
    ∀ bs, writeField tag size pe = .ok bs → bs.length = calcFieldSize tag size := by
  intro bs h
  rw [writeField] at h
  cases hp : pe with
  | error e => rw [hp] at h; simp [bind, Except.bind] at h
  | ok p =>
    rw [hp] at h
    try simp only [bind, Except.bind, pure, Except.pure] at h
    injection h with h
    subst h
    simp [calcFieldSize, write_unsigned_varint_length, hpe p hp]
    omega

theorem calcFieldSize_small_tag {t : Int} (h0 : 0 ≤ t) (h1 : t < 128) (s : Nat) :
    calcFieldSize t s = calcFieldSize 0 s := by
  rw [calcFieldSize, calcFieldSize, varint_calculate_size_small h0 h1,
    varint_calculate_size_small le_rfl (by norm_num)]


theorem ResponseHeader_write_length (v : ResponseHeader) (ver : Int) :
    (ResponseHeader.write v ver).length = ResponseHeader.calculate_size v ver := by
  cases h1 : verAtLeast ver 1 <;>
    simp [ResponseHeader.write, ResponseHeader.calculate_size, h1, length_int32Enc,
      length_rawTaggedFieldListEnc, List.length_append]

theorem ApiVersion_write_length (v : ApiVersion) (ver : Int) (bs : List Nat)
    (h : ApiVersion.write v ver = .ok bs) :
    bs.length = ApiVersion.calculate_size v ver := by
  rw [ApiVersion.write] at h
  injection h with h
  subst h
  cases h3 : verAtLeast ver 3 <;>
    simp [ApiVersion.calculate_size, h3, length_int16Enc,
      length_rawTaggedFieldListEnc, List.length_append]
  all_goals omega

theorem SupportedFeatureKey_write_length (v : SupportedFeatureKey) (ver : Int)
    (bs : List Nat) (h : SupportedFeatureKey.write v ver = .ok bs) :
    bs.length = SupportedFeatureKey.calculate_size v ver := by
  rw [SupportedFeatureKey.write] at h
  cases hg : verAbove ver 3 with
  | true => rw [if_pos hg] at h; exact Except.noConfusion h
  | false =>
    rw [if_neg (by simp [hg])] at h
    injection h with h
    subst h
    simp [SupportedFeatureKey.calculate_size, length_nullableStringEnc, length_int16Enc,
      length_rawTaggedFieldListEnc, List.length_append]
    omega

theorem FinalizedFeatureKey_write_length (v : FinalizedFeatureKey) (ver : Int)
    (bs : List Nat) (h : FinalizedFeatureKey.write v ver = .ok bs) :
    bs.length = FinalizedFeatureKey.calculate_size v ver := by
  rw [FinalizedFeatureKey.write] at h
  cases hg : verAbove ver 3 with
  | true => rw [if_pos hg] at h; exact Except.noConfusion h
  | false =>
    rw [if_neg (by simp [hg])] at h
    injection h with h
    subst h
    simp [FinalizedFeatureKey.calculate_size, length_nullableStringEnc, length_int16Enc,
      length_rawTaggedFieldListEnc, List.length_append]
    omega

theorem CreatableTopicConfigs_write_length (v : CreatableTopicConfigs) (ver : Int)
    (bs : List Nat) (h : CreatableTopicConfigs.write v ver = .ok bs) :
    bs.length = CreatableTopicConfigs.calculate_size v ver := by
  rw [CreatableTopicConfigs.write] at h
  cases hg : verBelow ver 5 with
  | true => rw [if_pos hg] at h; exact Except.noConfusion h
  | false =>
    rw [if_neg (by simp [hg])] at h
    injection h with h
    subst h
    simp [CreatableTopicConfigs.calculate_size, length_nullableStringEnc,
      length_boolEnc, length_int8Enc, length_rawTaggedFieldListEnc, List.length_append]
    omega

theorem Coordinator_write_length (v : Coordinator) (ver : Int) (bs : List Nat)
    (h : Coordinator.write v ver = .ok bs) :
    bs.length = Coordinator.calculate_size v ver := by
  rw [Coordinator.write] at h
  cases hg : verAbove ver 4 with
  | true => rw [if_pos hg] at h; exact Except.noConfusion h
  | false =>
    rw [if_neg (by simp [hg])] at h
    injection h with h
    subst h
    simp [Coordinator.calculate_size, length_nullableStringEnc, length_int32Enc,
      length_int16Enc, length_rawTaggedFieldListEnc, List.length_append]
    omega

theorem EpochEndOffset_write_length (v : EpochEndOffset) (ver : Int) (bs : List Nat)
    (h : EpochEndOffset.write v ver = .ok bs) :
    bs.length = EpochEndOffset.calculate_size v ver := by
  rw [EpochEndOffset.write] at h
  cases hg : verBelow ver 12 with
  | true => rw [if_pos hg] at h; exact Except.noConfusion h
  | false =>
    rw [if_neg (by simp [hg])] at h
    injection h with h
    subst h
    simp [EpochEndOffset.calculate_size, length_int32Enc, length_int64Enc,
      length_rawTaggedFieldListEnc, List.length_append]
    omega

theorem LeaderIdAndEpoch_write_length (v : LeaderIdAndEpoch) (ver : Int) (bs : List Nat)
    (h : LeaderIdAndEpoch.write v ver = .ok bs) :
    bs.length = LeaderIdAndEpoch.calculate_size v ver := by
  rw [LeaderIdAndEpoch.write] at h
  cases hg : verBelow ver 12 with
  | true => rw [if_pos hg] at h; exact Except.noConfusion h
  | false =>
    rw [if_neg (by simp [hg])] at h
    injection h with h
    subst h
    simp [LeaderIdAndEpoch.calculate_size, length_int32Enc,
      length_rawTaggedFieldListEnc, List.length_append]
    omega

theorem SnapshotId_write_length (v : SnapshotId) (ver : Int) (bs : List Nat)
    (h : SnapshotId.write v ver = .ok bs) :
    bs.length = SnapshotId.calculate_size v ver := by
  rw [SnapshotId.write] at h
  cases hg : verBelow ver 12 with
  | true => rw [if_pos hg] at h; exact Except.noConfusion h
  | false =>
    rw [if_neg (by simp [hg])] at h
    injection h with h
    subst h
    simp [SnapshotId.calculate_size, length_int32Enc, length_int64Enc,
      length_rawTaggedFieldListEnc, List.length_append]
    omega

theorem AbortedTransaction_write_length (v : AbortedTransaction) (ver : Int)
    (bs : List Nat) (h : AbortedTransaction.write v ver = .ok bs) :
    bs.length = AbortedTransaction.calculate_size v ver := by
  rw [AbortedTransaction.write] at h
  cases hg : verBelow ver 4 with
  | true => rw [if_pos hg] at h; exact Except.noConfusion h
  | false =>
    rw [if_neg (by simp [hg])] at h
    injection h with h
    subst h
    cases h12 : verAtLeast ver 12 <;>
      simp [AbortedTransaction.calculate_size, h12, length_int64Enc,
        length_rawTaggedFieldListEnc, List.length_append]
    all_goals omega

theorem HeartbeatResponse_write_length (v : HeartbeatResponse) (ver : Int)
    (bs : List Nat) (h : HeartbeatResponse.write v ver = .ok bs) :
    bs.length = HeartbeatResponse.calculate_size v ver := by
  rw [HeartbeatResponse.write] at h
  injection h with h
  subst h
  cases h1 : verAtLeast ver 1 <;> cases h4 : verAtLeast ver 4 <;>
    simp [HeartbeatResponse.calculate_size, h1, h4, length_int32Enc, length_int16Enc,
      length_rawTaggedFieldListEnc, List.length_append]
  all_goals omega

theorem InitProducerIdResponse_write_length (v : InitProducerIdResponse) (ver : Int)
    (bs : List Nat) (h : InitProducerIdResponse.write v ver = .ok bs) :
    bs.length = InitProducerIdResponse.calculate_size v ver := by
  rw [InitProducerIdResponse.write] at h
  injection h with h
  subst h
  cases h2 : verAtLeast ver 2 <;>
    simp [InitProducerIdResponse.calculate_size, h2, length_int32Enc, length_int16Enc,
      length_int64Enc, length_rawTaggedFieldListEnc, List.length_append]
  all_goals omega

theorem JoinGroupResponseMember_write_length (v : JoinGroupResponseMember) (ver : Int)
    (bs : List Nat) (h : JoinGroupResponseMember.write v ver = .ok bs) :
    bs.length = JoinGroupResponseMember.calculate_size v ver := by
  rw [JoinGroupResponseMember.write] at h
  injection h with h
  subst h
  cases h5 : verAtLeast ver 5 <;> cases h6 : verAtLeast ver 6 <;>
    simp [JoinGroupResponseMember.calculate_size, h5, h6, length_nullableStringEnc,
      length_nullableBytesEnc, length_rawTaggedFieldListEnc, List.length_append]
  all_goals omega

theorem MetadataResponseBroker_write_length (v : MetadataResponseBroker) (ver : Int)
    (bs : List Nat) (h : MetadataResponseBroker.write v ver = .ok bs) :
    bs.length = MetadataResponseBroker.calculate_size v ver := by
  rw [MetadataResponseBroker.write] at h
  injection h with h
  subst h
  cases h1 : verAtLeast ver 1 <;> cases h9 : verAtLeast ver 9 <;>
    simp [MetadataResponseBroker.calculate_size, h1, h9, length_int32Enc,
      length_nullableStringEnc, length_rawTaggedFieldListEnc, List.length_append]
  all_goals omega

theorem OffsetFetchResponsePartition_write_length (v : OffsetFetchResponsePartition)
    (ver : Int) (bs : List Nat) (h : OffsetFetchResponsePartition.write v ver = .ok bs) :
    bs.length = OffsetFetchResponsePartition.calculate_size v ver := by
  rw [OffsetFetchResponsePartition.write] at h
  injection h with h
  subst h
  cases h5 : verAtLeast ver 5 <;> cases h6 : verAtLeast ver 6 <;>
    simp [OffsetFetchResponsePartition.calculate_size, h5, h6, length_int32Enc,
      length_int64Enc, length_int16Enc, length_nullableStringEnc,
      length_rawTaggedFieldListEnc, List.length_append]
  all_goals omega

theorem OffsetFetchResponsePartitions_write_length (v : OffsetFetchResponsePartitions)
    (ver : Int) (bs : List Nat)
    (h : OffsetFetchResponsePartitions.write v ver = .ok bs) :
    bs.length = OffsetFetchResponsePartitions.calculate_size v ver := by
  rw [OffsetFetchResponsePartitions.write] at h
  injection h with h
  subst h
  simp [OffsetFetchResponsePartitions.calculate_size, length_int32Enc, length_int64Enc,
    length_int16Enc, length_nullableStringEnc, length_rawTaggedFieldListEnc,
    List.length_append]
  omega

theorem BatchIndexAndErrorMessage_write_length (v : BatchIndexAndErrorMessage)
    (ver : Int) (bs : List Nat) (h : BatchIndexAndErrorMessage.write v ver = .ok bs) :
    bs.length = BatchIndexAndErrorMessage.calculate_size v ver := by
  rw [BatchIndexAndErrorMessage.write] at h
  cases hg : verBelow ver 8 with
  | true => rw [if_pos hg] at h; exact Except.noConfusion h
  | false =>
    rw [if_neg (by simp [hg])] at h
    injection h with h
    subst h
    cases h9 : verAtLeast ver 9 <;>
      simp [BatchIndexAndErrorMessage.calculate_size, h9, length_int32Enc,
        length_nullableStringEnc, length_rawTaggedFieldListEnc, List.length_append]
    all_goals omega

theorem SyncGroupResponse_write_length (v : SyncGroupResponse) (ver : Int)
    (bs : List Nat) (h : SyncGroupResponse.write v ver = .ok bs) :
    bs.length = SyncGroupResponse.calculate_size v ver := by
  rw [SyncGroupResponse.write] at h
  injection h with h
  subst h
  cases h1 : verAtLeast ver 1 <;> cases h5 : verAtLeast ver 5 <;>
    cases h4 : verAtLeast ver 4 <;>
    simp [SyncGroupResponse.calculate_size, h1, h5, h4, length_int32Enc,
      length_int16Enc, length_nullableStringEnc, length_nullableBytesEnc,
      length_rawTaggedFieldListEnc, List.length_append]
  all_goals omega


theorem MetadataResponsePartition_write_length (v : MetadataResponsePartition)
    (ver : Int) (bs : List Nat) (h : MetadataResponsePartition.write v ver = .ok bs) :
    bs.length = MetadataResponsePartition.calculate_size v ver := by
  rw [MetadataResponsePartition.write] at h
  have hint : ∀ xs : List Int, some xs = some xs → ∀ x ∈ xs, ∀ b : List Nat,
      Except.ok (ε := String) (int32Enc x) = .ok b → b.length = 4 := by
    intro xs _ x _ b hb
    injection hb with hb
    subst hb
    exact length_int32Enc x
  cases hrep : nullableArrayEnc (fun i => .ok (int32Enc i)) (verAtLeast ver 9)
      (some v.replica_nodes) with
  | error e => rw [hrep] at h; simp [bind, Except.bind] at h
  | ok reps =>
  rw [hrep] at h
  try simp only [bind, Except.bind, pure, Except.pure] at h
  cases hisr : nullableArrayEnc (fun i => .ok (int32Enc i)) (verAtLeast ver 9)
      (some v.isr_nodes) with
  | error e => rw [hisr] at h; simp [bind, Except.bind] at h
  | ok isr =>
  rw [hisr] at h
  try simp only [bind, Except.bind, pure, Except.pure] at h
  have hrepl := nullableArrayEnc_ok_length (fun i => .ok (int32Enc i)) (fun _ => 4)
    (verAtLeast ver 9) (some v.replica_nodes) (fun xs hxs => hint xs rfl) reps hrep
  have hisrl := nullableArrayEnc_ok_length (fun i => .ok (int32Enc i)) (fun _ => 4)
    (verAtLeast ver 9) (some v.isr_nodes) (fun xs hxs => hint xs rfl) isr hisr
  cases h5 : verAtLeast ver 5 with
  | true =>
    rw [if_pos h5] at h
    cases hoff : nullableArrayEnc (fun i => .ok (int32Enc i)) (verAtLeast ver 9)
        (some v.offline_replicas) with
    | error e => rw [hoff] at h; simp [bind, Except.bind] at h
    | ok offline =>
      rw [hoff] at h
      try simp only [bind, Except.bind, pure, Except.pure] at h
      injection h with h
      subst h
      have hoffl := nullableArrayEnc_ok_length (fun i => .ok (int32Enc i)) (fun _ => 4)
        (verAtLeast ver 9) (some v.offline_replicas) (fun xs hxs => hint xs rfl)
        offline hoff
      cases h7 : verAtLeast ver 7 <;> cases h9 : verAtLeast ver 9 <;>
        simp [MetadataResponsePartition.calculate_size, h5, h7, h9, hrepl, hisrl, hoffl,
          length_int16Enc, length_int32Enc, length_rawTaggedFieldListEnc,
          List.length_append]
      all_goals omega
  | false =>
    rw [if_neg (by simp [h5])] at h
    try simp only [bind, Except.bind, pure, Except.pure] at h
    injection h with h
    subst h
    cases h7 : verAtLeast ver 7 <;> cases h9 : verAtLeast ver 9 <;>
      simp [MetadataResponsePartition.calculate_size, h5, h7, h9, hrepl, hisrl,
        length_int16Enc, length_int32Enc, length_rawTaggedFieldListEnc,
        List.length_append]
    all_goals omega

theorem PartitionProduceResponse_write_length (v : PartitionProduceResponse) (ver : Int)
    (bs : List Nat) (h : PartitionProduceResponse.write v ver = .ok bs) :
    bs.length = PartitionProduceResponse.calculate_size v ver := by
  rw [PartitionProduceResponse.write] at h
  cases h8 : verAtLeast ver 8 with
  | true =>
    rw [if_pos h8] at h
    cases hre : nullableArrayEnc (fun b => BatchIndexAndErrorMessage.write b ver)
        (verAtLeast ver 9) (some v.record_errors) with
    | error e => rw [hre] at h; simp [bind, Except.bind] at h
    | ok recErrs =>
      rw [hre] at h
      try simp only [bind, Except.bind, pure, Except.pure] at h
      injection h with h
      subst h
      have hrel := nullableArrayEnc_ok_length _
        (fun b => BatchIndexAndErrorMessage.calculate_size b ver) _ _
        (fun xs hxs x hx b hb => BatchIndexAndErrorMessage_write_length x ver b hb)
        recErrs hre
      cases h2 : verAtLeast ver 2 <;> cases h5 : verAtLeast ver 5 <;>
        cases h9 : verAtLeast ver 9 <;>
        simp [PartitionProduceResponse.calculate_size, h8, h2, h5, h9, hrel,
          length_int32Enc, length_int16Enc, length_int64Enc, length_nullableStringEnc,
          length_rawTaggedFieldListEnc, List.length_append]
      all_goals omega
  | false =>
    rw [if_neg (by simp [h8])] at h
    try simp only [bind, Except.bind, pure, Except.pure] at h
    injection h with h
    subst h
    cases h2 : verAtLeast ver 2 <;> cases h5 : verAtLeast ver 5 <;>
      cases h9 : verAtLeast ver 9 <;>
      simp [PartitionProduceResponse.calculate_size, h8, h2, h5, h9,
        length_int32Enc, length_int16Enc, length_int64Enc, length_nullableStringEnc,
        length_rawTaggedFieldListEnc, List.length_append]
    all_goals omega

theorem TopicProduceResponse_write_length (v : TopicProduceResponse) (ver : Int)
    (bs : List Nat) (h : TopicProduceResponse.write v ver = .ok bs) :
    bs.length = TopicProduceResponse.calculate_size v ver := by
  rw [TopicProduceResponse.write] at h
  cases hp : nullableArrayEnc (fun p => PartitionProduceResponse.write p ver)
      (verAtLeast ver 9) (some v.partition_responses) with
  | error e => rw [hp] at h; simp [bind, Except.bind] at h
  | ok parts =>
    rw [hp] at h
    try simp only [bind, Except.bind, pure, Except.pure] at h
    injection h with h
    subst h
    have hpl := nullableArrayEnc_ok_length _
      (fun p => PartitionProduceResponse.calculate_size p ver) _ _
      (fun xs hxs x hx b hb => PartitionProduceResponse_write_length x ver b hb)
      parts hp
    cases h9 : verAtLeast ver 9 <;>
      simp [TopicProduceResponse.calculate_size, h9, hpl, length_nullableStringEnc,
        length_rawTaggedFieldListEnc, List.length_append]
    all_goals omega

theorem ProduceResponse_write_length (v : ProduceResponse) (ver : Int) (bs : List Nat)
    (h : ProduceResponse.write v ver = .ok bs) :
    bs.length = ProduceResponse.calculate_size v ver := by
  rw [ProduceResponse.write] at h
  cases hp : nullableArrayEnc (fun t => TopicProduceResponse.write t ver)
      (verAtLeast ver 9) (some v.responses) with
  | error e => rw [hp] at h; simp [bind, Except.bind] at h
  | ok resps =>
    rw [hp] at h
    try simp only [bind, Except.bind, pure, Except.pure] at h
    injection h with h
    subst h
    have hpl := nullableArrayEnc_ok_length _
      (fun t => TopicProduceResponse.calculate_size t ver) _ _
      (fun xs hxs x hx b hb => TopicProduceResponse_write_length x ver b hb) resps hp
    cases h1 : verAbove ver 1 <;> cases h9 : verAtLeast ver 9 <;>
      simp [ProduceResponse.calculate_size, h1, h9, hpl, length_int32Enc,
        length_rawTaggedFieldListEnc, List.length_append]
    all_goals omega

theorem OffsetFetchResponseTopic_write_length (v : OffsetFetchResponseTopic) (ver : Int)
    (bs : List Nat) (h : OffsetFetchResponseTopic.write v ver = .ok bs) :
    bs.length = OffsetFetchResponseTopic.calculate_size v ver := by
  rw [OffsetFetchResponseTopic.write] at h
  cases hg : verAbove ver 7 with
  | true => rw [if_pos hg] at h; exact Except.noConfusion h
  | false =>
    rw [if_neg (by simp [hg])] at h
    cases hp : nullableArrayEnc (fun p => OffsetFetchResponsePartition.write p ver)
        (verAtLeast ver 6) (some v.partitions) with
    | error e => rw [hp] at h; simp [bind, Except.bind] at h
    | ok parts =>
      rw [hp] at h
      try simp only [bind, Except.bind, pure, Except.pure] at h
      injection h with h
      subst h
      have hpl := nullableArrayEnc_ok_length _
        (fun p => OffsetFetchResponsePartition.calculate_size p ver) _ _
        (fun xs hxs x hx b hb => OffsetFetchResponsePartition_write_length x ver b hb)
        parts hp
      cases h6 : verAtLeast ver 6 <;>
        simp [OffsetFetchResponseTopic.calculate_size, h6, hpl,
          length_nullableStringEnc, length_rawTaggedFieldListEnc, List.length_append]
      all_goals omega

theorem OffsetFetchResponseTopics_write_length (v : OffsetFetchResponseTopics)
    (ver : Int) (bs : List Nat) (h : OffsetFetchResponseTopics.write v ver = .ok bs) :
    bs.length = OffsetFetchResponseTopics.calculate_size v ver := by
  rw [OffsetFetchResponseTopics.write] at h
  cases hp : nullableArrayEnc (fun p => OffsetFetchResponsePartitions.write p ver) true
      (some v.partitions) with
  | error e => rw [hp] at h; simp [bind, Except.bind] at h
  | ok parts =>
    rw [hp] at h
    try simp only [bind, Except.bind, pure, Except.pure] at h
    injection h with h
    subst h
    have hpl := nullableArrayEnc_ok_length _
      (fun p => OffsetFetchResponsePartitions.calculate_size p ver) _ _
      (fun xs hxs x hx b hb => OffsetFetchResponsePartitions_write_length x ver b hb)
      parts hp
    simp [OffsetFetchResponseTopics.calculate_size, hpl, length_nullableStringEnc,
      length_rawTaggedFieldListEnc, List.length_append]
    omega

theorem OffsetFetchResponseGroup_write_length (v : OffsetFetchResponseGroup) (ver : Int)
    (bs : List Nat) (h : OffsetFetchResponseGroup.write v ver = .ok bs) :
    bs.length = OffsetFetchResponseGroup.calculate_size v ver := by
  rw [OffsetFetchResponseGroup.write] at h
  cases hg : verBelow ver 8 with
  | true => rw [if_pos hg] at h; exact Except.noConfusion h
  | false =>
    rw [if_neg (by simp [hg])] at h
    cases hp : nullableArrayEnc (fun t => OffsetFetchResponseTopics.write t ver) true
        (some v.topics) with
    | error e => rw [hp] at h; simp [bind, Except.bind] at h
    | ok topics =>
      rw [hp] at h
      try simp only [bind, Except.bind, pure, Except.pure] at h
      injection h with h
      subst h
      have hpl := nullableArrayEnc_ok_length _
        (fun t => OffsetFetchResponseTopics.calculate_size t ver) _ _
        (fun xs hxs x hx b hb => OffsetFetchResponseTopics_write_length x ver b hb)
        topics hp
      simp [OffsetFetchResponseGroup.calculate_size, hpl, length_nullableStringEnc,
        length_int16Enc, length_rawTaggedFieldListEnc, List.length_append]
      omega

theorem OffsetFetchResponse_write_length (v : OffsetFetchResponse) (ver : Int)
    (bs : List Nat) (h : OffsetFetchResponse.write v ver = .ok bs) :
    bs.length = OffsetFetchResponse.calculate_size v ver := by
  rw [OffsetFetchResponse.write] at h
  cases h7 : verAtMost ver 7 with
  | true =>
    rw [if_pos h7] at h
    cases hp : nullableArrayEnc (fun t => OffsetFetchResponseTopic.write t ver)
        (verAtLeast ver 6) (some v.topics) with
    | error e => rw [hp] at h; simp [bind, Except.bind] at h
    | ok topics =>
      rw [hp] at h
      try simp only [bind, Except.bind, pure, Except.pure] at h
      have hpl := nullableArrayEnc_ok_length _
        (fun t => OffsetFetchResponseTopic.calculate_size t ver) _ _
        (fun xs hxs x hx b hb => OffsetFetchResponseTopic_write_length x ver b hb)
        topics hp
      cases h8 : verAtLeast ver 8 with
      | true =>
        rw [if_pos h8] at h
        cases hq : nullableArrayEnc (fun g => OffsetFetchResponseGroup.write g ver) true
            (some v.groups) with
        | error e => rw [hq] at h; simp [bind, Except.bind] at h
        | ok groups =>
          rw [hq] at h
          try simp only [bind, Except.bind, pure, Except.pure] at h
          injection h with h
          subst h
          have hql := nullableArrayEnc_ok_length _
            (fun g => OffsetFetchResponseGroup.calculate_size g ver) _ _
            (fun xs hxs x hx b hb => OffsetFetchResponseGroup_write_length x ver b hb)
            groups hq
          cases h3 : verAtLeast ver 3 <;> cases h2 : verAtLeast ver 2 <;>
            cases h6 : verAtLeast ver 6 <;>
            simp [OffsetFetchResponse.calculate_size, h3, h2, h6, h7, h8, hpl, hql,
              length_int32Enc, length_int16Enc, length_rawTaggedFieldListEnc,
              List.length_append]
          all_goals omega
      | false =>
        rw [if_neg (by simp [h8])] at h
        try simp only [bind, Except.bind, pure, Except.pure] at h
        injection h with h
        subst h
        cases h3 : verAtLeast ver 3 <;> cases h2 : verAtLeast ver 2 <;>
          cases h6 : verAtLeast ver 6 <;>
          simp [OffsetFetchResponse.calculate_size, h3, h2, h6, h7, h8, hpl,
            length_int32Enc, length_int16Enc, length_rawTaggedFieldListEnc,
            List.length_append]
        all_goals omega
  | false =>
    rw [if_neg (by simp [h7])] at h
    try simp only [bind, Except.bind, pure, Except.pure] at h
    cases h8 : verAtLeast ver 8 with
    | true =>
      rw [if_pos h8] at h
      cases hq : nullableArrayEnc (fun g => OffsetFetchResponseGroup.write g ver) true
          (some v.groups) with
      | error e => rw [hq] at h; simp [bind, Except.bind] at h
      | ok groups =>
        rw [hq] at h
        try simp only [bind, Except.bind, pure, Except.pure] at h
        injection h with h
        subst h
        have hql := nullableArrayEnc_ok_length _
          (fun g => OffsetFetchResponseGroup.calculate_size g ver) _ _
          (fun xs hxs x hx b hb => OffsetFetchResponseGroup_write_length x ver b hb)
          groups hq
        cases h3 : verAtLeast ver 3 <;> cases h2 : verAtLeast ver 2 <;>
          cases h6 : verAtLeast ver 6 <;>
          simp [OffsetFetchResponse.calculate_size, h3, h2, h6, h7, h8, hql,
            length_int32Enc, length_int16Enc, length_rawTaggedFieldListEnc,
            List.length_append]
        all_goals omega
    | false =>
      rw [if_neg (by simp [h8])] at h
      try simp only [bind, Except.bind, pure, Except.pure] at h
      injection h with h
      subst h
      cases h3 : verAtLeast ver 3 <;> cases h2 : verAtLeast ver 2 <;>
        cases h6 : verAtLeast ver 6 <;>
        simp [OffsetFetchResponse.calculate_size, h3, h2, h6, h7, h8,
          length_int32Enc, length_int16Enc, length_rawTaggedFieldListEnc,
          List.length_append]
      all_goals omega

theorem JoinGroupResponse_write_length (v : JoinGroupResponse) (ver : Int)
    (bs : List Nat) (h : JoinGroupResponse.write v ver = .ok bs) :
    bs.length = JoinGroupResponse.calculate_size v ver := by
  rw [JoinGroupResponse.write] at h
  cases hg : verBelow ver 7 && v.protocol_name.isNone with
  | true => rw [if_pos hg] at h; exact Except.noConfusion h
  | false =>
    rw [if_neg (by simp [hg])] at h
    cases hm : nullableArrayEnc (fun m => JoinGroupResponseMember.write m ver)
        (verAtLeast ver 6) (some v.members) with
    | error e => rw [hm] at h; simp [bind, Except.bind] at h
    | ok members =>
      rw [hm] at h
      try simp only [bind, Except.bind, pure, Except.pure] at h
      injection h with h
      subst h
      have hml := nullableArrayEnc_ok_length _
        (fun m => JoinGroupResponseMember.calculate_size m ver) _ _
        (fun xs hxs x hx b hb => JoinGroupResponseMember_write_length x ver b hb)
        members hm
      cases h2 : verAtLeast ver 2 <;> cases h7 : verAtLeast ver 7 <;>
        cases h9 : verAtLeast ver 9 <;> cases h6 : verAtLeast ver 6 <;>
        simp [JoinGroupResponse.calculate_size, h2, h7, h9, h6, hml, length_int32Enc,
          length_int16Enc, length_boolEnc, length_nullableStringEnc,
          length_rawTaggedFieldListEnc, List.length_append]
      all_goals omega


theorem MetadataResponseTopic.writeName_ok_length (name : Option (List Nat)) (ver : Int)
    (b : List Nat) (h : MetadataResponseTopic.writeName name ver = .ok b) :
    b.length = nullableStringSize (verAtLeast ver 9) name := by
  cases name with
  | some nm =>
    simp only [MetadataResponseTopic.writeName] at h
    injection h with h
    subst h
    exact length_nullableStringEnc _ _
  | none =>
    simp only [MetadataResponseTopic.writeName] at h
    cases h12 : verAtLeast ver 12 with
    | false => rw [if_neg (by simp [h12])] at h; exact Except.noConfusion h
    | true =>
      rw [if_pos h12] at h
      injection h with h
      subst h
      have h12' : (12 : Int) ≤ ver := by simpa [verAtLeast] using h12
      have h9 : verAtLeast ver 9 = true := by
        simp only [verAtLeast, decide_eq_true_eq]
        omega
      rw [length_nullableStringEnc, h9]

theorem PartitionData.tagField0_ok_length (o : Option EpochEndOffset) (ver : Int)
    (b : List Nat) (h : PartitionData.tagField0 o ver = .ok b) :
    b.length = PartitionData.tagFieldSize0 o ver := by
  cases o with
  | none =>
    simp only [PartitionData.tagField0] at h
    injection h with h
    subst h
    rfl
  | some de =>
    simp only [PartitionData.tagField0] at h
    simp only [PartitionData.tagFieldSize0]
    exact writeField_ok_length 0 _ _ (fun p hp => EpochEndOffset_write_length de ver p hp)
      b h

theorem PartitionData.tagField1_ok_length (o : Option LeaderIdAndEpoch) (ver : Int)
    (b : List Nat) (h : PartitionData.tagField1 o ver = .ok b) :
    b.length = PartitionData.tagFieldSize1 o ver := by
  cases o with
  | none =>
    simp only [PartitionData.tagField1] at h
    injection h with h
    subst h
    rfl
  | some cl =>
    simp only [PartitionData.tagField1] at h
    simp only [PartitionData.tagFieldSize1]
    have hb := writeField_ok_length 1 _ _
      (fun p hp => LeaderIdAndEpoch_write_length cl ver p hp) b h
    rw [hb, calcFieldSize_small_tag (by norm_num) (by norm_num)]

theorem PartitionData.tagField2_ok_length (o : Option SnapshotId) (ver : Int)
    (b : List Nat) (h : PartitionData.tagField2 o ver = .ok b) :
    b.length = PartitionData.tagFieldSize2 o ver := by
  cases o with
  | none =>
    simp only [PartitionData.tagField2] at h
    injection h with h
    subst h
    rfl
  | some sn =>
    simp only [PartitionData.tagField2] at h
    simp only [PartitionData.tagFieldSize2]
    have hb := writeField_ok_length 2 _ _
      (fun p hp => SnapshotId_write_length sn ver p hp) b h
    rw [hb, calcFieldSize_small_tag (by norm_num) (by norm_num)]

theorem MetadataResponseTopic_write_length (v : MetadataResponseTopic) (ver : Int)
    (bs : List Nat) (h : MetadataResponseTopic.write v ver = .ok bs) :
    bs.length = MetadataResponseTopic.calculate_size v ver := by
  rw [MetadataResponseTopic.write] at h
  cases hn : MetadataResponseTopic.writeName v.name ver with
  | error e => rw [hn] at h; simp [bind, Except.bind] at h
  | ok nameBytes =>
    rw [hn] at h
    try simp only [bind, Except.bind, pure, Except.pure] at h
    cases hp : nullableArrayEnc (fun p => MetadataResponsePartition.write p ver)
        (verAtLeast ver 9) (some v.partitions) with
    | error e => rw [hp] at h; simp [bind, Except.bind] at h
    | ok parts =>
      rw [hp] at h
      try simp only [bind, Except.bind, pure, Except.pure] at h
      injection h with h
      subst h
      have hnl := MetadataResponseTopic.writeName_ok_length v.name ver nameBytes hn
      have hpl := nullableArrayEnc_ok_length _
        (fun p => MetadataResponsePartition.calculate_size p ver) _ _
        (fun xs hxs x hx b hb => MetadataResponsePartition_write_length x ver b hb)
        parts hp
      cases h10 : verAtLeast ver 10 <;> cases h1 : verAtLeast ver 1 <;>
        cases h8 : verAtLeast ver 8 <;> cases h9 : verAtLeast ver 9 <;>
        simp [MetadataResponseTopic.calculate_size, h10, h1, h8, h9, hnl, hpl,
          length_int16Enc, length_int32Enc, length_uuidEnc, length_boolEnc,
          length_rawTaggedFieldListEnc, List.length_append]
      all_goals omega

theorem MetadataResponse_write_length (v : MetadataResponse) (ver : Int)
    (bs : List Nat) (h : MetadataResponse.write v ver = .ok bs) :
    bs.length = MetadataResponse.calculate_size v ver := by
  rw [MetadataResponse.write] at h
  cases hb : nullableArrayEnc (fun b => MetadataResponseBroker.write b ver)
      (verAtLeast ver 9) (some v.brokers) with
  | error e => rw [hb] at h; simp [bind, Except.bind] at h
  | ok brokers =>
    rw [hb] at h
    try simp only [bind, Except.bind, pure, Except.pure] at h
    cases ht : nullableArrayEnc (fun t => MetadataResponseTopic.write t ver)
        (verAtLeast ver 9) (some v.topics) with
    | error e => rw [ht] at h; simp [bind, Except.bind] at h
    | ok topics =>
      rw [ht] at h
      try simp only [bind, Except.bind, pure, Except.pure] at h
      injection h with h
      subst h
      have hbl := nullableArrayEnc_ok_length _
        (fun b => MetadataResponseBroker.calculate_size b ver) _ _
        (fun xs hxs x hx b hb => MetadataResponseBroker_write_length x ver b hb)
        brokers hb
      have htl := nullableArrayEnc_ok_length _
        (fun t => MetadataResponseTopic.calculate_size t ver) _ _
        (fun xs hxs x hx b hb => MetadataResponseTopic_write_length x ver b hb)
        topics ht
      cases h3 : verAtLeast ver 3 <;> cases h2 : verAtLeast ver 2 <;>
        cases h1 : verAtLeast ver 1 <;> cases h8 : verAtLeast ver 8 <;>
        cases h10 : verAtMost ver 10 <;> cases h9 : verAtLeast ver 9 <;>
        simp [MetadataResponse.calculate_size, h3, h2, h1, h8, h10, h9, hbl, htl,
          length_int32Enc, length_nullableStringEnc, length_rawTaggedFieldListEnc,
          List.length_append]
      all_goals omega

theorem CreatableTopicResult_write_length (v : CreatableTopicResult) (ver : Int)
    (bs : List Nat) (h : CreatableTopicResult.write v ver = .ok bs) :
    bs.length = CreatableTopicResult.calculate_size v ver := by
  rw [CreatableTopicResult.write] at h
  cases h5 : verAtLeast ver 5 with
  | true =>
    rw [if_pos h5] at h
    cases hc : nullableArrayEnc (fun c => CreatableTopicConfigs.write c ver) true
        (some v.configs) with
    | error e => rw [hc] at h; simp [bind, Except.bind] at h
    | ok configs =>
      rw [hc] at h
      try simp only [bind, Except.bind, pure, Except.pure] at h
      rw [if_pos h5] at h
      cases hf0 : writeField 0 2 (.ok (int16Enc v.topic_config_error_code)) with
      | error e => rw [hf0] at h; simp [bind, Except.bind] at h
      | ok f0 =>
        rw [hf0] at h
        try simp only [bind, Except.bind, pure, Except.pure] at h
        injection h with h
        subst h
        have hcl := nullableArrayEnc_ok_length _
          (fun c => CreatableTopicConfigs.calculate_size c ver) _ _
          (fun xs hxs x hx b hb => CreatableTopicConfigs_write_length x ver b hb)
          configs hc
        have hf0l := writeField_ok_length 0 2 _
          (fun p hp => by injection hp with hp; subst hp; exact length_int16Enc _) f0 hf0
        cases h7 : verAtLeast ver 7 <;> cases h1 : verAtLeast ver 1 <;>
          simp [CreatableTopicResult.calculate_size, h5, h7, h1, hcl, hf0l,
            length_nullableStringEnc, length_uuidEnc, length_int16Enc, length_int32Enc,
            length_rawTaggedFieldListEncWith, List.length_append]
        all_goals omega
  | false =>
    rw [if_neg (by simp [h5])] at h
    try simp only [bind, Except.bind, pure, Except.pure] at h
    rw [if_neg (by simp [h5])] at h
    try simp only [bind, Except.bind, pure, Except.pure] at h
    injection h with h
    subst h
    cases h7 : verAtLeast ver 7 <;> cases h1 : verAtLeast ver 1 <;>
      simp [CreatableTopicResult.calculate_size, h5, h7, h1,
        length_nullableStringEnc, length_uuidEnc, length_int16Enc, length_int32Enc,
        List.length_append]
    all_goals omega

theorem CreateTopicsResponse_write_length (v : CreateTopicsResponse) (ver : Int)
    (bs : List Nat) (h : CreateTopicsResponse.write v ver = .ok bs) :
    bs.length = CreateTopicsResponse.calculate_size v ver := by
  rw [CreateTopicsResponse.write] at h
  cases ht : nullableArrayEnc (fun t => CreatableTopicResult.write t ver)
      (verAtLeast ver 5) (some v.topics) with
  | error e => rw [ht] at h; simp [bind, Except.bind] at h
  | ok topics =>
    rw [ht] at h
    try simp only [bind, Except.bind, pure, Except.pure] at h
    injection h with h
    subst h
    have htl := nullableArrayEnc_ok_length _
      (fun t => CreatableTopicResult.calculate_size t ver) _ _
      (fun xs hxs x hx b hb => CreatableTopicResult_write_length x ver b hb) topics ht
    cases h2 : verAtLeast ver 2 <;> cases h5 : verAtLeast ver 5 <;>
      simp [CreateTopicsResponse.calculate_size, h2, h5, htl, length_int32Enc,
        length_rawTaggedFieldListEnc, List.length_append]
    all_goals omega

theorem FindCoordinatorResponse_write_length (v : FindCoordinatorResponse) (ver : Int)
    (bs : List Nat) (h : FindCoordinatorResponse.write v ver = .ok bs) :
    bs.length = FindCoordinatorResponse.calculate_size v ver := by
  rw [FindCoordinatorResponse.write] at h
  cases h4 : verAtLeast ver 4 with
  | true =>
    rw [if_pos h4] at h
    cases hc : nullableArrayEnc (fun c => Coordinator.write c ver) true
        (some v.coordinators) with
    | error e => rw [hc] at h; simp [bind, Except.bind] at h
    | ok coords =>
      rw [hc] at h
      try simp only [bind, Except.bind, pure, Except.pure] at h
      injection h with h
      subst h
      have hcl := nullableArrayEnc_ok_length _
        (fun c => Coordinator.calculate_size c ver) _ _
        (fun xs hxs x hx b hb => Coordinator_write_length x ver b hb) coords hc
      cases h1 : verAtLeast ver 1 <;> cases hm3 : verAtMost ver 3 <;>
        cases h3 : verAtLeast ver 3 <;>
        simp [FindCoordinatorResponse.calculate_size, h1, hm3, h3, h4, hcl,
          length_int32Enc, length_int16Enc, length_nullableStringEnc,
          length_rawTaggedFieldListEnc, List.length_append]
      all_goals omega
  | false =>
    rw [if_neg (by simp [h4])] at h
    try simp only [bind, Except.bind, pure, Except.pure] at h
    injection h with h
    subst h
    cases h1 : verAtLeast ver 1 <;> cases hm3 : verAtMost ver 3 <;>
      cases h3 : verAtLeast ver 3 <;>
      simp [FindCoordinatorResponse.calculate_size, h1, hm3, h3, h4,
        length_int32Enc, length_int16Enc, length_nullableStringEnc,
        length_rawTaggedFieldListEnc, List.length_append]
    all_goals omega

theorem ApiVersionsResponse_write_length (v : ApiVersionsResponse) (ver : Int)
    (bs : List Nat) (h : ApiVersionsResponse.write v ver = .ok bs) :
    bs.length = ApiVersionsResponse.calculate_size v ver := by
  rw [ApiVersionsResponse.write] at h
  cases ha : nullableArrayEnc (fun a => ApiVersion.write a ver) (verAtLeast ver 3)
      (some v.api_keys) with
  | error e => rw [ha] at h; simp [bind, Except.bind] at h
  | ok apiKeys =>
    rw [ha] at h
    try simp only [bind, Except.bind, pure, Except.pure] at h
    have hal := nullableArrayEnc_ok_length _
      (fun a => ApiVersion.calculate_size a ver) _ _
      (fun xs hxs x hx b hb => ApiVersion_write_length x ver b hb) apiKeys ha
    cases h3 : verAtLeast ver 3 with
    | true =>
      rw [if_pos h3] at h
      cases hf0 : writeField 0
          (nullableArraySize (fun a => SupportedFeatureKey.calculate_size a ver)
            (verAtLeast ver 3) (some v.supported_features))
          (nullableArrayEnc (fun a => SupportedFeatureKey.write a ver)
            (verAtLeast ver 3) (some v.supported_features)) with
      | error e => rw [hf0] at h; simp [bind, Except.bind] at h
      | ok f0 =>
      rw [hf0] at h
      try simp only [bind, Except.bind, pure, Except.pure] at h
      cases hf1 : writeField 1 8 (.ok (int64Enc v.finalized_features_epoch)) with
      | error e => rw [hf1] at h; simp [bind, Except.bind] at h
      | ok f1 =>
      rw [hf1] at h
      try simp only [bind, Except.bind, pure, Except.pure] at h
      cases hf2 : writeField 2
          (nullableArraySize (fun a => FinalizedFeatureKey.calculate_size a ver)
            (verAtLeast ver 3) (some v.finalized_features))
          (nullableArrayEnc (fun a => FinalizedFeatureKey.write a ver)
            (verAtLeast ver 3) (some v.finalized_features)) with
      | error e => rw [hf2] at h; simp [bind, Except.bind] at h
      | ok f2 =>
      rw [hf2] at h
      try simp only [bind, Except.bind, pure, Except.pure] at h
      injection h with h
      subst h
      have hf0l := writeField_ok_length 0 _ _
        (fun p hp => nullableArrayEnc_ok_length _
          (fun a => SupportedFeatureKey.calculate_size a ver) _ _
          (fun xs hxs x hx b hb => SupportedFeatureKey_write_length x ver b hb) p hp)
        f0 hf0
      have hf1l := writeField_ok_length 1 8 _
        (fun p hp => by injection hp with hp; subst hp; exact length_int64Enc _) f1 hf1
      have hf2l := writeField_ok_length 2 _ _
        (fun p hp => nullableArrayEnc_ok_length _
          (fun a => FinalizedFeatureKey.calculate_size a ver) _ _
          (fun xs hxs x hx b hb => FinalizedFeatureKey_write_length x ver b hb) p hp)
        f2 hf2
      cases h1 : verAtLeast ver 1 <;>
        simp [ApiVersionsResponse.calculate_size, h3, h1, hal, hf0l, hf1l, hf2l,
          length_int16Enc, length_int32Enc, length_rawTaggedFieldListEncWith,
          List.length_append, Nat.add_assoc]
      all_goals omega
    | false =>
      rw [if_neg (by simp [h3])] at h
      try simp only [bind, Except.bind, pure, Except.pure] at h
      injection h with h
      subst h
      cases h1 : verAtLeast ver 1 <;>
        simp [ApiVersionsResponse.calculate_size, h3, h1, hal, length_int16Enc,
          length_int32Enc, List.length_append]
      all_goals omega

theorem PartitionData_write_length (v : PartitionData) (ver : Int) (bs : List Nat)
    (h : PartitionData.write v ver = .ok bs) :
    bs.length = PartitionData.calculate_size v ver := by
  rw [PartitionData.write] at h
  cases h4 : verAtLeast ver 4 with
  | true =>
    rw [if_pos h4] at h
    cases hab : nullableArrayEnc (fun a => AbortedTransaction.write a ver)
        (verAtLeast ver 12) v.aborted_transactions with
    | error e => rw [hab] at h; simp [bind, Except.bind] at h
    | ok aborted =>
    rw [hab] at h
    try simp only [bind, Except.bind, pure, Except.pure] at h
    have habl := nullableArrayEnc_ok_length _
      (fun a => AbortedTransaction.calculate_size a ver) _ _
      (fun xs hxs x hx b hb => AbortedTransaction_write_length x ver b hb) aborted hab
    cases h12 : verAtLeast ver 12 with
    | true =>
      rw [if_pos h12] at h
      cases ht0 : PartitionData.tagField0 v.diverging_epoch ver with
      | error e => rw [ht0] at h; simp [bind, Except.bind] at h
      | ok f0 =>
      rw [ht0] at h
      try simp only [bind, Except.bind, pure, Except.pure] at h
      cases ht1 : PartitionData.tagField1 v.current_leader ver with
      | error e => rw [ht1] at h; simp [bind, Except.bind] at h
      | ok f1 =>
      rw [ht1] at h
      try simp only [bind, Except.bind, pure, Except.pure] at h
      cases ht2 : PartitionData.tagField2 v.snapshot_id ver with
      | error e => rw [ht2] at h; simp [bind, Except.bind] at h
      | ok f2 =>
      rw [ht2] at h
      try simp only [bind, Except.bind, pure, Except.pure] at h
      injection h with h
      subst h
      have ht0l := PartitionData.tagField0_ok_length v.diverging_epoch ver f0 ht0
      have ht1l := PartitionData.tagField1_ok_length v.current_leader ver f1 ht1
      have ht2l := PartitionData.tagField2_ok_length v.snapshot_id ver f2 ht2
      cases h5 : verAtLeast ver 5 <;> cases h11 : verAtLeast ver 11 <;>
        simp [PartitionData.calculate_size, h4, h12, h5, h11, habl, ht0l, ht1l, ht2l,
          length_int32Enc, length_int16Enc, length_int64Enc, length_nullableBytesEnc,
          length_rawTaggedFieldListEncWith, List.length_append, Nat.add_assoc]
      all_goals omega
    | false =>
      rw [if_neg (by simp [h12])] at h
      try simp only [bind, Except.bind, pure, Except.pure] at h
      injection h with h
      subst h
      cases h5 : verAtLeast ver 5 <;> cases h11 : verAtLeast ver 11 <;>
        simp [PartitionData.calculate_size, h4, h12, h5, h11, habl,
          length_int32Enc, length_int16Enc, length_int64Enc, length_nullableBytesEnc,
          List.length_append]
      all_goals omega
  | false =>
    rw [if_neg (by simp [h4])] at h
    try simp only [bind, Except.bind, pure, Except.pure] at h
    cases h12 : verAtLeast ver 12 with
    | true =>
      rw [if_pos h12] at h
      cases ht0 : PartitionData.tagField0 v.diverging_epoch ver with
      | error e => rw [ht0] at h; simp [bind, Except.bind] at h
      | ok f0 =>
      rw [ht0] at h
      try simp only [bind, Except.bind, pure, Except.pure] at h
      cases ht1 : PartitionData.tagField1 v.current_leader ver with
      | error e => rw [ht1] at h; simp [bind, Except.bind] at h
      | ok f1 =>
      rw [ht1] at h
      try simp only [bind, Except.bind, pure, Except.pure] at h
      cases ht2 : PartitionData.tagField2 v.snapshot_id ver with
      | error e => rw [ht2] at h; simp [bind, Except.bind] at h
      | ok f2 =>
      rw [ht2] at h
      try simp only [bind, Except.bind, pure, Except.pure] at h
      injection h with h
      subst h
      have ht0l := PartitionData.tagField0_ok_length v.diverging_epoch ver f0 ht0
      have ht1l := PartitionData.tagField1_ok_length v.current_leader ver f1 ht1
      have ht2l := PartitionData.tagField2_ok_length v.snapshot_id ver f2 ht2
      cases h5 : verAtLeast ver 5 <;> cases h11 : verAtLeast ver 11 <;>
        simp [PartitionData.calculate_size, h4, h12, h5, h11, ht0l, ht1l, ht2l,
          length_int32Enc, length_int16Enc, length_int64Enc, length_nullableBytesEnc,
          length_rawTaggedFieldListEncWith, List.length_append, Nat.add_assoc]
      all_goals omega
    | false =>
      rw [if_neg (by simp [h12])] at h
      try simp only [bind, Except.bind, pure, Except.pure] at h
      injection h with h
      subst h
      cases h5 : verAtLeast ver 5 <;> cases h11 : verAtLeast ver 11 <;>
        simp [PartitionData.calculate_size, h4, h12, h5, h11,
          length_int32Enc, length_int16Enc, length_int64Enc, length_nullableBytesEnc,
          List.length_append]
      all_goals omega

theorem FetchableTopicResponse_write_length (v : FetchableTopicResponse) (ver : Int)
    (bs : List Nat) (h : FetchableTopicResponse.write v ver = .ok bs) :
    bs.length = FetchableTopicResponse.calculate_size v ver := by
  rw [FetchableTopicResponse.write] at h
  cases hp : nullableArrayEnc (fun p => PartitionData.write p ver) (verAtLeast ver 12)
      (some v.partitions) with
  | error e => rw [hp] at h; simp [bind, Except.bind] at h
  | ok parts =>
    rw [hp] at h
    try simp only [bind, Except.bind, pure, Except.pure] at h
    injection h with h
    subst h
    have hpl := nullableArrayEnc_ok_length _
      (fun p => PartitionData.calculate_size p ver) _ _
      (fun xs hxs x hx b hb => PartitionData_write_length x ver b hb) parts hp
    cases hm12 : verAtMost ver 12 <;> cases h13 : verAtLeast ver 13 <;>
      cases h12 : verAtLeast ver 12 <;>
      simp [FetchableTopicResponse.calculate_size, hm12, h13, h12, hpl,
        length_nullableStringEnc, length_uuidEnc, length_rawTaggedFieldListEnc,
        List.length_append]
    all_goals omega

theorem FetchResponse_write_length (v : FetchResponse) (ver : Int) (bs : List Nat)
    (h : FetchResponse.write v ver = .ok bs) :
    bs.length = FetchResponse.calculate_size v ver := by
  rw [FetchResponse.write] at h
  cases hr : nullableArrayEnc (fun t => FetchableTopicResponse.write t ver)
      (verAtLeast ver 12) (some v.responses) with
  | error e => rw [hr] at h; simp [bind, Except.bind] at h
  | ok resps =>
    rw [hr] at h
    try simp only [bind, Except.bind, pure, Except.pure] at h
    injection h with h
    subst h
    have hrl := nullableArrayEnc_ok_length _
      (fun t => FetchableTopicResponse.calculate_size t ver) _ _
      (fun xs hxs x hx b hb => FetchableTopicResponse_write_length x ver b hb) resps hr
    cases h1 : verAtLeast ver 1 <;> cases h7 : verAtLeast ver 7 <;>
      cases h12 : verAtLeast ver 12 <;>
      simp [FetchResponse.calculate_size, h1, h7, h12, hrl, length_int32Enc,
        length_int16Enc, length_rawTaggedFieldListEnc, List.length_append]
    all_goals omega


theorem Response.do_encode_length (resp : Response) (ver : Int) (bs : List Nat)
    (h : Response.do_encode resp ver = .ok bs) :
    bs.length = Response.calculate_size resp ver := by
  cases resp with
  | ApiVersionsResponse r => exact ApiVersionsResponse_write_length r ver bs h
  | CreateTopicsResponse r => exact CreateTopicsResponse_write_length r ver bs h
  | FindCoordinatorResponse r => exact FindCoordinatorResponse_write_length r ver bs h
  | FetchResponse r => exact FetchResponse_write_length r ver bs h
  | HeartbeatResponse r => exact HeartbeatResponse_write_length r ver bs h
  | InitProducerIdResponse r => exact InitProducerIdResponse_write_length r ver bs h
  | JoinGroupResponse r => exact JoinGroupResponse_write_length r ver bs h
  | MetadataResponse r => exact MetadataResponse_write_length r ver bs h
  | OffsetFetchResponse r => exact OffsetFetchResponse_write_length r ver bs h
  | ProduceResponse r => exact ProduceResponse_write_length r ver bs h
  | SyncGroupResponse r => exact SyncGroupResponse_write_length r ver bs h

theorem asI32_of_lt {S : Nat} (h : S < 2 ^ 31) : asI32 S = (S : Int) := by
  rw [asI32, toSigned]
  split_ifs with hc <;> omega

theorem readI32_int32Enc_of_lt (S : Nat) (h : S < 2 ^ 31) (rest : List Nat) :
    readI32BE (int32Enc (asI32 S) ++ rest) 0 = (S : Int) := by
  rw [readI32BE, List.drop_zero, take_eq_of_length (length_int32Enc _), int32Enc,
    bytesToNatBE_natToBytesBE, asI32_of_lt h]
  have h2 : ((S : Int) % 2 ^ 32).toNat % 256 ^ 4 = S := by
    have h256 : (256 : Nat) ^ 4 = 2 ^ 32 := by norm_num
    rw [h256]
    omega
  rw [h2, toSigned]
  split_ifs with hc <;> omega


/-- C7: for every `Response` variant and api version on which `encode`
succeeds, the emitted `i32` length prefix equals
`size(header) + size(body)` as computed by `calculate_size` before
emission, and that value equals the exact number of header-plus-body bytes
written after the prefix.  (The `2^31` bound makes the `usize → i32` cast
of the prefix lossless, as in any realistically sized response.) -/
theorem response_encode_size_exact (resp : Response) (hdr : RequestHeader)
    (bytes : List Nat) (hok : Response.encode resp hdr = .ok bytes)
    (hbound : responseTotalSize resp hdr < 2 ^ 31) :
    bytes.take 4 = int32Enc (asI32 (responseTotalSize resp hdr)) ∧
    readI32BE bytes 0 = (responseTotalSize resp hdr : Int) ∧
    (bytes.drop 4).length = responseTotalSize resp hdr := by
  rw [Response.encode] at hok
  cases hk : apiMessageTypeTryFrom hdr.request_api_key with
  | error e => rw [hk] at hok; simp [bind, Except.bind] at hok
  | ok k =>
    rw [hk] at hok
    try simp only [bind, Except.bind, pure, Except.pure] at hok
    cases hb : Response.do_encode resp hdr.request_api_version with
    | error e => rw [hb] at hok; simp [bind, Except.bind] at hok
    | ok body =>
      rw [hb] at hok
      try simp only [bind, Except.bind, pure, Except.pure] at hok
      injection hok with hok
      subst hok
      have hS : Response.calculate_size resp hdr.request_api_version +
          ResponseHeader.calculate_size ⟨hdr.correlation_id, []⟩
            (responseHeaderVersion hdr.request_api_key hdr.request_api_version) =
          responseTotalSize resp hdr := rfl
      rw [hS]
      have hlen4 : (int32Enc (asI32 (responseTotalSize resp hdr))).length = 4 :=
        length_int32Enc _
      have hhl : (ResponseHeader.write ⟨hdr.correlation_id, []⟩
          (responseHeaderVersion hdr.request_api_key hdr.request_api_version)).length =
          ResponseHeader.calculate_size ⟨hdr.correlation_id, []⟩
            (responseHeaderVersion hdr.request_api_key hdr.request_api_version) :=
        ResponseHeader_write_length _ _
      have hbl : body.length = Response.calculate_size resp hdr.request_api_version :=
        Response.do_encode_length resp hdr.request_api_version body hb
      refine ⟨?_, ?_, ?_⟩
      · rw [List.append_assoc]
        exact take_eq_of_length hlen4
      · rw [List.append_assoc]
        exact readI32_int32Enc_of_lt _ hbound _
      · rw [List.append_assoc, drop_eq_of_length hlen4, List.length_append, hhl, hbl]
        rw [show responseTotalSize resp hdr =
          Response.calculate_size resp hdr.request_api_version +
            ResponseHeader.calculate_size ⟨hdr.correlation_id, []⟩
              (responseHeaderVersion hdr.request_api_key hdr.request_api_version)
          from rfl]
        omega

/-- Witness for `response_encode_size_exact`: a version-0 `Heartbeat`
response with correlation id 5 encodes to a 4-byte prefix holding 6
(2 body bytes + 4 header bytes) followed by exactly 6 bytes. -/
theorem response_encode_size_exact_witness :
    Response.encode (.HeartbeatResponse ⟨0, 0, []⟩) ⟨12, 0, 5⟩ =
      .ok [0, 0, 0, 6, 0, 0, 0, 5, 0, 0] ∧
    responseTotalSize (.HeartbeatResponse ⟨0, 0, []⟩) ⟨12, 0, 5⟩ < 2 ^ 31 ∧
    (([0, 0, 0, 6, 0, 0, 0, 5, 0, 0] : List Nat).take 4 =
      int32Enc (asI32 (responseTotalSize (.HeartbeatResponse ⟨0, 0, []⟩) ⟨12, 0, 5⟩)) ∧
    readI32BE [0, 0, 0, 6, 0, 0, 0, 5, 0, 0] 0 =
      (responseTotalSize (.HeartbeatResponse ⟨0, 0, []⟩) ⟨12, 0, 5⟩ : Int) ∧
    (([0, 0, 0, 6, 0, 0, 0, 5, 0, 0] : List Nat).drop 4).length =
      responseTotalSize (.HeartbeatResponse ⟨0, 0, []⟩) ⟨12, 0, 5⟩) :=
  ⟨rfl, by decide,
    response_encode_size_exact (.HeartbeatResponse ⟨0, 0, []⟩) ⟨12, 0, 5⟩
      [0, 0, 0, 6, 0, 0, 0, 5, 0, 0] rfl (by decide)⟩

end Morax
